import Mathlib

/-!
# Tunnel ionization (Smilei, `src/Ionization/IonizationTunnel.cpp`)

A shallow embedding of `IonizationTunnel::IonizationTunnel` and
`IonizationTunnel::operator()`.

* `double` values are elements of a linearly ordered field `R`; the calls into
  `<cmath>` (`exp`, `log`, `sqrt`, `pow`, `tgamma`) are the fields of `MathOps R`.
  The analytic statements instantiate `R` with the real numbers.
* Where the finite range of a `double` decides a statement, it is made explicit: `Dbl`
  evaluates the products of the ionization current with overflow to infinity and NaN, and
  `rangeOps` is a math library over `ℚ` whose `exp` and `pow` round and underflow as the
  double-precision ones do.
* `unsigned int` values are natural numbers, every operation reduced modulo `2^32`.
* `std::vector::operator[]` is unchecked in C++; here a read or write outside the
  vector makes the whole computation `none`.
* `while` is a recursion on an explicit iteration budget; an exhausted budget is
  `none` as well.
* `rand()` is a stream `rand : Nat → Nat` together with the number of calls made.
* The call `(*Proj)(...)` is recorded in a log of `(ipart, Jion)` pairs.
-/

namespace Smilei

/-! ## Machine integers -/

/-- Reduction of a natural number to an `unsigned int`. -/
def wrap (n : Nat) : Nat := n % 2 ^ 32

/-- Subtraction of two `unsigned int` values. -/
def usub (a b : Nat) : Nat := (a + (2 ^ 32 - b % 2 ^ 32)) % 2 ^ 32

/-- The cast `(unsigned int)` applied to a signed integer. -/
def toUInt (c : Int) : Nat := (c % 2 ^ 32).toNat

/-! ## Data -/

/-- The functions of `<cmath>` used by the source. -/
structure MathOps (R : Type) where
  exp : R → R
  log : R → R
  sqrt : R → R
  pow : R → R → R
  tgamma : R → R

/-- The struct `LocalFields`: three components of a field sampled at a particle. -/
structure LocalFields (R : Type) where
  x : R
  y : R
  z : R

/-- Modelled from the spec: `Particles.h` is not among the sources. One macro-particle
of the container: position (`dimension` components), momentum (3 components), weight
and integer charge. -/
structure Particle (R : Type) where
  position : List R
  momentum : R × R × R
  weight : R
  charge : Int

/-- Modelled from the spec: `Particles.h` is not among the sources. A particle
container with its number of position components. -/
structure Particles (R : Type) where
  dimension : Nat
  data : List (Particle R)

/-- A particle with `d` position components and every field zero. -/
def blankParticle {R : Type} [Zero R] (d : Nat) : Particle R :=
  { position := List.replicate d 0, momentum := (0, 0, 0), weight := 0, charge := 0 }

/-- Modelled from the spec: `Particles::create_particle` is not among the sources; it is
the container's append operation, adding one particle with zeroed fields. -/
def Particles.create_particle {R : Type} [Zero R] (ps : Particles R) : Particles R :=
  { dimension := ps.dimension, data := ps.data ++ [blankParticle ps.dimension] }

/-- Members of the base class `Ionization` (declared in `Ionization.h`, which is not
among the sources) that the tunnel model reads. -/
structure Ionization (R : Type) where
  atomic_number_ : Nat
  Potential : List R
  Azimuthal_quantum_number : List R
  au_to_w0 : R
  au_to_mec2 : R
  EC_to_au : R
  dt : R
  invdt : R
  ionized_species_invmass : R
  INV_RAND_MAX : R

/-- The object `IonizationTunnel`: the base members and the three coefficient tables. -/
structure IonizationTunnel (R : Type) extends Ionization R where
  one_third : R
  alpha_tunnel : List R
  beta_tunnel : List R
  gamma_tunnel : List R

set_option linter.unusedSectionVars false

variable {R : Type} [LinearOrderedField R]

/-- Checked write `v[i] = x`. -/
def store (v : List R) (i : Nat) (x : R) : Option (List R) :=
  if i < v.length then some (v.set i x) else none

/-! ## The constructor (lines 12-31) -/

/-- The body of the constructor loop for one `Z` (lines 23-26): the triple
`(alpha_tunnel[Z], beta_tunnel[Z], gamma_tunnel[Z])`. -/
def coefficients (ops : MathOps R) (base : Ionization R) (Z : Nat) : Option (R × R × R) :=
  (base.Potential[Z]?).bind fun pot =>
  (base.Azimuthal_quantum_number[Z]?).bind fun azi =>
    let cst := ((Z : R) + 1) * ops.sqrt (2 / pot)
    let alpha := cst - 1
    let beta := ops.pow 2 alpha * (8 * azi + 4) / (cst * ops.tgamma cst) * pot * base.au_to_w0
    let gamma := 2 * ops.pow (2 * pot) (3 / 2)
    some (alpha, beta, gamma)

/-- The constructor loop `for (Z=0; Z<atomic_number_; Z++)` with `n` iterations left,
starting at `Z`. -/
def fillTables (ops : MathOps R) (base : Ionization R) :
    Nat → Nat → List R × List R × List R → Option (List R × List R × List R)
  | 0, _, t => some t
  | n + 1, Z, (a, b, g) =>
    (coefficients ops base Z).bind fun c =>
    (store a Z c.1).bind fun a1 =>
    (store b Z c.2.1).bind fun b1 =>
    (store g Z c.2.2).bind fun g1 =>
      fillTables ops base n (wrap (Z + 1)) (a1, b1, g1)

/-- The constructor `IonizationTunnel::IonizationTunnel`. -/
def IonizationTunnel.new (ops : MathOps R) (base : Ionization R) : Option (IonizationTunnel R) :=
  let zeros : List R := List.replicate base.atomic_number_ 0
  (fillTables ops base base.atomic_number_ 0 (zeros, zeros, zeros)).bind fun t =>
    some { toIonization := base, one_third := 1 / 3,
           alpha_tunnel := t.1, beta_tunnel := t.2.1, gamma_tunnel := t.2.2 }

/-! ## The Monte-Carlo routine (lines 61-119) -/

/-- The rate expression of lines 63-65 and 95-97:
`beta_tunnel[Z] * exp(-delta*one_third + alpha_tunnel[Z]*log(delta))` with
`delta = gamma_tunnel[Z]*invE`. -/
def rate (ops : MathOps R) (ion : IonizationTunnel R) (Z : Nat) (invE : R) : Option R :=
  (ion.gamma_tunnel[Z]?).bind fun g =>
  (ion.beta_tunnel[Z]?).bind fun b =>
  (ion.alpha_tunnel[Z]?).bind fun a =>
    let delta := g * invE
    some (b * ops.exp (-delta * ion.one_third + a * ops.log delta))

/-- The two scratch vectors declared at line 39. -/
structure Scratch (R : Type) where
  IonizRate_tunnel : List R
  Dnom_tunnel : List R

/-- The variables alive across iterations of the `while` loop of line 93. -/
structure LoopState (R : Type) where
  scratch : Scratch R
  Mult : R
  Pint_tunnel : R
  TotalIonizPot : R
  k_times : Nat

/-- The inner loop of lines 101-105, with `n` iterations left, at index `i`. It returns
`Dnom_tunnel`, `D_sum` and `P_sum`. -/
def innerFor (ops : MathOps R) (dt : R) (rates : List R) (Z newZ : Nat) :
    Nat → Nat → List R → R → R → Option (List R × R × R)
  | 0, _, dnom, D_sum, P_sum => some (dnom, D_sum, P_sum)
  | n + 1, i, dnom, D_sum, P_sum =>
    (dnom[i]?).bind fun d =>
    (rates[newZ]?).bind fun rNew =>
    (rates[wrap (Z + i)]?).bind fun rI =>
    (store dnom i (d / (rNew - rI))).bind fun dnom1 =>
      innerFor ops dt rates Z newZ n (wrap (i + 1)) dnom1
        (D_sum + d / (rNew - rI)) (P_sum + ops.exp (-rI * dt) * (d / (rNew - rI)))

/-- One iteration of the `while` loop (lines 94-111). -/
def loopBody (ops : MathOps R) (ion : IonizationTunnel R) (Z Zp1 : Nat) (invE : R)
    (s : LoopState R) : Option (LoopState R) :=
  let newZ := wrap (Zp1 + s.k_times)
  (rate ops ion newZ invE).bind fun rNew =>
  (store s.scratch.IonizRate_tunnel newZ rNew).bind fun rates =>
  (rates[wrap (Z + s.k_times)]?).bind fun rK =>
    let Mult := s.Mult * rK
    (innerFor ops ion.dt rates Z newZ (wrap (s.k_times + 1)) 0 s.scratch.Dnom_tunnel 0 0).bind
      fun r =>
    (r.1[wrap (s.k_times + 1)]?).bind fun dOld =>
    (store r.1 (wrap (s.k_times + 1)) (dOld - r.2.1)).bind fun dnom =>
    (rates[newZ]?).bind fun rN =>
      let P_sum := r.2.2 + (dOld - r.2.1) * ops.exp (-rN * ion.dt)
      (ion.Potential[wrap (Z + s.k_times)]?).bind fun pot =>
        some { scratch := { IonizRate_tunnel := rates, Dnom_tunnel := dnom },
               Mult := Mult,
               Pint_tunnel := s.Pint_tunnel + P_sum * Mult,
               TotalIonizPot := s.TotalIonizPot + pot,
               k_times := wrap (s.k_times + 1) }

/-- The `while` loop of lines 93-112 with an iteration budget. -/
def whileLoop (ops : MathOps R) (ion : IonizationTunnel R) (Z Zp1 : Nat) (invE ran_p : R) :
    Nat → LoopState R → Option (LoopState R)
  | 0, s =>
    if s.Pint_tunnel < ran_p ∧ s.k_times < usub ion.atomic_number_ Zp1 then none else some s
  | fuel + 1, s =>
    if s.Pint_tunnel < ran_p ∧ s.k_times < usub ion.atomic_number_ Zp1 then
      (loopBody ops ion Z Zp1 invE s).bind (whileLoop ops ion Z Zp1 invE ran_p fuel)
    else some s

/-- What the Monte-Carlo routine leaves behind for one particle. -/
structure MCResult (R : Type) where
  scratch : Scratch R
  TotalIonizPot : R
  k_times : Nat

/-- The Monte-Carlo routine for one ion of charge `Z` (lines 61-119, the draw of `ran_p`
apart), from the scratch vectors as the previous particle left them. -/
def monteCarlo (ops : MathOps R) (ion : IonizationTunnel R) (fuel : Nat) (Z : Nat)
    (invE ran_p : R) (sc : Scratch R) : Option (MCResult R) :=
  (rate ops ion Z invE).bind fun r0 =>
  (store sc.IonizRate_tunnel Z r0).bind fun rates =>
    let Zp1 := wrap (Z + 1)
    if Zp1 = ion.atomic_number_ then
      (rates[Z]?).bind fun rZ =>
        if ran_p < 1 - ops.exp (-rZ * ion.dt) then
          (ion.Potential[Z]?).bind fun pot =>
            some { scratch := { sc with IonizRate_tunnel := rates },
                   TotalIonizPot := 0 + pot, k_times := 1 }
        else
          some { scratch := { sc with IonizRate_tunnel := rates },
                 TotalIonizPot := 0, k_times := 0 }
    else
      (store sc.Dnom_tunnel 0 1).bind fun dnom =>
      (rates[Z]?).bind fun rZ =>
      (whileLoop ops ion Z Zp1 invE ran_p fuel
          { scratch := { IonizRate_tunnel := rates, Dnom_tunnel := dnom },
            Mult := 1, Pint_tunnel := ops.exp (-rZ * ion.dt),
            TotalIonizPot := 0, k_times := 0 }).bind fun s =>
        if 1 - s.Pint_tunnel > ran_p ∧ s.k_times = usub ion.atomic_number_ Zp1 then
          (ion.Potential[usub ion.atomic_number_ 1]?).bind fun pot =>
            some { scratch := s.scratch, TotalIonizPot := s.TotalIonizPot + pot,
                   k_times := wrap (s.k_times + 1) }
        else
          some { scratch := s.scratch, TotalIonizPot := s.TotalIonizPot, k_times := s.k_times }

/-! ## The particle loop (lines 43-150) -/

/-- The state threaded through the particle loop. -/
structure State (R : Type) where
  particles : Particles R
  new_electrons : Particles R
  scratch : Scratch R
  projected : List (Nat × LocalFields R)
  nrand : Nat

/-- The field magnitude of lines 52-54. -/
def fieldNorm (ops : MathOps R) (ion : IonizationTunnel R) (F : LocalFields R) : R :=
  ion.EC_to_au * ops.sqrt (ops.pow F.x 2 + ops.pow F.y 2 + ops.pow F.z 2)

/-- The current of lines 62 and 122-125. -/
def ionCurrent (ion : IonizationTunnel R) (E : R) (F : LocalFields R) (TotalIonizPot : R) :
    LocalFields R :=
  let invE := 1 / E
  let factorJion_0 := ion.au_to_mec2 * ion.EC_to_au * ion.EC_to_au * ion.invdt
  let factorJion := factorJion_0 * invE * invE * TotalIonizPot
  { x := factorJion * F.x, y := factorJion * F.y, z := factorJion * F.z }

/-- The copy loop of lines 136-138 with `n` iterations left, at component `i`: it writes
`dst[i] = src[i]`. -/
def copyPosition (src : List R) : Nat → Nat → List R → Option (List R)
  | 0, _, dst => some dst
  | n + 1, i, dst =>
    (src[i]?).bind fun x =>
    (store dst i x).bind fun dst1 => copyPosition src n (wrap (i + 1)) dst1

/-- Lines 133-143: append one electron built from ion `p` and `k_times`. -/
def spawnElectron (ion : IonizationTunnel R) (electrons : Particles R) (p : Particle R)
    (k_times : Nat) : Option (Particles R) :=
  let created := electrons.create_particle
  let idNew := created.data.length - 1
  (created.data[idNew]?).bind fun e =>
  (copyPosition p.position created.dimension 0 e.position).bind fun pos =>
    let electron : Particle R :=
      { position := pos,
        momentum := (p.momentum.1 * ion.ionized_species_invmass,
                     p.momentum.2.1 * ion.ionized_species_invmass,
                     p.momentum.2.2 * ion.ionized_species_invmass),
        weight := (k_times : R) * p.weight,
        charge := -1 }
    some { dimension := created.dimension, data := created.data.set idNew electron }

/-- What lines 45-125 yield for one particle: it is skipped (lines 49 and 55), or the
Monte-Carlo routine ran and the current `Jion` was computed. -/
inductive Outcome (R : Type) where
  | skipped : Outcome R
  | processed (mc : MCResult R) (Jion : LocalFields R) : Outcome R

/-- The number of ionization events of an outcome. -/
def Outcome.k_times : Outcome R → Nat
  | .skipped => 0
  | .processed mc _ => mc.k_times

/-- Lines 45-125 for the particle of index `ipart`: the skip tests, the draw of `ran_p`,
the Monte-Carlo routine and the current. -/
def particleOutcome (ops : MathOps R) (ion : IonizationTunnel R) (fuel : Nat)
    (Epart : List (LocalFields R)) (rand : Nat → Nat) (ipart : Nat) (st : State R) :
    Option (Outcome R) :=
  (st.particles.data[ipart]?).bind fun p =>
    let Z := toUInt p.charge
    if Z = ion.atomic_number_ then some .skipped
    else
      (Epart[ipart]?).bind fun F =>
        let E := fieldNorm ops ion F
        if E = 0 then some .skipped
        else
          let ran_p := (rand st.nrand : R) * ion.INV_RAND_MAX
          (monteCarlo ops ion fuel Z (1 / E) ran_p st.scratch).bind fun mc =>
            some (.processed mc (ionCurrent ion E F mc.TotalIonizPot))

/-- The update `charge += k` of line 146 on one particle. -/
def Particle.addCharge (p : Particle R) (k : Nat) : Particle R :=
  { position := p.position, momentum := p.momentum, weight := p.weight,
    charge := p.charge + k }

/-- Lines 127-147 for the particle of index `ipart`: the projector call, the new electron
and the charge update. A skipped particle (`continue`) leaves the state as it is. -/
def applyOutcome (ion : IonizationTunnel R) (ipart : Nat) (st : State R) :
    Outcome R → Option (State R)
  | .skipped => some st
  | .processed mc Jion =>
    (st.particles.data[ipart]?).bind fun p =>
      let projected := st.projected ++ [(ipart, Jion)]
      if mc.k_times ≠ 0 then
        (spawnElectron ion st.new_electrons p mc.k_times).bind fun electrons =>
          some { particles := { dimension := st.particles.dimension,
                                data := st.particles.data.set ipart (p.addCharge mc.k_times) },
                 new_electrons := electrons,
                 scratch := mc.scratch,
                 projected := projected,
                 nrand := st.nrand + 1 }
      else
        some { st with scratch := mc.scratch, projected := projected,
                       nrand := st.nrand + 1 }

/-- The body of the particle loop for index `ipart` (lines 45-148). -/
def stepParticle (ops : MathOps R) (ion : IonizationTunnel R) (fuel : Nat)
    (Epart : List (LocalFields R)) (rand : Nat → Nat) (ipart : Nat) (st : State R) :
    Option (State R) :=
  (particleOutcome ops ion fuel Epart rand ipart st).bind (applyOutcome ion ipart st)

/-- The particle loop with `n` iterations left, at index `ipart`. -/
def particleLoop (ops : MathOps R) (ion : IonizationTunnel R) (fuel : Nat)
    (Epart : List (LocalFields R)) (rand : Nat → Nat) :
    Nat → Nat → State R → Option (State R)
  | 0, _, st => some st
  | n + 1, ipart, st =>
    (stepParticle ops ion fuel Epart rand ipart st).bind
      (particleLoop ops ion fuel Epart rand n (wrap (ipart + 1)))

/-- The initial state of a call: the scratch vectors of line 39 are zero-filled. -/
def initState (ion : IonizationTunnel R) (particles new_electrons : Particles R)
    (nrand : Nat) : State R :=
  { particles := particles, new_electrons := new_electrons,
    scratch := { IonizRate_tunnel := List.replicate ion.atomic_number_ 0,
                 Dnom_tunnel := List.replicate ion.atomic_number_ 0 },
    projected := [], nrand := nrand }

/-- The method `IonizationTunnel::operator()` on the range `[ipart_min, ipart_max)`. -/
def ionize (ops : MathOps R) (ion : IonizationTunnel R) (fuel : Nat)
    (particles new_electrons : Particles R) (ipart_min ipart_max : Nat)
    (Epart : List (LocalFields R)) (rand : Nat → Nat) (nrand : Nat) : Option (State R) :=
  particleLoop ops ion fuel Epart rand (ipart_max - ipart_min) ipart_min
    (initState ion particles new_electrons nrand)

/-! ## Predicates used in the statements -/

/-- The vectors of a constructed object all have `atomic_number_` entries (the constructor
resizes the three tables to `atomic_number_`), and `atomic_number_` is an `unsigned int`. -/
structure Sized (ion : IonizationTunnel R) : Prop where
  small : ion.atomic_number_ < 2 ^ 32
  potential : ion.Potential.length = ion.atomic_number_
  alpha : ion.alpha_tunnel.length = ion.atomic_number_
  beta : ion.beta_tunnel.length = ion.atomic_number_
  gamma : ion.gamma_tunnel.length = ion.atomic_number_

/-- The scratch vectors have `atomic_number_` entries, as declared at line 39. -/
@[reducible] def ScratchSized (ion : IonizationTunnel R) (sc : Scratch R) : Prop :=
  sc.IonizRate_tunnel.length = ion.atomic_number_ ∧ sc.Dnom_tunnel.length = ion.atomic_number_

/-- The value of `rate` at an index inside the tables. -/
def rateVal (ops : MathOps R) (ion : IonizationTunnel R) (Z : Nat) (invE : R) : R :=
  ion.beta_tunnel.getD Z 0 *
    ops.exp (-(ion.gamma_tunnel.getD Z 0 * invE) * ion.one_third +
      ion.alpha_tunnel.getD Z 0 * ops.log (ion.gamma_tunnel.getD Z 0 * invE))

/-- The sum of the potentials of the `k` states traversed from charge `Z`. -/
def traversedPot (ion : IonizationTunnel R) (Z k : Nat) : R :=
  ((List.range k).map fun i => ion.Potential.getD (Z + i) 0).sum

/-- The loop invariant of the `while` loop for an ion of charge `Z`. -/
@[reducible] def LoopInv (ion : IonizationTunnel R) (Z : Nat) (s : LoopState R) : Prop :=
  ScratchSized ion s.scratch ∧ s.k_times ≤ ion.atomic_number_ - (Z + 1) ∧
    s.TotalIonizPot = traversedPot ion Z s.k_times

/-- The electron that lines 133-143 build from ion `p` and `k` events, in a container
with `d` position components. -/
def electronOf (ion : IonizationTunnel R) (d : Nat) (p : Particle R) (k : Nat) : Particle R :=
  { position := p.position.take d,
    momentum := (p.momentum.1 * ion.ionized_species_invmass,
                 p.momentum.2.1 * ion.ionized_species_invmass,
                 p.momentum.2.2 * ion.ionized_species_invmass),
    weight := (k : R) * p.weight,
    charge := -1 }

/-- The outcomes computed for the `n` particles from index `ipart` on, in the order of the
particle loop, each from the state left by the particles before it. -/
def outcomeTrace (ops : MathOps R) (ion : IonizationTunnel R) (fuel : Nat)
    (Epart : List (LocalFields R)) (rand : Nat → Nat) :
    Nat → Nat → State R → List (Outcome R)
  | 0, _, _ => []
  | n + 1, ipart, st =>
    match particleOutcome ops ion fuel Epart rand ipart st with
    | none => []
    | some o =>
      o :: (match applyOutcome ion ipart st o with
            | none => []
            | some st1 => outcomeTrace ops ion fuel Epart rand n (wrap (ipart + 1)) st1)

/-- The list `k_times_i` of a call of `operator()`: the number of events computed for each
particle of `[ipart_min, ipart_max)`, zero for a skipped one. -/
def kTimesOf (ops : MathOps R) (ion : IonizationTunnel R) (fuel : Nat)
    (particles new_electrons : Particles R) (ipart_min ipart_max : Nat)
    (Epart : List (LocalFields R)) (rand : Nat → Nat) (nrand : Nat) : List Nat :=
  (outcomeTrace ops ion fuel Epart rand (ipart_max - ipart_min) ipart_min
    (initState ion particles new_electrons nrand)).map Outcome.k_times

/-- The electrons expected from ions `ps` with event counts `ks`: one per ion with a
nonzero count, in order. -/
def expectedElectrons (ion : IonizationTunnel R) (d : Nat) :
    List (Particle R) → List Nat → List (Particle R)
  | p :: ps, k :: ks =>
    (if k = 0 then [] else [electronOf ion d p k]) ++ expectedElectrons ion d ps ks
  | _, _ => []

/-- What the particle loop needs of its input on the `n` indices from `i` on: every index
is inside the particle and field vectors, every charge lies in `[0, atomic_number_]`, and
every ion has the position components that the electron container expects. -/
structure BatchReady (ion : IonizationTunnel R) (Epart : List (LocalFields R))
    (st : State R) (i n : Nat) : Prop where
  sized : Sized ion
  scratch : ScratchSized ion st.scratch
  inParticles : i + n ≤ st.particles.data.length
  inFields : i + n ≤ Epart.length
  small : i + n < 2 ^ 32
  dimSmall : st.new_electrons.dimension < 2 ^ 32
  ions : ∀ j p, i ≤ j → j < i + n → st.particles.data[j]? = some p →
    0 ≤ p.charge ∧ p.charge ≤ ion.atomic_number_ ∧
      st.new_electrons.dimension ≤ p.position.length

/-- The projector calls expected from the outcomes `os` of the particles from index `i`
on: one call `(index, Jion)` per processed particle, none for a skipped one. -/
def expectedCalls : Nat → List (Outcome R) → List (Nat × LocalFields R)
  | _, [] => []
  | i, .skipped :: os => expectedCalls (i + 1) os
  | i, .processed _ Jion :: os => (i, Jion) :: expectedCalls (i + 1) os

/-- The value `cst` of line 23 for charge state `Z`. -/
def cstOf (ops : MathOps R) (base : Ionization R) (Z : Nat) : R :=
  ((Z : R) + 1) * ops.sqrt (2 / base.Potential.getD Z 0)

/-- The value stored in `alpha_tunnel[Z]` at line 24. -/
def alphaOf (ops : MathOps R) (base : Ionization R) (Z : Nat) : R :=
  cstOf ops base Z - 1

/-- The value stored in `beta_tunnel[Z]` at line 25. -/
def betaOf (ops : MathOps R) (base : Ionization R) (Z : Nat) : R :=
  ops.pow 2 (alphaOf ops base Z) * (8 * base.Azimuthal_quantum_number.getD Z 0 + 4) /
    (cstOf ops base Z * ops.tgamma (cstOf ops base Z)) * base.Potential.getD Z 0 * base.au_to_w0

/-- The value stored in `gamma_tunnel[Z]` at line 26. -/
def gammaOf (ops : MathOps R) (base : Ionization R) (Z : Nat) : R :=
  2 * ops.pow (2 * base.Potential.getD Z 0) (3 / 2)

/-- The value of `Pint_tunnel` after a loop iteration entered with `k_times = 0`, from
the rates `rZ = rate(Z)` and `rN = rate(Z+1)`, the entries `d0 = Dnom_tunnel[0]` and
`d1 = Dnom_tunnel[1]` found on entry, and the values `M`, `P` of `Mult` and `Pint_tunnel`
on entry (lines 98-108). -/
def firstPint (ops : MathOps R) (dt rZ rN d0 d1 M P : R) : R :=
  P + ((0 + ops.exp (-rZ * dt) * (d0 / (rN - rZ))) +
        (d1 - (0 + d0 / (rN - rZ))) * ops.exp (-rN * dt)) * (M * rZ)

/-- What the Monte-Carlo routine returns for an ion of charge `Z` when its `while` loop
runs exactly once and no final event follows, from the scratch vectors `sc`. -/
def oneEventResult (ops : MathOps R) (ion : IonizationTunnel R) (Z : Nat) (invE : R)
    (sc : Scratch R) : MCResult R :=
  { scratch :=
      { IonizRate_tunnel := (sc.IonizRate_tunnel.set Z (rateVal ops ion Z invE)).set
          (Z + 1) (rateVal ops ion (Z + 1) invE),
        Dnom_tunnel := ((sc.Dnom_tunnel.set 0 1).set 0
          (1 / (rateVal ops ion (Z + 1) invE - rateVal ops ion Z invE))).set 1
          (sc.Dnom_tunnel.getD 1 0 -
            (0 + 1 / (rateVal ops ion (Z + 1) invE - rateVal ops ion Z invE))) },
    TotalIonizPot := 0 + ion.Potential.getD Z 0,
    k_times := 1 }

/-- The state after lines 127-147 for an ionizing particle `p` of index `ipart`: the
projector call is logged, one electron is appended, the charge is raised. -/
def ionizedState (ion : IonizationTunnel R) (ipart : Nat) (st : State R) (p : Particle R)
    (mc : MCResult R) (Jion : LocalFields R) : State R :=
  { particles := { dimension := st.particles.dimension,
                   data := st.particles.data.set ipart (p.addCharge mc.k_times) },
    new_electrons :=
      { dimension := st.new_electrons.dimension,
        data := st.new_electrons.data ++
          [electronOf ion st.new_electrons.dimension p mc.k_times] },
    scratch := mc.scratch,
    projected := st.projected ++ [(ipart, Jion)],
    nrand := st.nrand + 1 }

/-- The state in which the `while` loop of line 93 is entered for an ion of charge `Z`
(lines 65-72 and 88-90), from the scratch vectors `sc`. -/
def entryState (ops : MathOps R) (ion : IonizationTunnel R) (Z : Nat) (invE : R)
    (sc : Scratch R) : LoopState R :=
  { scratch := { IonizRate_tunnel := sc.IonizRate_tunnel.set Z (rateVal ops ion Z invE),
                 Dnom_tunnel := sc.Dnom_tunnel.set 0 1 },
    Mult := 1,
    Pint_tunnel := ops.exp (-rateVal ops ion Z invE * ion.dt),
    TotalIonizPot := 0,
    k_times := 0 }

/-- The local quantities of one iteration of the `while` loop once line 107 has run:
the rate vector after line 96, `Dnom_tunnel` after line 106, `D_sum` after the inner loop,
`P_sum` after line 107 and `Mult` after line 100. -/
structure BodyLocals (R : Type) where
  IonizRate_tunnel : List R
  Dnom_tunnel : List R
  D_sum : R
  P_sum : R
  Mult : R

/-- Lines 94-107 of one iteration of the `while` loop, entered in state `s`. -/
def bodyLocals (ops : MathOps R) (ion : IonizationTunnel R) (Z Zp1 : Nat) (invE : R)
    (s : LoopState R) : Option (BodyLocals R) :=
  let newZ := wrap (Zp1 + s.k_times)
  (rate ops ion newZ invE).bind fun rNew =>
  (store s.scratch.IonizRate_tunnel newZ rNew).bind fun rates =>
  (rates[wrap (Z + s.k_times)]?).bind fun rK =>
    (innerFor ops ion.dt rates Z newZ (wrap (s.k_times + 1)) 0 s.scratch.Dnom_tunnel 0 0).bind
      fun r =>
    (r.1[wrap (s.k_times + 1)]?).bind fun dOld =>
    (store r.1 (wrap (s.k_times + 1)) (dOld - r.2.1)).bind fun dnom =>
    (rates[newZ]?).bind fun rN =>
      some { IonizRate_tunnel := rates, Dnom_tunnel := dnom, D_sum := r.2.1,
             P_sum := r.2.2 + (dOld - r.2.1) * ops.exp (-rN * ion.dt),
             Mult := s.Mult * rK }

/-- Lines 108-111 of one iteration of the `while` loop, from the local quantities `l`
that lines 94-107 computed in state `s`. -/
def bodyFinish (ion : IonizationTunnel R) (Z : Nat) (s : LoopState R) (l : BodyLocals R) :
    Option (LoopState R) :=
  (ion.Potential[wrap (Z + s.k_times)]?).bind fun pot =>
    some { scratch := { IonizRate_tunnel := l.IonizRate_tunnel, Dnom_tunnel := l.Dnom_tunnel },
           Mult := l.Mult,
           Pint_tunnel := s.Pint_tunnel + l.P_sum * l.Mult,
           TotalIonizPot := s.TotalIonizPot + pot,
           k_times := wrap (s.k_times + 1) }

/-- The state after `n` iterations of the body of the `while` loop for an ion of charge
`Z`, started in state `s`. -/
def iterBody (ops : MathOps R) (ion : IonizationTunnel R) (Z : Nat) (invE : R) :
    Nat → LoopState R → Option (LoopState R)
  | 0, s => some s
  | n + 1, s => (iterBody ops ion Z invE n s).bind (loopBody ops ion Z (Z + 1) invE)

/-- The product of the rates `rate(Z+i)` for `i < k`. -/
def rateProd (ops : MathOps R) (ion : IonizationTunnel R) (Z : Nat) (invE : R) (k : Nat) : R :=
  Finset.prod (Finset.range k) fun i => rateVal ops ion (Z + i) invE

/-- The partial-fraction coefficient of node `i` among the nodes `r 0, ..., r n`: the
product of `1 / (r j - r i)` over `j ≤ n`, `j ≠ i`. -/
def partialFraction (r : Nat → R) (n i : Nat) : R :=
  Finset.prod ((Finset.range (n + 1)).erase i) fun j => 1 / (r j - r i)

/-- The divided-difference combination of the values `f (r i)` on the nodes
`r 0, ..., r n`: the sum over `i ≤ n` of `f (r i)` times the partial-fraction coefficient. -/
def dividedDifference (f : R → R) (r : Nat → R) (n : Nat) : R :=
  Finset.sum (Finset.range (n + 1)) fun i => f (r i) * partialFraction r n i

/-! ## The range of a `double` -/

/-- A three-level species with hand-written tables, used to instantiate the statements. -/
def sampleIon (R : Type) [LinearOrderedField R] : IonizationTunnel R :=
  { atomic_number_ := 3, Potential := [1 / 2, 1, 2], Azimuthal_quantum_number := [0, 0, 0],
    au_to_w0 := 1, au_to_mec2 := 1, EC_to_au := 1, dt := 1 / 10, invdt := 10,
    ionized_species_invmass := 1 / 100, INV_RAND_MAX := 1 / 2147483647,
    one_third := 1 / 3, alpha_tunnel := [1, 1, 1], beta_tunnel := [2, 3, 4],
    gamma_tunnel := [2, 4, 8] }

/-- Zero-filled scratch vectors for `sampleIon`. -/
def sampleScratch (R : Type) [LinearOrderedField R] : Scratch R :=
  { IonizRate_tunnel := [0, 0, 0], Dnom_tunnel := [0, 0, 0] }

/-- What a call of `operator()` needs of its arguments: the range lies inside the particle
and field vectors, every ion of the range has a charge in `[0, atomic_number_]` and the
position components that the electron container expects. -/
structure CallReady (ion : IonizationTunnel R) (particles new_electrons : Particles R)
    (ipart_min ipart_max : Nat) (Epart : List (LocalFields R)) : Prop where
  sized : Sized ion
  ordered : ipart_min ≤ ipart_max
  inParticles : ipart_max ≤ particles.data.length
  inFields : ipart_max ≤ Epart.length
  small : ipart_max < 2 ^ 32
  dimSmall : new_electrons.dimension < 2 ^ 32
  ions : ∀ j p, ipart_min ≤ j → j < ipart_max → particles.data[j]? = some p →
    0 ≤ p.charge ∧ p.charge ≤ ion.atomic_number_ ∧
      new_electrons.dimension ≤ p.position.length

/-- A one-dimensional batch of three ions of `sampleIon`: charges 0, 3 (fully stripped)
and 2. -/
def sampleParticles (R : Type) [LinearOrderedField R] : Particles R :=
  { dimension := 1,
    data := [{ position := [0], momentum := (0, 0, 0), weight := 1, charge := 0 },
             { position := [1], momentum := (1, 0, 0), weight := 2, charge := 3 },
             { position := [2], momentum := (0, 1, 0), weight := 3, charge := 2 }] }

/-- An empty one-dimensional electron container. -/
def sampleElectrons (R : Type) [LinearOrderedField R] : Particles R :=
  { dimension := 1, data := [] }

/-- Field samples for `sampleParticles`. -/
def sampleFields (R : Type) [LinearOrderedField R] : List (LocalFields R) :=
  [{ x := 1, y := 0, z := 0 }, { x := 0, y := 2, z := 0 }, { x := 0, y := 0, z := 0 }]

/-- Species data of a hydrogen-like element: one level of potential `1/2` (atomic
units) and azimuthal quantum number `0`. -/
def hydrogenBase (R : Type) [LinearOrderedField R] : Ionization R :=
  { atomic_number_ := 1, Potential := [1 / 2], Azimuthal_quantum_number := [0],
    au_to_w0 := 1, au_to_mec2 := 1, EC_to_au := 1, dt := 1 / 10, invdt := 10,
    ionized_species_invmass := 1 / 100, INV_RAND_MAX := 1 / 2147483647 }

/-- The object that the constructor builds from `hydrogenBase`: `alpha = 1`, `beta = 2`,
`gamma = 2`. -/
def hydrogenIon (R : Type) [LinearOrderedField R] : IonizationTunnel R :=
  { toIonization := hydrogenBase R, one_third := 1 / 3,
    alpha_tunnel := [1], beta_tunnel := [2], gamma_tunnel := [2] }

/-- Species data of a three-level element with potentials `2, 8, 18` (atomic units),
for which the constructor yields `alpha = 0` at every level. -/
def toyBase (R : Type) [LinearOrderedField R] : Ionization R :=
  { atomic_number_ := 3, Potential := [2, 8, 18], Azimuthal_quantum_number := [0, 0, 0],
    au_to_w0 := 1, au_to_mec2 := 1, EC_to_au := 1, dt := 1, invdt := 1,
    ionized_species_invmass := 1 / 100, INV_RAND_MAX := 1 / 2147483647 }

/-- The object that the constructor builds from `toyBase`. -/
def toyIon (R : Type) [LinearOrderedField R] : IonizationTunnel R :=
  { toIonization := toyBase R, one_third := 1 / 3,
    alpha_tunnel := [0, 0, 0], beta_tunnel := [8, 32, 72], gamma_tunnel := [16, 128, 432] }

/-- Two neutral ions of the `toyBase` species, in one dimension. -/
def toyParticles (R : Type) [LinearOrderedField R] : Particles R :=
  { dimension := 1,
    data := [{ position := [0], momentum := (0, 0, 0), weight := 1, charge := 0 },
             { position := [1], momentum := (0, 0, 0), weight := 1, charge := 0 }] }

/-- The same field sample `(64/9, 0, 0)` for both ions of `toyParticles`. -/
def toyFields (R : Type) [LinearOrderedField R] : List (LocalFields R) :=
  [{ x := 64 / 9, y := 0, z := 0 }, { x := 64 / 9, y := 0, z := 0 }]

/-- The values returned by `rand()`: `1073741824` at the first call, `2147483646` after. -/
def toyRand : Nat → Nat := fun n => if n = 0 then 1073741824 else 2147483646

/-- Species data with `atomic_number_ = 0`: no level at all. -/
def emptyBase (R : Type) [LinearOrderedField R] : Ionization R :=
  { atomic_number_ := 0, Potential := [], Azimuthal_quantum_number := [],
    au_to_w0 := 1, au_to_mec2 := 1, EC_to_au := 1, dt := 1 / 10, invdt := 10,
    ionized_species_invmass := 1 / 100, INV_RAND_MAX := 1 / 2147483647 }

/-- Species data with one level of negative potential `-1`. -/
def negativeBase (R : Type) [LinearOrderedField R] : Ionization R :=
  { atomic_number_ := 1, Potential := [-1], Azimuthal_quantum_number := [0],
    au_to_w0 := 1, au_to_mec2 := 1, EC_to_au := 1, dt := 1 / 10, invdt := 10,
    ionized_species_invmass := 1 / 100, INV_RAND_MAX := 1 / 2147483647 }

/-- A neutral hydrogen-like ion of weight 5, in one dimension. -/
def hydrogenAtom (R : Type) [LinearOrderedField R] : Particle R :=
  { position := [0], momentum := (0, 0, 0), weight := 5, charge := 0 }

/-- A loop state holding the single ion `hydrogenAtom`, no electron, zero-filled scratch
vectors of one entry and no call of `rand()` made yet. -/
def hydrogenState (R : Type) [LinearOrderedField R] : State R :=
  { particles := { dimension := 1, data := [hydrogenAtom R] },
    new_electrons := sampleElectrons R,
    scratch := { IonizRate_tunnel := [0], Dnom_tunnel := [0] },
    projected := [], nrand := 0 }

/-- Scratch vectors as line 39 declares them for the three-level species. -/
def toyFresh (R : Type) [LinearOrderedField R] : Scratch R :=
  { IonizRate_tunnel := List.replicate 3 0, Dnom_tunnel := List.replicate 3 0 }

/-- What the Monte-Carlo routine returns for the first ion of the batch `toyParticles`. -/
def toyFirst (ops : MathOps R) : MCResult R :=
  oneEventResult ops (toyIon R) 0 (1 / (64 / 9)) (toyFresh R)

/-- What the Monte-Carlo routine returns for the second ion of the batch `toyParticles`,
processed on the scratch vectors that the first one left. -/
def toySecond (ops : MathOps R) : MCResult R :=
  oneEventResult ops (toyIon R) 0 (1 / (64 / 9)) (toyFirst ops).scratch

/-- A math library over `ℚ` with the range effects of double precision that matter to
the statements below: `exp x` is exactly `1` once `|x| ≤ 2^-54` and exactly `0` below `-746`,
`pow x 2` is exactly `0` once `|x| < 2^-538`, and `sqrt 0 = 0`. Elsewhere the functions are
coarse rational stand-ins: `exp x` is `(1 + |x|/64)^(-64)` for a negative `x`, `log x` is
`2*(x-1)/(x+1)`. -/
def rangeOps : MathOps ℚ :=
  { exp := fun x =>
      if |x| ≤ 1 / 2 ^ 54 then 1 else if x < -746 then 0
      else if x < 0 then 1 / (1 - x / 64) ^ 64 else (1 + x / 64) ^ 64,
    log := fun x => 2 * (x - 1) / (x + 1),
    sqrt := fun x => if x = 0 then 0 else (x + 1) / 2,
    pow := fun x y => if y = 2 then (if |x| < 1 / 2 ^ 538 then 0 else x * x) else 1,
    tgamma := fun _ => 1 }

theorem wrap_of_lt {n : Nat} (h : n < 2 ^ 32) : wrap n = n := Nat.mod_eq_of_lt h

theorem usub_of_le {a b : Nat} (ha : a < 2 ^ 32) (hb : b ≤ a) : usub a b = a - b := by
  unfold usub
  have hb2 : b % 2 ^ 32 = b := Nat.mod_eq_of_lt (by omega)
  rw [hb2]
  have : a + (2 ^ 32 - b) = (a - b) + 2 ^ 32 := by omega
  rw [this, Nat.add_mod_right]
  exact Nat.mod_eq_of_lt (by omega)

theorem store_of_lt (v : List R) {i : Nat} (x : R) (h : i < v.length) :
    store v i x = some (v.set i x) := by
  simp [store, h]

theorem store_length {v w : List R} {i : Nat} {x : R} (h : store v i x = some w) :
    w.length = v.length := by
  unfold store at h
  split at h
  · cases h; simp
  · cases h

theorem getElem?_of_lt (v : List R) {i : Nat} (h : i < v.length) :
    v[i]? = some (v.getD i 0) := by
  rw [List.getD_eq_getElem?_getD, List.getElem?_eq_getElem h]; rfl

theorem rate_of_lt (ops : MathOps R) (ion : IonizationTunnel R) {Z : Nat} (invE : R)
    (ha : Z < ion.alpha_tunnel.length) (hb : Z < ion.beta_tunnel.length)
    (hg : Z < ion.gamma_tunnel.length) :
    rate ops ion Z invE = some (rateVal ops ion Z invE) := by
  simp only [rate, rateVal, getElem?_of_lt _ ha, getElem?_of_lt _ hb, getElem?_of_lt _ hg,
    Option.some_bind]

theorem innerFor_some (ops : MathOps R) (dt : R) (rates : List R) (Z newZ : Nat)
    (hnew : newZ < rates.length) (hsmall : rates.length < 2 ^ 32) :
    ∀ (n i : Nat) (dnom : List R) (D_sum P_sum : R),
      i + n ≤ dnom.length → Z + i + n ≤ rates.length → dnom.length ≤ rates.length →
      ∃ r, innerFor ops dt rates Z newZ n i dnom D_sum P_sum = some r ∧
        r.1.length = dnom.length := by
  intro n
  induction n with
  | zero => intro i dnom D_sum P_sum _ _ _; exact ⟨_, rfl, rfl⟩
  | succ n ih =>
    intro i dnom D_sum P_sum h1 h2 h3
    have hi : i < dnom.length := by omega
    have hzi : Z + i < rates.length := by omega
    have hw : wrap (Z + i) = Z + i := wrap_of_lt (by omega)
    have hw1 : wrap (i + 1) = i + 1 := wrap_of_lt (by omega)
    obtain ⟨r, hr, hlen⟩ := ih (i + 1) (dnom.set i
      (dnom.getD i 0 / (rates.getD newZ 0 - rates.getD (Z + i) 0)))
      (D_sum + dnom.getD i 0 / (rates.getD newZ 0 - rates.getD (Z + i) 0))
      (P_sum + ops.exp (-(rates.getD (Z + i) 0) * dt) *
        (dnom.getD i 0 / (rates.getD newZ 0 - rates.getD (Z + i) 0)))
      (by simp; omega) (by omega) (by simpa using h3)
    refine ⟨r, ?_, by simpa using hlen⟩
    simp only [innerFor, hw, hw1, getElem?_of_lt _ hi, getElem?_of_lt _ hnew,
      getElem?_of_lt _ hzi, store_of_lt _ _ hi, Option.some_bind]
    exact hr

theorem traversedPot_succ (ion : IonizationTunnel R) (Z k : Nat) :
    traversedPot ion Z (k + 1) = traversedPot ion Z k + ion.Potential.getD (Z + k) 0 := by
  simp [traversedPot, List.range_succ]

theorem loopBody_spec (ops : MathOps R) (ion : IonizationTunnel R) (hs : Sized ion)
    (Z : Nat) (invE : R) (s : LoopState R) (hinv : LoopInv ion Z s)
    (hk : s.k_times < ion.atomic_number_ - (Z + 1)) :
    ∃ s1, loopBody ops ion Z (Z + 1) invE s = some s1 ∧ LoopInv ion Z s1 ∧
      s1.k_times = s.k_times + 1 := by
  obtain ⟨⟨hr, hd⟩, _, hpot⟩ := hinv
  have hsmall := hs.small
  have hnew : Z + 1 + s.k_times < ion.atomic_number_ := by omega
  have hw1 : wrap (Z + 1 + s.k_times) = Z + 1 + s.k_times := wrap_of_lt (by omega)
  have hw2 : wrap (Z + s.k_times) = Z + s.k_times := wrap_of_lt (by omega)
  have hw3 : wrap (s.k_times + 1) = s.k_times + 1 := wrap_of_lt (by omega)
  have hrate := rate_of_lt ops ion (Z := Z + 1 + s.k_times) invE
    (by rw [hs.alpha]; exact hnew) (by rw [hs.beta]; exact hnew) (by rw [hs.gamma]; exact hnew)
  have hst := store_of_lt s.scratch.IonizRate_tunnel (i := Z + 1 + s.k_times)
    (rateVal ops ion (Z + 1 + s.k_times) invE) (by rw [hr]; exact hnew)
  have hlen : (s.scratch.IonizRate_tunnel.set (Z + 1 + s.k_times)
      (rateVal ops ion (Z + 1 + s.k_times) invE)).length = ion.atomic_number_ := by
    simpa using hr
  obtain ⟨r, hin, hrl⟩ := innerFor_some ops ion.dt _ Z (Z + 1 + s.k_times)
    (by rw [hlen]; exact hnew) (by rw [hlen]; exact hsmall) (s.k_times + 1) 0
    s.scratch.Dnom_tunnel 0 0 (by omega) (by rw [hlen]; omega) (by rw [hlen, hd])
  have hk1 : s.k_times + 1 < r.1.length := by rw [hrl, hd]; omega
  simp only [loopBody, hw1, hw2, hw3, hrate, hst, Option.some_bind,
    getElem?_of_lt _ (show Z + s.k_times < _ by rw [hlen]; omega), hin,
    getElem?_of_lt _ hk1, store_of_lt _ _ hk1,
    getElem?_of_lt _ (show Z + 1 + s.k_times < _ by rw [hlen]; exact hnew),
    getElem?_of_lt _ (show Z + s.k_times < ion.Potential.length by rw [hs.potential]; omega)]
  refine ⟨_, rfl, ⟨⟨?_, ?_⟩, ?_, ?_⟩, ?_⟩
  · exact hlen
  · simp only [List.length_set]; rw [hrl, hd]
  · show s.k_times + 1 ≤ _; omega
  · show s.TotalIonizPot + _ = traversedPot ion Z (s.k_times + 1)
    rw [traversedPot_succ, hpot]
  · rfl

theorem whileLoop_spec (ops : MathOps R) (ion : IonizationTunnel R) (hs : Sized ion)
    (Z : Nat) (hZ : Z + 1 ≤ ion.atomic_number_) (invE ran_p : R) :
    ∀ (fuel : Nat) (s : LoopState R), LoopInv ion Z s →
      ion.atomic_number_ - (Z + 1) - s.k_times ≤ fuel →
      ∃ s1, whileLoop ops ion Z (Z + 1) invE ran_p fuel s = some s1 ∧ LoopInv ion Z s1 ∧
        ¬ (s1.Pint_tunnel < ran_p ∧ s1.k_times < ion.atomic_number_ - (Z + 1)) := by
  have hu : usub ion.atomic_number_ (Z + 1) = ion.atomic_number_ - (Z + 1) :=
    usub_of_le hs.small hZ
  intro fuel
  induction fuel with
  | zero =>
    intro s hinv hf
    have hc : ¬ (s.Pint_tunnel < ran_p ∧ s.k_times < ion.atomic_number_ - (Z + 1)) := by
      rintro ⟨_, h⟩; omega
    exact ⟨s, by simp only [whileLoop, hu, if_neg hc], hinv, hc⟩
  | succ fuel ih =>
    intro s hinv hf
    by_cases hc : s.Pint_tunnel < ran_p ∧ s.k_times < ion.atomic_number_ - (Z + 1)
    · obtain ⟨s1, hb, hinv1, hk1⟩ := loopBody_spec ops ion hs Z invE s hinv hc.2
      obtain ⟨s2, hw, hinv2, hc2⟩ := ih s1 hinv1 (by omega)
      exact ⟨s2, by simp only [whileLoop, hu, if_pos hc, hb, Option.some_bind, hw], hinv2, hc2⟩
    · exact ⟨s, by simp only [whileLoop, hu, if_neg hc], hinv, hc⟩

theorem monteCarlo_spec (ops : MathOps R) (ion : IonizationTunnel R) (hs : Sized ion)
    (sc : Scratch R) (hsc : ScratchSized ion sc) (Z : Nat) (hZ : Z < ion.atomic_number_)
    (invE ran_p : R) (fuel : Nat) (hfuel : ion.atomic_number_ - (Z + 1) ≤ fuel) :
    ∃ r, monteCarlo ops ion fuel Z invE ran_p sc = some r ∧ ScratchSized ion r.scratch ∧
      r.k_times ≤ ion.atomic_number_ - Z ∧ r.TotalIonizPot = traversedPot ion Z r.k_times := by
  have hsmall := hs.small
  have hw : wrap (Z + 1) = Z + 1 := wrap_of_lt (by omega)
  have hrate := rate_of_lt ops ion (Z := Z) invE
    (by rw [hs.alpha]; exact hZ) (by rw [hs.beta]; exact hZ) (by rw [hs.gamma]; exact hZ)
  have hst := store_of_lt sc.IonizRate_tunnel (i := Z) (rateVal ops ion Z invE)
    (by rw [hsc.1]; exact hZ)
  have hlen : (sc.IonizRate_tunnel.set Z (rateVal ops ion Z invE)).length
      = ion.atomic_number_ := by simpa using hsc.1
  have hget := getElem?_of_lt (sc.IonizRate_tunnel.set Z (rateVal ops ion Z invE)) (i := Z)
    (by rw [hlen]; exact hZ)
  have hpot := getElem?_of_lt ion.Potential (i := Z) (by rw [hs.potential]; exact hZ)
  simp only [monteCarlo, hrate, hst, hw, hget, Option.some_bind]
  by_cases hlast : Z + 1 = ion.atomic_number_
  · simp only [if_pos hlast]
    split
    · simp only [hpot, Option.some_bind]
      refine ⟨_, rfl, ⟨hlen, hsc.2⟩, ?_, ?_⟩
      · show 1 ≤ _; omega
      · show 0 + _ = traversedPot ion Z 1
        rw [traversedPot_succ]; rfl
    · refine ⟨_, rfl, ⟨hlen, hsc.2⟩, ?_, ?_⟩
      · show 0 ≤ _; omega
      · show (0 : R) = traversedPot ion Z 0
        simp [traversedPot]
  · simp only [if_neg hlast]
    have hd0 := store_of_lt sc.Dnom_tunnel (i := 0) 1 (by rw [hsc.2]; omega)
    simp only [hd0, Option.some_bind]
    have hu : usub ion.atomic_number_ (Z + 1) = ion.atomic_number_ - (Z + 1) :=
      usub_of_le hsmall (by omega)
    have hu1 : usub ion.atomic_number_ 1 = ion.atomic_number_ - 1 :=
      usub_of_le hsmall (by omega)
    obtain ⟨s1, hwl, ⟨hsz, hk, htot⟩, _⟩ := whileLoop_spec ops ion hs Z (by omega) invE ran_p fuel
      { scratch := { IonizRate_tunnel := sc.IonizRate_tunnel.set Z (rateVal ops ion Z invE),
                     Dnom_tunnel := sc.Dnom_tunnel.set 0 1 },
        Mult := 1,
        Pint_tunnel := ops.exp (-(sc.IonizRate_tunnel.set Z (rateVal ops ion Z invE)).getD Z 0
          * ion.dt),
        TotalIonizPot := 0, k_times := 0 }
      ⟨⟨hlen, by simpa using hsc.2⟩, Nat.zero_le _, by simp [traversedPot]⟩ (by simpa using hfuel)
    simp only [hwl, Option.some_bind, hu, hu1]
    split
    · rename_i hfin
      have hpl := getElem?_of_lt ion.Potential (i := ion.atomic_number_ - 1)
        (by rw [hs.potential]; omega)
      have hw2 : wrap (s1.k_times + 1) = s1.k_times + 1 := wrap_of_lt (by omega)
      simp only [hpl, Option.some_bind, hw2]
      refine ⟨_, rfl, hsz, ?_, ?_⟩
      · show s1.k_times + 1 ≤ _; omega
      · show s1.TotalIonizPot + _ = traversedPot ion Z (s1.k_times + 1)
        rw [traversedPot_succ, htot]
        have : Z + s1.k_times = ion.atomic_number_ - 1 := by omega
        rw [this]
    · refine ⟨_, rfl, hsz, ?_, htot⟩
      show s1.k_times ≤ _; omega

theorem sampleIon_sized (R : Type) [LinearOrderedField R] : Sized (sampleIon R) :=
  ⟨by norm_num [sampleIon], rfl, rfl, rfl, rfl⟩

theorem sampleScratch_sized (R : Type) [LinearOrderedField R] :
    ScratchSized (sampleIon R) (sampleScratch R) := ⟨rfl, rfl⟩

theorem getD_set_self (v : List R) {i : Nat} (x : R) (h : i < v.length) :
    (v.set i x).getD i 0 = x := by
  rw [List.getD_eq_getElem?_getD, List.getElem?_set_self h]; rfl

theorem monteCarlo_last (ops : MathOps R) (ion : IonizationTunnel R) (hs : Sized ion)
    (sc : Scratch R) (hsc : ScratchSized ion sc) (Z : Nat) (hZ : Z + 1 = ion.atomic_number_)
    (invE ran_p : R) (fuel : Nat) :
    monteCarlo ops ion fuel Z invE ran_p sc =
      some { scratch := { sc with IonizRate_tunnel :=
                            sc.IonizRate_tunnel.set Z (rateVal ops ion Z invE) },
             TotalIonizPot :=
               if ran_p < 1 - ops.exp (-rateVal ops ion Z invE * ion.dt)
               then 0 + ion.Potential.getD Z 0 else 0,
             k_times := if ran_p < 1 - ops.exp (-rateVal ops ion Z invE * ion.dt)
               then 1 else 0 } := by
  have hsmall := hs.small
  have hlt : Z < ion.atomic_number_ := by omega
  have hw : wrap (Z + 1) = Z + 1 := wrap_of_lt (by omega)
  have hrate := rate_of_lt ops ion (Z := Z) invE
    (by rw [hs.alpha]; exact hlt) (by rw [hs.beta]; exact hlt) (by rw [hs.gamma]; exact hlt)
  have hst := store_of_lt sc.IonizRate_tunnel (i := Z) (rateVal ops ion Z invE)
    (by rw [hsc.1]; exact hlt)
  have hget := getElem?_of_lt (sc.IonizRate_tunnel.set Z (rateVal ops ion Z invE)) (i := Z)
    (by simp only [List.length_set]; rw [hsc.1]; exact hlt)
  have hpot := getElem?_of_lt ion.Potential (i := Z) (by rw [hs.potential]; exact hlt)
  rw [getD_set_self _ _ (by rw [hsc.1]; exact hlt)] at hget
  simp only [monteCarlo, hrate, hst, hw, hget, Option.some_bind, if_pos hZ, hpot]
  split <;> rfl

theorem copyPosition_spec (src : List R) :
    ∀ (n i : Nat) (dst : List R), i + n ≤ src.length → i + n ≤ dst.length → i + n < 2 ^ 32 →
      ∃ r, copyPosition src n i dst = some r ∧ r.length = dst.length ∧
        ∀ j, r[j]? = if i ≤ j ∧ j < i + n then src[j]? else dst[j]? := by
  intro n
  induction n with
  | zero =>
    intro i dst _ _ _
    refine ⟨dst, rfl, rfl, fun j => ?_⟩
    rw [if_neg (by omega)]
  | succ n ih =>
    intro i dst h1 h2 h3
    have hi : i < src.length := by omega
    have hid : i < dst.length := by omega
    obtain ⟨r, hr, hlen, hget⟩ := ih (i + 1) (dst.set i (src.getD i 0))
      (by omega) (by simp only [List.length_set]; omega) (by omega)
    refine ⟨r, ?_, by simpa using hlen, fun j => ?_⟩
    · simp only [copyPosition, getElem?_of_lt _ hi, store_of_lt _ _ hid, Option.some_bind,
        wrap_of_lt (show i + 1 < 2 ^ 32 by omega)]
      exact hr
    · rw [hget j]
      by_cases hj : j = i
      · subst hj
        rw [if_neg (by omega), if_pos (by omega), List.getElem?_set_self hid,
          getElem?_of_lt _ hi]
      · rw [List.getElem?_set_ne (Ne.symm hj)]
        by_cases hj2 : i + 1 ≤ j ∧ j < i + 1 + n
        · rw [if_pos hj2, if_pos (by omega)]
        · rw [if_neg hj2, if_neg (by omega)]

theorem copyPosition_take (src : List R) (d : Nat) (h1 : d ≤ src.length) (h2 : d < 2 ^ 32) :
    copyPosition src d 0 (List.replicate d 0) = some (src.take d) := by
  obtain ⟨r, hr, hlen, hget⟩ := copyPosition_spec src d 0 (List.replicate d 0)
    (by omega) (by simp) (by omega)
  rw [hr]
  congr 1
  apply List.ext_getElem?
  intro j
  rw [hget j, List.getElem?_take]
  by_cases hj : j < d
  · rw [if_pos (by omega), if_pos hj]
  · rw [if_neg (by omega), if_neg hj]
    exact List.getElem?_eq_none (by simp; omega)

theorem spawnElectron_spec (ion : IonizationTunnel R) (electrons : Particles R)
    (p : Particle R) (k : Nat) (h1 : electrons.dimension ≤ p.position.length)
    (h2 : electrons.dimension < 2 ^ 32) :
    spawnElectron ion electrons p k =
      some { dimension := electrons.dimension,
             data := electrons.data ++ [electronOf ion electrons.dimension p k] } := by
  have hlast : (electrons.data ++ [blankParticle (R := R) electrons.dimension])[
      electrons.data.length]? = some (blankParticle electrons.dimension) := by
    rw [List.getElem?_append_right (le_refl _)]; simp
  simp only [spawnElectron, Particles.create_particle, List.length_append, List.length_singleton,
    Nat.add_sub_cancel, hlast, Option.some_bind]
  simp only [blankParticle]
  rw [copyPosition_take _ _ h1 h2]
  simp [electronOf]

theorem toUInt_of_range {c : Int} (h0 : 0 ≤ c) (h1 : c < 2 ^ 32) : toUInt c = c.toNat := by
  unfold toUInt
  rw [Int.emod_eq_of_lt h0 h1]

theorem addCharge_zero (p : Particle R) : p.addCharge 0 = p := by
  cases p; simp [Particle.addCharge]

theorem set_of_getElem? {α : Type} (l : List α) (i : Nat) (a : α) (h : l[i]? = some a) :
    l.set i a = l := by
  apply List.ext_getElem?
  intro j
  rw [List.getElem?_set]
  split
  · rename_i hij
    subst hij
    rw [h]
    have : i < l.length := by
      by_contra hc
      rw [List.getElem?_eq_none (by omega)] at h
      cases h
    rw [if_pos this]
  · rfl

theorem particleOutcome_full (ops : MathOps R) (ion : IonizationTunnel R) (fuel : Nat)
    (Epart : List (LocalFields R)) (rand : Nat → Nat) (ipart : Nat) (st : State R)
    (p : Particle R) (hp : st.particles.data[ipart]? = some p)
    (hZ : toUInt p.charge = ion.atomic_number_) :
    particleOutcome ops ion fuel Epart rand ipart st = some .skipped := by
  simp only [particleOutcome, hp, Option.some_bind, if_pos hZ]

theorem particleOutcome_zero (ops : MathOps R) (ion : IonizationTunnel R) (fuel : Nat)
    (Epart : List (LocalFields R)) (rand : Nat → Nat) (ipart : Nat) (st : State R)
    (p : Particle R) (hp : st.particles.data[ipart]? = some p)
    (F : LocalFields R) (hF : Epart[ipart]? = some F) (hE : fieldNorm ops ion F = 0) :
    particleOutcome ops ion fuel Epart rand ipart st = some .skipped := by
  simp only [particleOutcome, hp, Option.some_bind, hF, if_pos hE]
  split <;> rfl

theorem particleOutcome_processed (ops : MathOps R) (ion : IonizationTunnel R) (fuel : Nat)
    (Epart : List (LocalFields R)) (rand : Nat → Nat) (ipart : Nat) (st : State R)
    (p : Particle R) (hp : st.particles.data[ipart]? = some p)
    (hZ : toUInt p.charge ≠ ion.atomic_number_)
    (F : LocalFields R) (hF : Epart[ipart]? = some F) (hE : fieldNorm ops ion F ≠ 0) :
    particleOutcome ops ion fuel Epart rand ipart st =
      (monteCarlo ops ion fuel (toUInt p.charge) (1 / fieldNorm ops ion F)
        ((rand st.nrand : R) * ion.INV_RAND_MAX) st.scratch).bind fun mc =>
          some (.processed mc (ionCurrent ion (fieldNorm ops ion F) F mc.TotalIonizPot)) := by
  simp only [particleOutcome, hp, Option.some_bind, hF, if_neg hE, if_neg hZ]

theorem stepParticle_spec (ops : MathOps R) (ion : IonizationTunnel R) (hs : Sized ion)
    (fuel : Nat) (hfuel : ion.atomic_number_ ≤ fuel)
    (Epart : List (LocalFields R)) (rand : Nat → Nat) (ipart : Nat) (st : State R)
    (hsc : ScratchSized ion st.scratch)
    (p : Particle R) (hp : st.particles.data[ipart]? = some p)
    (h0 : 0 ≤ p.charge) (h1 : p.charge ≤ ion.atomic_number_)
    (F : LocalFields R) (hF : Epart[ipart]? = some F)
    (hd : st.new_electrons.dimension ≤ p.position.length)
    (hd32 : st.new_electrons.dimension < 2 ^ 32) :
    ∃ o st1, particleOutcome ops ion fuel Epart rand ipart st = some o ∧
      applyOutcome ion ipart st o = some st1 ∧
      o.k_times ≤ ion.atomic_number_ - p.charge.toNat ∧
      st1.particles.dimension = st.particles.dimension ∧
      st1.particles.data = st.particles.data.set ipart (p.addCharge o.k_times) ∧
      st1.new_electrons.dimension = st.new_electrons.dimension ∧
      st1.new_electrons.data = st.new_electrons.data ++
        (if o.k_times = 0 then [] else [electronOf ion st.new_electrons.dimension p o.k_times]) ∧
      ScratchSized ion st1.scratch := by
  have hsmall := hs.small
  have hZ : toUInt p.charge = p.charge.toNat := toUInt_of_range h0 (by omega)
  have hskip : ∃ o st1, some (Outcome.skipped (R := R)) = some o ∧
      applyOutcome ion ipart st o = some st1 ∧
      o.k_times ≤ ion.atomic_number_ - p.charge.toNat ∧
      st1.particles.dimension = st.particles.dimension ∧
      st1.particles.data = st.particles.data.set ipart (p.addCharge o.k_times) ∧
      st1.new_electrons.dimension = st.new_electrons.dimension ∧
      st1.new_electrons.data = st.new_electrons.data ++
        (if o.k_times = 0 then [] else [electronOf ion st.new_electrons.dimension p o.k_times]) ∧
      ScratchSized ion st1.scratch := by
    refine ⟨.skipped, st, rfl, rfl, Nat.zero_le _, rfl, ?_, rfl, ?_, hsc⟩
    · show _ = st.particles.data.set ipart (p.addCharge 0)
      rw [addCharge_zero, set_of_getElem? _ _ _ hp]
    · show _ = st.new_electrons.data ++ (if (0 : Nat) = 0 then [] else _)
      simp
  by_cases hfull : toUInt p.charge = ion.atomic_number_
  · rw [particleOutcome_full ops ion fuel Epart rand ipart st p hp hfull]
    exact hskip
  by_cases hE : fieldNorm ops ion F = 0
  · rw [particleOutcome_zero ops ion fuel Epart rand ipart st p hp F hF hE]
    exact hskip
  rw [particleOutcome_processed ops ion fuel Epart rand ipart st p hp hfull F hF hE]
  have hlt : toUInt p.charge < ion.atomic_number_ := by omega
  obtain ⟨mc, hmc, hsz, hk, _⟩ := monteCarlo_spec ops ion hs st.scratch hsc (toUInt p.charge) hlt
    (1 / fieldNorm ops ion F) ((rand st.nrand : R) * ion.INV_RAND_MAX) fuel (by omega)
  simp only [hmc, Option.some_bind]
  by_cases hk0 : mc.k_times = 0
  · have happ : applyOutcome ion ipart st
        (.processed mc (ionCurrent ion (fieldNorm ops ion F) F mc.TotalIonizPot)) =
        some { st with scratch := mc.scratch,
                       projected := st.projected ++
                         [(ipart, ionCurrent ion (fieldNorm ops ion F) F mc.TotalIonizPot)],
                       nrand := st.nrand + 1 } := by
      simp only [applyOutcome, hp, Option.some_bind, hk0, ne_eq, not_true_eq_false, if_false]
    refine ⟨_, _, rfl, happ, by show mc.k_times ≤ _; omega, rfl, ?_, rfl, ?_, hsz⟩
    · show _ = st.particles.data.set ipart (p.addCharge mc.k_times)
      rw [hk0, addCharge_zero, set_of_getElem? _ _ _ hp]
    · show _ = st.new_electrons.data ++ (if mc.k_times = 0 then [] else _)
      rw [if_pos hk0]; simp
  · have happ : applyOutcome ion ipart st
        (.processed mc (ionCurrent ion (fieldNorm ops ion F) F mc.TotalIonizPot)) =
        some { particles := { dimension := st.particles.dimension,
                              data := st.particles.data.set ipart (p.addCharge mc.k_times) },
               new_electrons :=
                 { dimension := st.new_electrons.dimension,
                   data := st.new_electrons.data ++
                     [electronOf ion st.new_electrons.dimension p mc.k_times] },
               scratch := mc.scratch,
               projected := st.projected ++
                 [(ipart, ionCurrent ion (fieldNorm ops ion F) F mc.TotalIonizPot)],
               nrand := st.nrand + 1 } := by
      simp only [applyOutcome, hp, Option.some_bind, ne_eq, hk0, not_false_eq_true, if_true,
        spawnElectron_spec ion st.new_electrons p mc.k_times hd hd32]
    refine ⟨_, _, rfl, happ, by show mc.k_times ≤ _; omega, rfl, rfl, rfl, ?_, hsz⟩
    show _ = st.new_electrons.data ++ (if mc.k_times = 0 then [] else _)
    rw [if_neg hk0]
    rfl

theorem particleLoop_spec (ops : MathOps R) (ion : IonizationTunnel R) (fuel : Nat)
    (hfuel : ion.atomic_number_ ≤ fuel) (Epart : List (LocalFields R)) (rand : Nat → Nat) :
    ∀ (n i : Nat) (st : State R), BatchReady ion Epart st i n →
      ∃ st1, particleLoop ops ion fuel Epart rand n i st = some st1 ∧
        ((outcomeTrace ops ion fuel Epart rand n i st).map Outcome.k_times).length = n ∧
        st1.particles.dimension = st.particles.dimension ∧
        st1.particles.data.length = st.particles.data.length ∧
        (∀ j p, st.particles.data[j]? = some p →
          st1.particles.data[j]? = some (if i ≤ j ∧ j < i + n then
            p.addCharge (((outcomeTrace ops ion fuel Epart rand n i st).map
              Outcome.k_times).getD (j - i) 0) else p)) ∧
        (∀ j p, i ≤ j → j < i + n → st.particles.data[j]? = some p →
          ((outcomeTrace ops ion fuel Epart rand n i st).map Outcome.k_times).getD (j - i) 0
            ≤ ion.atomic_number_ - p.charge.toNat) ∧
        st1.new_electrons.dimension = st.new_electrons.dimension ∧
        st1.new_electrons.data = st.new_electrons.data ++
          expectedElectrons ion st.new_electrons.dimension
            ((st.particles.data.drop i).take n)
            ((outcomeTrace ops ion fuel Epart rand n i st).map Outcome.k_times) := by
  intro n
  induction n with
  | zero =>
    intro i st _
    refine ⟨st, rfl, rfl, rfl, rfl, fun j p hp => ?_, fun j p h1 h2 _ => by omega, rfl, ?_⟩
    · rw [hp, if_neg (by omega)]
    · simp [expectedElectrons]
  | succ n ih =>
    intro i st hr
    have hi : i < st.particles.data.length := by have := hr.inParticles; omega
    have hiE : i < Epart.length := by have := hr.inFields; omega
    have hp : st.particles.data[i]? = some st.particles.data[i] :=
      List.getElem?_eq_getElem hi
    have hF : Epart[i]? = some Epart[i] := List.getElem?_eq_getElem hiE
    obtain ⟨hc0, hc1, hdim⟩ := hr.ions i _ (le_refl _) (by omega) hp
    obtain ⟨o, st1, ho, ha, hk, hd1, hdata1, hed1, hel1, hsc1⟩ :=
      stepParticle_spec ops ion hr.sized fuel hfuel Epart rand i st hr.scratch _ hp hc0 hc1
        _ hF hdim hr.dimSmall
    have hw : wrap (i + 1) = i + 1 := wrap_of_lt (by have := hr.small; omega)
    have hne : ∀ j, j ≠ i → st1.particles.data[j]? = st.particles.data[j]? := by
      intro j hj
      rw [hdata1, List.getElem?_set_ne (Ne.symm hj)]
    have hr1 : BatchReady ion Epart st1 (i + 1) n := by
      refine ⟨hr.sized, hsc1, ?_, ?_, ?_, ?_, ?_⟩
      · rw [hdata1, List.length_set]; have := hr.inParticles; omega
      · have := hr.inFields; omega
      · have := hr.small; omega
      · rw [hed1]; exact hr.dimSmall
      · intro j p h1 h2 hj
        rw [hne j (by omega)] at hj
        rw [hed1]
        exact hr.ions j p (by omega) (by omega) hj
    obtain ⟨st2, hloop, hlen, hd2, hl2, hdata2, hcap2, hed2, hel2⟩ := ih (i + 1) st1 hr1
    have htrace : (outcomeTrace ops ion fuel Epart rand (n + 1) i st).map Outcome.k_times =
        o.k_times :: (outcomeTrace ops ion fuel Epart rand n (i + 1) st1).map
          Outcome.k_times := by
      simp only [outcomeTrace, ho, ha, hw, List.map_cons]
    refine ⟨st2, ?_, ?_, ?_, ?_, ?_, ?_, ?_, ?_⟩
    · simp only [particleLoop, stepParticle, ho, ha, Option.some_bind, hw]
      exact hloop
    · rw [htrace, List.length_cons, hlen]
    · rw [hd2, hd1]
    · rw [hl2, hdata1, List.length_set]
    · intro j p hj
      rw [htrace]
      by_cases hji : j = i
      · subst hji
        have hpe : p = st.particles.data[j] := by rw [hp] at hj; exact (Option.some.inj hj).symm
        have h1 : st1.particles.data[j]? = some (p.addCharge o.k_times) := by
          rw [hdata1, List.getElem?_set_self hi, hpe]
        rw [hdata2 j _ h1, if_neg (by omega), if_pos (by omega), Nat.sub_self,
          List.getD_cons_zero]
      · have h1 : st1.particles.data[j]? = some p := by rw [hne j hji]; exact hj
        rw [hdata2 j p h1]
        by_cases hin : i + 1 ≤ j ∧ j < i + 1 + n
        · rw [if_pos hin, if_pos (by omega)]
          have : j - i = (j - (i + 1)) + 1 := by omega
          rw [this, List.getD_cons_succ]
        · rw [if_neg hin, if_neg (by omega)]
    · intro j p h1 h2 hj
      rw [htrace]
      by_cases hji : j = i
      · subst hji
        have hpe : p = st.particles.data[j] := by rw [hp] at hj; exact (Option.some.inj hj).symm
        rw [Nat.sub_self, List.getD_cons_zero, hpe]
        exact hk
      · have h3 : st1.particles.data[j]? = some p := by rw [hne j hji]; exact hj
        have : j - i = (j - (i + 1)) + 1 := by omega
        rw [this, List.getD_cons_succ]
        exact hcap2 j p (by omega) (by omega) h3
    · rw [hed2, hed1]
    · rw [hel2, hel1, htrace, hed1, hdata1, List.drop_set_of_lt _ _ (Nat.lt_succ_self i),
        List.drop_eq_getElem_cons hi, List.take_succ_cons, List.append_assoc]
      rfl

theorem batchReady_of_callReady (ion : IonizationTunnel R)
    (particles new_electrons : Particles R) (ipart_min ipart_max : Nat)
    (Epart : List (LocalFields R)) (nrand : Nat)
    (h : CallReady ion particles new_electrons ipart_min ipart_max Epart) :
    BatchReady ion Epart (initState ion particles new_electrons nrand) ipart_min
      (ipart_max - ipart_min) := by
  have h1 := h.ordered
  refine ⟨h.sized, ⟨by simp [initState], by simp [initState]⟩, ?_, ?_, ?_, h.dimSmall, ?_⟩
  · show ipart_min + (ipart_max - ipart_min) ≤ particles.data.length
    have := h.inParticles; omega
  · have := h.inFields; omega
  · have := h.small; omega
  · intro j p hj1 hj2 hp
    exact h.ions j p hj1 (by omega) hp

theorem expectedElectrons_weights (ion : IonizationTunnel R) (d : Nat) :
    ∀ (ps : List (Particle R)) (ks : List Nat),
      (expectedElectrons ion d ps ks).map (fun e => e.weight) =
        ((ps.zip ks).filter fun pk => decide (pk.2 ≠ 0)).map
          fun pk => (pk.2 : R) * pk.1.weight := by
  intro ps
  induction ps with
  | nil => intro ks; simp [expectedElectrons]
  | cons p ps ih =>
    intro ks
    cases ks with
    | nil => simp [expectedElectrons]
    | cons k ks =>
      simp only [expectedElectrons, List.map_append, ih ks, List.zip_cons_cons]
      by_cases hk : k = 0
      · simp [hk]
      · simp [hk, electronOf]

theorem sampleCall_ready (R : Type) [LinearOrderedField R] :
    CallReady (sampleIon R) (sampleParticles R) (sampleElectrons R) 0 3 (sampleFields R) := by
  refine ⟨sampleIon_sized R, by decide, by simp [sampleParticles], by simp [sampleFields],
    by norm_num, by norm_num [sampleElectrons], ?_⟩
  intro j p _ hj hp
  have hj3 : j = 0 ∨ j = 1 ∨ j = 2 := by omega
  rcases hj3 with rfl | rfl | rfl <;>
    · simp only [sampleParticles, List.getElem?_cons_zero, List.getElem?_cons_succ,
        Option.some.injEq] at hp
      subst hp
      simp [sampleIon, sampleElectrons]

theorem applyOutcome_projected (ion : IonizationTunnel R) (ipart : Nat) (st st1 : State R)
    (o : Outcome R) (h : applyOutcome ion ipart st o = some st1) :
    st1.projected = st.projected ++ expectedCalls ipart [o] := by
  cases o with
  | skipped =>
    simp only [applyOutcome, Option.some.injEq] at h
    subst h
    simp [expectedCalls]
  | processed mc J =>
    simp only [applyOutcome] at h
    cases hp : st.particles.data[ipart]? with
    | none => rw [hp] at h; cases h
    | some p =>
      rw [hp] at h
      simp only [Option.some_bind] at h
      split at h
      · cases hsp : spawnElectron ion st.new_electrons p mc.k_times with
        | none => rw [hsp] at h; cases h
        | some e =>
          rw [hsp] at h
          simp only [Option.some_bind, Option.some.injEq] at h
          subst h
          simp [expectedCalls]
      · simp only [Option.some.injEq] at h
        subst h
        simp [expectedCalls]

theorem expectedCalls_cons (i : Nat) (o : Outcome R) (os : List (Outcome R)) :
    expectedCalls i (o :: os) = expectedCalls i [o] ++ expectedCalls (i + 1) os := by
  cases o <;> simp [expectedCalls]

theorem expectedCalls_mem (os : List (Outcome R)) :
    ∀ (i j : Nat) (J : LocalFields R), (j, J) ∈ expectedCalls i os →
      i ≤ j ∧ ∃ mc, os[j - i]? = some (.processed mc J) := by
  induction os with
  | nil => intro i j J h; simp [expectedCalls] at h
  | cons o os ih =>
    intro i j J h
    have hrec : (j, J) ∈ expectedCalls (i + 1) os →
        i ≤ j ∧ ∃ mc, (o :: os)[j - i]? = some (.processed mc J) := by
      intro h1
      obtain ⟨h2, mc, h3⟩ := ih (i + 1) j J h1
      refine ⟨by omega, mc, ?_⟩
      have : j - i = (j - (i + 1)) + 1 := by omega
      rw [this, List.getElem?_cons_succ]
      exact h3
    cases o with
    | skipped => exact hrec (by simpa [expectedCalls] using h)
    | processed mc J1 =>
      simp only [expectedCalls, List.mem_cons, Prod.mk.injEq] at h
      rcases h with ⟨h1, h2⟩ | h
      · subst h1; subst h2
        exact ⟨le_refl _, mc, by simp⟩
      · exact hrec h

theorem batchReady_step (ops : MathOps R) (ion : IonizationTunnel R) (fuel : Nat)
    (hfuel : ion.atomic_number_ ≤ fuel) (Epart : List (LocalFields R)) (rand : Nat → Nat)
    (n i : Nat) (st : State R) (hr : BatchReady ion Epart st i (n + 1)) :
    ∃ o st1, particleOutcome ops ion fuel Epart rand i st = some o ∧
      applyOutcome ion i st o = some st1 ∧ BatchReady ion Epart st1 (i + 1) n ∧
      wrap (i + 1) = i + 1 ∧
      ∀ j, j ≠ i → st1.particles.data[j]? = st.particles.data[j]? := by
  have hi : i < st.particles.data.length := by have := hr.inParticles; omega
  have hiE : i < Epart.length := by have := hr.inFields; omega
  have hp : st.particles.data[i]? = some st.particles.data[i] :=
    List.getElem?_eq_getElem hi
  have hF : Epart[i]? = some Epart[i] := List.getElem?_eq_getElem hiE
  obtain ⟨hc0, hc1, hdim⟩ := hr.ions i _ (le_refl _) (by omega) hp
  obtain ⟨o, st1, ho, ha, _, _, hdata1, hed1, _, hsc1⟩ :=
    stepParticle_spec ops ion hr.sized fuel hfuel Epart rand i st hr.scratch _ hp hc0 hc1
      _ hF hdim hr.dimSmall
  have hne : ∀ j, j ≠ i → st1.particles.data[j]? = st.particles.data[j]? := by
    intro j hj
    rw [hdata1, List.getElem?_set_ne (Ne.symm hj)]
  refine ⟨o, st1, ho, ha, ⟨hr.sized, hsc1, ?_, ?_, ?_, ?_, ?_⟩,
    wrap_of_lt (by have := hr.small; omega), hne⟩
  · rw [hdata1, List.length_set]; have := hr.inParticles; omega
  · have := hr.inFields; omega
  · have := hr.small; omega
  · rw [hed1]; exact hr.dimSmall
  · intro j p h1 h2 hj
    rw [hne j (by omega)] at hj
    rw [hed1]
    exact hr.ions j p (by omega) (by omega) hj

theorem particleLoop_calls (ops : MathOps R) (ion : IonizationTunnel R) (fuel : Nat)
    (hfuel : ion.atomic_number_ ≤ fuel) (Epart : List (LocalFields R)) (rand : Nat → Nat) :
    ∀ (n i : Nat) (st st2 : State R), BatchReady ion Epart st i n →
      particleLoop ops ion fuel Epart rand n i st = some st2 →
      st2.projected = st.projected ++
          expectedCalls i (outcomeTrace ops ion fuel Epart rand n i st) ∧
        ∀ (j : Nat) (p : Particle R) (F : LocalFields R), i ≤ j → j < i + n →
          st.particles.data[j]? = some p → Epart[j]? = some F →
          (if toUInt p.charge = ion.atomic_number_ ∨ fieldNorm ops ion F = 0 then
            (outcomeTrace ops ion fuel Epart rand n i st)[j - i]? = some .skipped
          else ∃ mc, (outcomeTrace ops ion fuel Epart rand n i st)[j - i]? =
              some (.processed mc (ionCurrent ion (fieldNorm ops ion F) F mc.TotalIonizPot)) ∧
            mc.TotalIonizPot = traversedPot ion (toUInt p.charge) mc.k_times) := by
  intro n
  induction n with
  | zero =>
    intro i st st2 _ h
    simp only [particleLoop, Option.some.injEq] at h
    subst h
    exact ⟨by simp [outcomeTrace, expectedCalls], fun j p F h1 h2 => by omega⟩
  | succ n ih =>
    intro i st st2 hr h
    obtain ⟨o, st1, ho, ha, hr1, hw, hne⟩ :=
      batchReady_step ops ion fuel hfuel Epart rand n i st hr
    simp only [particleLoop, stepParticle, ho, ha, Option.some_bind, hw] at h
    obtain ⟨hproj, hskip⟩ := ih (i + 1) st1 st2 hr1 h
    have htrace : outcomeTrace ops ion fuel Epart rand (n + 1) i st =
        o :: outcomeTrace ops ion fuel Epart rand n (i + 1) st1 := by
      simp only [outcomeTrace, ho, ha, hw]
    refine ⟨?_, fun j p F h1 h2 hp hF => ?_⟩
    · rw [htrace, expectedCalls_cons i o, hproj, applyOutcome_projected ion i st st1 o ha,
        List.append_assoc]
    · rw [htrace]
      by_cases hji : j = i
      · subst hji
        rw [Nat.sub_self, List.getElem?_cons_zero]
        split
        · rename_i hs
          rcases hs with hs | hs
          · rw [particleOutcome_full ops ion fuel Epart rand j st p hp hs] at ho
            exact ho.symm
          · rw [particleOutcome_zero ops ion fuel Epart rand j st p hp F hF hs] at ho
            exact ho.symm
        · rename_i hs
          rw [not_or] at hs
          rw [particleOutcome_processed ops ion fuel Epart rand j st p hp hs.1 F hF hs.2] at ho
          obtain ⟨hc0, hc1, _⟩ := hr.ions j p (le_refl _) (by omega) hp
          have hsmall := hr.sized.small
          have hZ : toUInt p.charge = p.charge.toNat := toUInt_of_range hc0 (by omega)
          obtain ⟨mc, hmc, _, _, htot⟩ := monteCarlo_spec ops ion hr.sized st.scratch hr.scratch
            (toUInt p.charge) (by have := hs.1; omega) (1 / fieldNorm ops ion F)
            ((rand st.nrand : R) * ion.INV_RAND_MAX) fuel (by omega)
          rw [hmc, Option.some_bind] at ho
          exact ⟨mc, ho.symm, htot⟩
      · have : j - i = (j - (i + 1)) + 1 := by omega
        rw [this, List.getElem?_cons_succ]
        exact hskip j p F (by omega) (by omega) (by rw [hne j hji]; exact hp) hF

theorem fieldNorm_zero (ion : IonizationTunnel ℝ) :
    fieldNorm (MathOps.mk Real.exp Real.log Real.sqrt (fun x y => x ^ y) Real.Gamma) ion
      { x := 0, y := 0, z := 0 } = 0 := by
  simp [fieldNorm]

theorem kTimes_of_trace (os : List (Outcome R)) (n : Nat) (o : Outcome R)
    (h : os[n]? = some o) : (os.map Outcome.k_times).getD n 0 = o.k_times := by
  rw [List.getD_eq_getElem?_getD, List.getElem?_map, h]; rfl

theorem coefficients_of_lt (ops : MathOps R) (base : Ionization R) (Z : Nat)
    (h1 : Z < base.Potential.length) (h2 : Z < base.Azimuthal_quantum_number.length) :
    coefficients ops base Z =
      some (alphaOf ops base Z, betaOf ops base Z, gammaOf ops base Z) := by
  simp only [coefficients, getElem?_of_lt _ h1, getElem?_of_lt _ h2, Option.some_bind,
    alphaOf, betaOf, gammaOf, cstOf]

theorem fillTables_spec (ops : MathOps R) (base : Ionization R) :
    ∀ (n Z : Nat) (a b g : List R), Z + n ≤ a.length → Z + n ≤ b.length → Z + n ≤ g.length →
      Z + n ≤ base.Potential.length → Z + n ≤ base.Azimuthal_quantum_number.length →
      Z + n < 2 ^ 32 →
      ∃ t, fillTables ops base n Z (a, b, g) = some t ∧
        t.1.length = a.length ∧ t.2.1.length = b.length ∧ t.2.2.length = g.length ∧
        (∀ j, t.1[j]? = if Z ≤ j ∧ j < Z + n then some (alphaOf ops base j) else a[j]?) ∧
        (∀ j, t.2.1[j]? = if Z ≤ j ∧ j < Z + n then some (betaOf ops base j) else b[j]?) ∧
        (∀ j, t.2.2[j]? = if Z ≤ j ∧ j < Z + n then some (gammaOf ops base j) else g[j]?) := by
  intro n
  induction n with
  | zero =>
    intro Z a b g _ _ _ _ _ _
    refine ⟨(a, b, g), rfl, rfl, rfl, rfl, fun j => ?_, fun j => ?_, fun j => ?_⟩ <;>
      rw [if_neg (by omega)]
  | succ n ih =>
    intro Z a b g ha hb hg hP hA h32
    have hZa : Z < a.length := by omega
    have hZb : Z < b.length := by omega
    have hZg : Z < g.length := by omega
    obtain ⟨t, ht, hla, hlb, hlg, hta, htb, htg⟩ := ih (Z + 1)
      (a.set Z (alphaOf ops base Z)) (b.set Z (betaOf ops base Z))
      (g.set Z (gammaOf ops base Z))
      (by simp only [List.length_set]; omega) (by simp only [List.length_set]; omega)
      (by simp only [List.length_set]; omega) (by omega) (by omega) (by omega)
    have step : ∀ (v : List R) (x : Nat → R) (w : List R), Z < v.length →
        (∀ j, w[j]? = if Z + 1 ≤ j ∧ j < Z + 1 + n then some (x j) else (v.set Z (x Z))[j]?) →
        ∀ j, w[j]? = if Z ≤ j ∧ j < Z + (n + 1) then some (x j) else v[j]? := by
      intro v x w hv hw j
      rw [hw j]
      by_cases hj : j = Z
      · subst hj
        rw [if_neg (by omega), if_pos (by omega), List.getElem?_set_self hv]
      · rw [List.getElem?_set_ne (Ne.symm hj)]
        by_cases hj2 : Z + 1 ≤ j ∧ j < Z + 1 + n
        · rw [if_pos hj2, if_pos (by omega)]
        · rw [if_neg hj2, if_neg (by omega)]
    refine ⟨t, ?_, by simpa using hla, by simpa using hlb, by simpa using hlg,
      step a _ _ hZa hta, step b _ _ hZb htb, step g _ _ hZg htg⟩
    simp only [fillTables, coefficients_of_lt ops base Z (by omega) (by omega),
      Option.some_bind, store_of_lt _ _ hZa, store_of_lt _ _ hZb, store_of_lt _ _ hZg,
      wrap_of_lt (show Z + 1 < 2 ^ 32 by omega)]
    exact ht

theorem getD_of_getElem? (v : List R) (j : Nat) (x : R) (h : v[j]? = some x) :
    v.getD j 0 = x := by
  rw [List.getD_eq_getElem?_getD, h]; rfl

theorem new_spec (ops : MathOps R) (base : Ionization R) (hsmall : base.atomic_number_ < 2 ^ 32)
    (hP : base.Potential.length = base.atomic_number_)
    (hA : base.Azimuthal_quantum_number.length = base.atomic_number_) :
    ∃ ion, IonizationTunnel.new ops base = some ion ∧ ion.toIonization = base ∧
      ion.one_third = 1 / 3 ∧ Sized ion ∧
      ∀ Z, Z < base.atomic_number_ →
        ion.alpha_tunnel.getD Z 0 = alphaOf ops base Z ∧
        ion.beta_tunnel.getD Z 0 = betaOf ops base Z ∧
        ion.gamma_tunnel.getD Z 0 = gammaOf ops base Z := by
  obtain ⟨t, ht, hla, hlb, hlg, hta, htb, htg⟩ := fillTables_spec ops base base.atomic_number_ 0
    (List.replicate base.atomic_number_ 0) (List.replicate base.atomic_number_ 0)
    (List.replicate base.atomic_number_ 0) (by simp) (by simp) (by simp)
    (by omega) (by omega) (by omega)
  have hnew : IonizationTunnel.new ops base =
      some { toIonization := base, one_third := 1 / 3, alpha_tunnel := t.1,
             beta_tunnel := t.2.1, gamma_tunnel := t.2.2 } := by
    simp only [IonizationTunnel.new, ht, Option.some_bind]
  refine ⟨_, hnew, rfl, rfl,
    ⟨hsmall, hP, by simpa using hla, by simpa using hlb, by simpa using hlg⟩,
    fun Z hZ => ⟨?_, ?_, ?_⟩⟩
  · exact getD_of_getElem? _ _ _ (by rw [hta Z, if_pos (by omega)])
  · exact getD_of_getElem? _ _ _ (by rw [htb Z, if_pos (by omega)])
  · exact getD_of_getElem? _ _ _ (by rw [htg Z, if_pos (by omega)])

theorem hydrogen_new :
    IonizationTunnel.new (MathOps.mk Real.exp Real.log Real.sqrt (fun x y => x ^ y) Real.Gamma)
      (hydrogenBase ℝ) = some (hydrogenIon ℝ) := by
  have h4 : Real.sqrt 4 = 2 := by
    rw [show (4 : ℝ) = 2 ^ 2 by norm_num]; exact Real.sqrt_sq (by norm_num)
  have hw : wrap 1 = 1 := by decide
  simp [IonizationTunnel.new, fillTables, coefficients, store, hydrogenBase, hydrogenIon]
  norm_num [h4, Real.Gamma_two]

theorem exp_third_lt_two : Real.exp (1 / 3) < 2 := by
  by_contra hc
  push_neg at hc
  have h1 : Real.exp 1 = Real.exp (1 / 3) ^ 3 := by
    rw [← Real.exp_nat_mul]; norm_num
  have h2 : (8 : ℝ) ≤ Real.exp (1 / 3) ^ 3 := by
    have := pow_le_pow_left₀ (by norm_num : (0 : ℝ) ≤ 2) hc 3
    norm_num at this
    exact this
  have h3 := Real.exp_one_lt_d9
  rw [h1] at h3
  norm_num at h3
  linarith

theorem exponent_decreasing (α δ1 δ2 : ℝ) (h2 : 0 < δ2) (h12 : δ2 < δ1) (hα : 3 * α ≤ δ2) :
    -δ1 * (1 / 3) + α * Real.log δ1 < -δ2 * (1 / 3) + α * Real.log δ2 := by
  have h1 : 0 < δ1 := lt_trans h2 h12
  have hlog : Real.log δ1 - Real.log δ2 = Real.log (δ1 / δ2) :=
    (Real.log_div (ne_of_gt h1) (ne_of_gt h2)).symm
  have hx : 1 < δ1 / δ2 := by rw [lt_div_iff₀ h2]; linarith
  have hpos : 0 < Real.log (δ1 / δ2) := Real.log_pos hx
  have hlt : Real.log (δ1 / δ2) < δ1 / δ2 - 1 :=
    Real.log_lt_sub_one_of_pos (lt_trans zero_lt_one hx) (ne_of_gt hx)
  have hdiff : δ1 / δ2 - 1 = (δ1 - δ2) / δ2 := by field_simp
  by_cases hα0 : α ≤ 0
  · have : α * Real.log (δ1 / δ2) ≤ 0 := mul_nonpos_of_nonpos_of_nonneg hα0 (le_of_lt hpos)
    nlinarith
  · push_neg at hα0
    have h3 : α * Real.log (δ1 / δ2) < α * ((δ1 - δ2) / δ2) := by
      rw [← hdiff]; exact mul_lt_mul_of_pos_left hlt hα0
    have h4 : α * ((δ1 - δ2) / δ2) ≤ (δ1 - δ2) / 3 := by
      rw [mul_div_assoc', div_le_div_iff₀ h2 (by norm_num : (0 : ℝ) < 3)]
      nlinarith
    nlinarith

theorem rateVal_increasing (ion : IonizationTunnel ℝ) (Z : Nat) (hthird : ion.one_third = 1 / 3)
    (hβ : 0 < ion.beta_tunnel.getD Z 0) (hγ : 0 < ion.gamma_tunnel.getD Z 0)
    (E1 E2 : ℝ) (h1 : 0 < E1) (h12 : E1 < E2)
    (hmax : 3 * ion.alpha_tunnel.getD Z 0 * E2 ≤ ion.gamma_tunnel.getD Z 0) :
    rateVal (MathOps.mk Real.exp Real.log Real.sqrt (fun x y => x ^ y) Real.Gamma) ion Z (1 / E1)
      < rateVal (MathOps.mk Real.exp Real.log Real.sqrt (fun x y => x ^ y) Real.Gamma) ion Z
          (1 / E2) := by
  have h2 : 0 < E2 := lt_trans h1 h12
  simp only [rateVal, hthird]
  apply mul_lt_mul_of_pos_left _ hβ
  apply Real.exp_lt_exp.mpr
  apply exponent_decreasing
  · positivity
  · apply mul_lt_mul_of_pos_left _ hγ
    exact one_div_lt_one_div_of_lt h1 h12
  · rw [mul_one_div, le_div_iff₀ h2]
    exact hmax

theorem cstOf_pos (base : Ionization ℝ) (Z : Nat) (hP : 0 < base.Potential.getD Z 0) :
    0 < cstOf (MathOps.mk Real.exp Real.log Real.sqrt (fun x y => x ^ y) Real.Gamma) base Z := by
  simp only [cstOf]
  have : 0 < Real.sqrt (2 / base.Potential.getD Z 0) := Real.sqrt_pos.mpr (by positivity)
  positivity

theorem betaOf_pos (base : Ionization ℝ) (Z : Nat) (hP : 0 < base.Potential.getD Z 0)
    (hA : 0 ≤ base.Azimuthal_quantum_number.getD Z 0) (hw : 0 < base.au_to_w0) :
    0 < betaOf (MathOps.mk Real.exp Real.log Real.sqrt (fun x y => x ^ y) Real.Gamma) base Z := by
  have hc := cstOf_pos base Z hP
  have hG := Real.Gamma_pos_of_pos hc
  have h2 : (0 : ℝ) < (2 : ℝ) ^ alphaOf
      (MathOps.mk Real.exp Real.log Real.sqrt (fun x y => x ^ y) Real.Gamma) base Z :=
    Real.rpow_pos_of_pos (by norm_num) _
  simp only [betaOf]
  positivity

theorem gammaOf_pos (base : Ionization ℝ) (Z : Nat) (hP : 0 < base.Potential.getD Z 0) :
    0 < gammaOf (MathOps.mk Real.exp Real.log Real.sqrt (fun x y => x ^ y) Real.Gamma) base Z := by
  have h2 : (0 : ℝ) < (2 * base.Potential.getD Z 0) ^ ((3 : ℝ) / 2) :=
    Real.rpow_pos_of_pos (by positivity) _
  simp only [gammaOf]
  positivity

theorem getD_set_ne (v : List R) {i j : Nat} (x : R) (h : i ≠ j) :
    (v.set i x).getD j 0 = v.getD j 0 := by
  rw [List.getD_eq_getElem?_getD, List.getElem?_set_ne h, ← List.getD_eq_getElem?_getD]

theorem loopBody_zero (ops : MathOps R) (ion : IonizationTunnel R) (hs : Sized ion)
    (Z : Nat) (hZ : Z + 1 < ion.atomic_number_) (invE : R) (s : LoopState R)
    (hsz : ScratchSized ion s.scratch) (hk : s.k_times = 0) :
    loopBody ops ion Z (Z + 1) invE s =
      some { scratch :=
               { IonizRate_tunnel :=
                   s.scratch.IonizRate_tunnel.set (Z + 1) (rateVal ops ion (Z + 1) invE),
                 Dnom_tunnel :=
                   (s.scratch.Dnom_tunnel.set 0 (s.scratch.Dnom_tunnel.getD 0 0 /
                     (rateVal ops ion (Z + 1) invE - s.scratch.IonizRate_tunnel.getD Z 0))).set 1
                   (s.scratch.Dnom_tunnel.getD 1 0 - (0 + s.scratch.Dnom_tunnel.getD 0 0 /
                     (rateVal ops ion (Z + 1) invE - s.scratch.IonizRate_tunnel.getD Z 0))) },
             Mult := s.Mult * s.scratch.IonizRate_tunnel.getD Z 0,
             Pint_tunnel := firstPint ops ion.dt (s.scratch.IonizRate_tunnel.getD Z 0)
               (rateVal ops ion (Z + 1) invE) (s.scratch.Dnom_tunnel.getD 0 0)
               (s.scratch.Dnom_tunnel.getD 1 0) s.Mult s.Pint_tunnel,
             TotalIonizPot := s.TotalIonizPot + ion.Potential.getD Z 0,
             k_times := 1 } := by
  have hsmall := hs.small
  have hw1 : wrap (Z + 1 + 0) = Z + 1 := wrap_of_lt (by omega)
  have hw2 : wrap (Z + 0) = Z := wrap_of_lt (by omega)
  have hw3 : wrap (0 + 1) = 1 := by decide
  have hrate := rate_of_lt ops ion (Z := Z + 1) invE
    (by rw [hs.alpha]; exact hZ) (by rw [hs.beta]; exact hZ) (by rw [hs.gamma]; exact hZ)
  have hZr : Z + 1 < s.scratch.IonizRate_tunnel.length := by rw [hsz.1]; exact hZ
  have hst := store_of_lt s.scratch.IonizRate_tunnel (i := Z + 1)
    (rateVal ops ion (Z + 1) invE) hZr
  have hlen : (s.scratch.IonizRate_tunnel.set (Z + 1)
      (rateVal ops ion (Z + 1) invE)).length = ion.atomic_number_ := by
    simpa using hsz.1
  have hd0 : 0 < s.scratch.Dnom_tunnel.length := by rw [hsz.2]; omega
  have hd1 : 1 < s.scratch.Dnom_tunnel.length := by rw [hsz.2]; omega
  simp only [loopBody, hk, hw1, hw2, hw3, hrate, hst, Option.some_bind,
    getElem?_of_lt _ (show Z < _ by rw [hlen]; omega), innerFor,
    getElem?_of_lt _ hd0, store_of_lt _ _ hd0,
    getElem?_of_lt _ (show Z + 1 < _ by rw [hlen]; exact hZ),
    getElem?_of_lt _ (show 1 < (s.scratch.Dnom_tunnel.set 0 _).length by
      simp only [List.length_set]; exact hd1),
    store_of_lt _ _ (show 1 < (s.scratch.Dnom_tunnel.set 0 _).length by
      simp only [List.length_set]; exact hd1),
    getElem?_of_lt _ (show Z < ion.Potential.length by rw [hs.potential]; omega)]
  simp only [getD_set_self _ _ hZr, getD_set_ne _ _ (show Z + 1 ≠ Z by omega),
    getD_set_ne _ _ (show 0 ≠ 1 by omega), firstPint]

theorem whileLoop_mono (ops : MathOps R) (ion : IonizationTunnel R) (hs : Sized ion)
    (Z : Nat) (hZ : Z + 1 ≤ ion.atomic_number_) (invE ran_p : R) :
    ∀ (fuel : Nat) (s s1 : LoopState R), LoopInv ion Z s →
      whileLoop ops ion Z (Z + 1) invE ran_p fuel s = some s1 → s.k_times ≤ s1.k_times := by
  have hu : usub ion.atomic_number_ (Z + 1) = ion.atomic_number_ - (Z + 1) :=
    usub_of_le hs.small hZ
  intro fuel
  induction fuel with
  | zero =>
    intro s s1 _ h
    simp only [whileLoop] at h
    split at h
    · cases h
    · cases h; exact le_refl _
  | succ fuel ih =>
    intro s s1 hinv h
    simp only [whileLoop, hu] at h
    split at h
    · rename_i hc
      obtain ⟨s2, hb, hinv2, hk2⟩ := loopBody_spec ops ion hs Z invE s hinv hc.2
      rw [hb, Option.some_bind] at h
      have := ih s2 s1 hinv2 h
      omega
    · cases h; exact le_refl _

theorem whileLoop_stop (ops : MathOps R) (ion : IonizationTunnel R) (Z Zp1 : Nat)
    (invE ran_p : R) (fuel : Nat) (s : LoopState R)
    (h : ¬ (s.Pint_tunnel < ran_p ∧ s.k_times < usub ion.atomic_number_ Zp1)) :
    whileLoop ops ion Z Zp1 invE ran_p fuel s = some s := by
  cases fuel <;> simp only [whileLoop, if_neg h]

theorem monteCarlo_enter (ops : MathOps R) (ion : IonizationTunnel R) (hs : Sized ion)
    (sc : Scratch R) (hsc : ScratchSized ion sc) (Z : Nat) (hZ : Z + 2 < ion.atomic_number_)
    (invE ran_p : R) (fuel : Nat)
    (h1 : ops.exp (-rateVal ops ion Z invE * ion.dt) < ran_p) :
    monteCarlo ops ion (fuel + 1) Z invE ran_p sc =
      (whileLoop ops ion Z (Z + 1) invE ran_p fuel
        { scratch :=
            { IonizRate_tunnel := (sc.IonizRate_tunnel.set Z (rateVal ops ion Z invE)).set
                (Z + 1) (rateVal ops ion (Z + 1) invE),
              Dnom_tunnel := ((sc.Dnom_tunnel.set 0 1).set 0
                (1 / (rateVal ops ion (Z + 1) invE - rateVal ops ion Z invE))).set 1
                (sc.Dnom_tunnel.getD 1 0 -
                  (0 + 1 / (rateVal ops ion (Z + 1) invE - rateVal ops ion Z invE))) },
          Mult := 1 * rateVal ops ion Z invE,
          Pint_tunnel := firstPint ops ion.dt (rateVal ops ion Z invE)
            (rateVal ops ion (Z + 1) invE) 1 (sc.Dnom_tunnel.getD 1 0) 1
            (ops.exp (-rateVal ops ion Z invE * ion.dt)),
          TotalIonizPot := 0 + ion.Potential.getD Z 0,
          k_times := 1 }).bind fun s =>
        if 1 - s.Pint_tunnel > ran_p ∧ s.k_times = ion.atomic_number_ - (Z + 1) then
          (ion.Potential[ion.atomic_number_ - 1]?).bind fun pot =>
            some { scratch := s.scratch, TotalIonizPot := s.TotalIonizPot + pot,
                   k_times := wrap (s.k_times + 1) }
        else
          some { scratch := s.scratch, TotalIonizPot := s.TotalIonizPot,
                 k_times := s.k_times } := by
  have hsmall := hs.small
  have hZ0 : Z < ion.atomic_number_ := by omega
  have hw : wrap (Z + 1) = Z + 1 := wrap_of_lt (by omega)
  have hrate := rate_of_lt ops ion (Z := Z) invE
    (by rw [hs.alpha]; exact hZ0) (by rw [hs.beta]; exact hZ0) (by rw [hs.gamma]; exact hZ0)
  have hZr : Z < sc.IonizRate_tunnel.length := by rw [hsc.1]; exact hZ0
  have hst := store_of_lt sc.IonizRate_tunnel (i := Z) (rateVal ops ion Z invE) hZr
  have hlen : (sc.IonizRate_tunnel.set Z (rateVal ops ion Z invE)).length
      = ion.atomic_number_ := by simpa using hsc.1
  have hget := getElem?_of_lt (sc.IonizRate_tunnel.set Z (rateVal ops ion Z invE)) (i := Z)
    (by rw [hlen]; exact hZ0)
  rw [getD_set_self _ _ hZr] at hget
  have hD0 : 0 < sc.Dnom_tunnel.length := by rw [hsc.2]; omega
  have hd0 := store_of_lt sc.Dnom_tunnel (i := 0) 1 hD0
  have hu : usub ion.atomic_number_ (Z + 1) = ion.atomic_number_ - (Z + 1) :=
    usub_of_le hsmall (by omega)
  have hu1 : usub ion.atomic_number_ 1 = ion.atomic_number_ - 1 :=
    usub_of_le hsmall (by omega)
  have hbody := loopBody_zero ops ion hs Z (by omega) invE
    { scratch := { IonizRate_tunnel := sc.IonizRate_tunnel.set Z (rateVal ops ion Z invE),
                   Dnom_tunnel := sc.Dnom_tunnel.set 0 1 },
      Mult := 1, Pint_tunnel := ops.exp (-rateVal ops ion Z invE * ion.dt),
      TotalIonizPot := 0, k_times := 0 }
    ⟨hlen, by simpa using hsc.2⟩ rfl
  simp only [getD_set_self _ _ hZr, getD_set_self _ _ hD0,
    getD_set_ne _ _ (show 0 ≠ 1 by omega)] at hbody
  simp only [monteCarlo, hrate, hst, hw, hget, Option.some_bind,
    if_neg (show ¬ (Z + 1 = ion.atomic_number_) by omega), hd0, hu, hu1, whileLoop,
    if_pos (show ops.exp (-rateVal ops ion Z invE * ion.dt) < ran_p ∧
      0 < ion.atomic_number_ - (Z + 1) from ⟨h1, by omega⟩), hbody]

theorem monteCarlo_one_event (ops : MathOps R) (ion : IonizationTunnel R) (hs : Sized ion)
    (sc : Scratch R) (hsc : ScratchSized ion sc) (Z : Nat) (hZ : Z + 2 < ion.atomic_number_)
    (invE ran_p : R) (fuel : Nat)
    (h1 : ops.exp (-rateVal ops ion Z invE * ion.dt) < ran_p)
    (h2 : ¬ (firstPint ops ion.dt (rateVal ops ion Z invE) (rateVal ops ion (Z + 1) invE) 1
      (sc.Dnom_tunnel.getD 1 0) 1 (ops.exp (-rateVal ops ion Z invE * ion.dt)) < ran_p)) :
    monteCarlo ops ion (fuel + 1) Z invE ran_p sc =
      some (oneEventResult ops ion Z invE sc) := by
  rw [monteCarlo_enter ops ion hs sc hsc Z hZ invE ran_p fuel h1,
    whileLoop_stop _ _ _ _ _ _ _ _ (by rintro ⟨h, _⟩; exact h2 h), Option.some_bind,
    if_neg (by rintro ⟨_, h⟩; simp only at h; omega)]
  rfl

theorem monteCarlo_more_events (ops : MathOps R) (ion : IonizationTunnel R) (hs : Sized ion)
    (sc : Scratch R) (hsc : ScratchSized ion sc) (Z : Nat) (hZ : Z + 2 < ion.atomic_number_)
    (invE ran_p : R) (fuel : Nat) (hfuel : ion.atomic_number_ - (Z + 1) ≤ fuel + 1)
    (h1 : ops.exp (-rateVal ops ion Z invE * ion.dt) < ran_p)
    (h2 : firstPint ops ion.dt (rateVal ops ion Z invE) (rateVal ops ion (Z + 1) invE) 1
      (sc.Dnom_tunnel.getD 1 0) 1 (ops.exp (-rateVal ops ion Z invE * ion.dt)) < ran_p) :
    ∃ r, monteCarlo ops ion (fuel + 1) Z invE ran_p sc = some r ∧ 2 ≤ r.k_times := by
  have hsmall := hs.small
  have hu : usub ion.atomic_number_ (Z + 1) = ion.atomic_number_ - (Z + 1) :=
    usub_of_le hsmall (by omega)
  have hinv1 : LoopInv ion Z
      { scratch :=
          { IonizRate_tunnel := (sc.IonizRate_tunnel.set Z (rateVal ops ion Z invE)).set
              (Z + 1) (rateVal ops ion (Z + 1) invE),
            Dnom_tunnel := ((sc.Dnom_tunnel.set 0 1).set 0
              (1 / (rateVal ops ion (Z + 1) invE - rateVal ops ion Z invE))).set 1
              (sc.Dnom_tunnel.getD 1 0 -
                (0 + 1 / (rateVal ops ion (Z + 1) invE - rateVal ops ion Z invE))) },
        Mult := 1 * rateVal ops ion Z invE,
        Pint_tunnel := firstPint ops ion.dt (rateVal ops ion Z invE)
          (rateVal ops ion (Z + 1) invE) 1 (sc.Dnom_tunnel.getD 1 0) 1
          (ops.exp (-rateVal ops ion Z invE * ion.dt)),
        TotalIonizPot := 0 + ion.Potential.getD Z 0,
        k_times := 1 } := by
    refine ⟨⟨by simpa using hsc.1, by simpa using hsc.2⟩, by show 1 ≤ _; omega, ?_⟩
    show 0 + _ = traversedPot ion Z 1
    rw [traversedPot_succ]; rfl
  rw [monteCarlo_enter ops ion hs sc hsc Z hZ invE ran_p fuel h1]
  cases fuel with
  | zero => omega
  | succ fuel =>
    obtain ⟨s2, hb, hinv2, hk2⟩ := loopBody_spec ops ion hs Z invE _ hinv1
      (by show 1 < _; omega)
    obtain ⟨s3, hw3, hinv3, _⟩ := whileLoop_spec ops ion hs Z (by omega) invE ran_p fuel s2
      hinv2 (by rw [hk2]; show _ - (1 + 1) ≤ _; omega)
    have hmono := whileLoop_mono ops ion hs Z (by omega) invE ran_p fuel s2 s3 hinv2 hw3
    have hk3 : 2 ≤ s3.k_times := by rw [hk2] at hmono; exact hmono
    have hloop : whileLoop ops ion Z (Z + 1) invE ran_p (fuel + 1)
        { scratch :=
            { IonizRate_tunnel := (sc.IonizRate_tunnel.set Z (rateVal ops ion Z invE)).set
                (Z + 1) (rateVal ops ion (Z + 1) invE),
              Dnom_tunnel := ((sc.Dnom_tunnel.set 0 1).set 0
                (1 / (rateVal ops ion (Z + 1) invE - rateVal ops ion Z invE))).set 1
                (sc.Dnom_tunnel.getD 1 0 -
                  (0 + 1 / (rateVal ops ion (Z + 1) invE - rateVal ops ion Z invE))) },
          Mult := 1 * rateVal ops ion Z invE,
          Pint_tunnel := firstPint ops ion.dt (rateVal ops ion Z invE)
            (rateVal ops ion (Z + 1) invE) 1 (sc.Dnom_tunnel.getD 1 0) 1
            (ops.exp (-rateVal ops ion Z invE * ion.dt)),
          TotalIonizPot := 0 + ion.Potential.getD Z 0,
          k_times := 1 } = some s3 := by
      simp only [whileLoop, hu, if_pos (show _ ∧ 1 < ion.atomic_number_ - (Z + 1) from
        ⟨h2, by omega⟩), hb, Option.some_bind, hw3]
    rw [hloop, Option.some_bind]
    split
    · rename_i hfin
      have hpl := getElem?_of_lt ion.Potential (i := ion.atomic_number_ - 1)
        (by rw [hs.potential]; omega)
      have hk3b : s3.k_times ≤ ion.atomic_number_ - (Z + 1) := hinv3.2.1
      rw [hpl, Option.some_bind]
      exact ⟨_, rfl, by
        show 2 ≤ wrap (s3.k_times + 1)
        rw [wrap_of_lt (by omega)]; omega⟩
    · exact ⟨_, rfl, hk3⟩

theorem exp_six_bounds : (403 : ℝ) < Real.exp 6 ∧ Real.exp 6 < 404 := by
  have h6 : Real.exp 6 = Real.exp 1 ^ 6 := by
    rw [← Real.exp_nat_mul]; norm_num
  have hlo := Real.exp_one_gt_d9
  have hhi := Real.exp_one_lt_d9
  rw [h6]
  constructor
  · calc (403 : ℝ) < (2.7182818283 : ℝ) ^ 6 := by norm_num
      _ < Real.exp 1 ^ 6 := pow_lt_pow_left₀ hlo (by norm_num) (by norm_num)
  · calc Real.exp 1 ^ 6 < (2.7182818286 : ℝ) ^ 6 :=
        pow_lt_pow_left₀ hhi (le_of_lt (Real.exp_pos 1)) (by norm_num)
      _ < 404 := by norm_num

theorem toy_rate_bounds :
    (29 / 10 : ℝ) ≤ 8 * Real.exp (-(3 / 4)) ∧ (79 / 1000 : ℝ) ≤ 32 * Real.exp (-6) ∧
      32 * Real.exp (-6) ≤ (8 / 100 : ℝ) := by
  obtain ⟨h1, h2⟩ := exp_six_bounds
  have hhi := Real.exp_one_lt_d9
  have hm1 : Real.exp (-1) ≤ Real.exp (-(3 / 4)) := Real.exp_le_exp.mpr (by norm_num)
  have hinv1 : Real.exp (-1) = (Real.exp 1)⁻¹ := Real.exp_neg 1
  have hinv6 : Real.exp (-6) = (Real.exp 6)⁻¹ := Real.exp_neg 6
  have hp1 : 0 < Real.exp 1 := Real.exp_pos 1
  have hp6 : 0 < Real.exp 6 := Real.exp_pos 6
  refine ⟨?_, ?_, ?_⟩
  · have : (29 / 80 : ℝ) ≤ (Real.exp 1)⁻¹ := by
      rw [le_inv_comm₀ (by norm_num) hp1]; norm_num; linarith
    linarith
  · rw [hinv6]
    have : (79 / 32000 : ℝ) ≤ (Real.exp 6)⁻¹ := by
      rw [le_inv_comm₀ (by norm_num) hp6]; norm_num; linarith
    linarith
  · rw [hinv6]
    have : (Real.exp 6)⁻¹ ≤ (1 / 400 : ℝ) := by
      rw [inv_le_comm₀ hp6 (by norm_num)]; norm_num; linarith
    linarith

theorem toy_exp_bounds (r0 r1 : ℝ) (hr0 : 29 / 10 ≤ r0) (hr1 : 79 / 1000 ≤ r1)
    (hr1b : r1 ≤ 8 / 100) :
    0 < Real.exp (-r0 * 1) ∧ Real.exp (-r0 * 1) < 1 / 2 ∧
      (92 / 100 : ℝ) ≤ Real.exp (-r1 * 1) ∧ Real.exp (-r1 * 1) ≤ 927 / 1000 := by
  refine ⟨Real.exp_pos _, ?_, ?_, ?_⟩
  · have h1 : Real.exp (-r0 * 1) ≤ Real.exp (-1) := Real.exp_le_exp.mpr (by linarith)
    have h2 : Real.exp (-1) = (Real.exp 1)⁻¹ := Real.exp_neg 1
    have h3 : (Real.exp 1)⁻¹ < 1 / 2 := by
      rw [inv_lt_comm₀ (Real.exp_pos 1) (by norm_num)]
      have := Real.exp_one_gt_d9
      norm_num; linarith
    linarith
  · have := Real.add_one_le_exp (-r1 * 1)
    linarith
  · have h1 : Real.exp (-r1 * 1) = (Real.exp r1)⁻¹ := by
      rw [mul_one]; exact Real.exp_neg r1
    have h2 := Real.add_one_le_exp r1
    rw [h1, inv_le_comm₀ (Real.exp_pos _) (by norm_num)]
    norm_num
    linarith

theorem toy_window (r0 r1 a0 a1 : ℝ) (hr0 : 29 / 10 ≤ r0) (hr1 : 0 < r1) (hr1b : r1 ≤ 8 / 100)
    (ha0 : 0 < a0) (ha0b : a0 < 1 / 2) (ha1 : 92 / 100 ≤ a1) (ha1b : a1 ≤ 927 / 1000) :
    ¬ (a0 + ((0 + a0 * (1 / (r1 - r0))) + (0 - (0 + 1 / (r1 - r0))) * a1) * (1 * r0)
        < (1073741824 : ℝ) * (1 / 2147483647)) ∧
    a0 + ((0 + a0 * (1 / (r1 - r0))) + (0 - (0 + 1 / (r1 - r0))) * a1) * (1 * r0)
        < (2147483646 : ℝ) * (1 / 2147483647) ∧
    ¬ (a0 + ((0 + a0 * (1 / (r1 - r0))) +
        ((0 - (0 + 1 / (r1 - r0))) - (0 + 1 / (r1 - r0))) * a1) * (1 * r0)
        < (2147483646 : ℝ) * (1 / 2147483647)) := by
  have hne : r1 - r0 ≠ 0 := by linarith
  obtain ⟨y, hy⟩ : ∃ y, y = 1 / (r1 - r0) * r0 := ⟨_, rfl⟩
  have hyeq : y * (r1 - r0) = r0 := by rw [hy]; field_simp
  have hy1 : y ≤ -1 := by nlinarith
  have hy2 : -(10284 / 10000 : ℝ) ≤ y := by nlinarith
  have e1 : a0 + ((0 + a0 * (1 / (r1 - r0))) + (0 - (0 + 1 / (r1 - r0))) * a1) * (1 * r0)
      = a0 + (a0 - a1) * y := by rw [hy]; ring
  have e2 : a0 + ((0 + a0 * (1 / (r1 - r0))) +
      ((0 - (0 + 1 / (r1 - r0))) - (0 + 1 / (r1 - r0))) * a1) * (1 * r0)
      = a0 + (a0 - 2 * a1) * y := by rw [hy]; ring
  rw [e1, e2]
  refine ⟨?_, ?_, ?_⟩
  · rw [not_lt]; norm_num; nlinarith
  · norm_num; nlinarith
  · rw [not_lt]; norm_num; nlinarith


theorem toy_new :
    IonizationTunnel.new (MathOps.mk Real.exp Real.log Real.sqrt (fun x y => x ^ y) Real.Gamma)
      (toyBase ℝ) = some (toyIon ℝ) := by
  have h1 : Real.sqrt (2 / 8) = 1 / 2 := by
    rw [show (2 / 8 : ℝ) = (1 / 2) ^ 2 by norm_num]; exact Real.sqrt_sq (by norm_num)
  have h2 : Real.sqrt (2 / 18) = 1 / 3 := by
    rw [show (2 / 18 : ℝ) = (1 / 3) ^ 2 by norm_num]; exact Real.sqrt_sq (by norm_num)
  have hp : ∀ a : ℝ, 0 ≤ a → (a ^ 2) ^ ((3 : ℝ) / 2) = a ^ 3 := by
    intro a ha
    rw [← Real.rpow_natCast a 2, ← Real.rpow_mul ha, ← Real.rpow_natCast a 3]
    norm_num
  have p1 : ((2 : ℝ) * 2) ^ ((3 : ℝ) / 2) = 8 := by
    rw [show (2 : ℝ) * 2 = 2 ^ 2 by norm_num, hp 2 (by norm_num)]; norm_num
  have p2 : ((2 : ℝ) * 8) ^ ((3 : ℝ) / 2) = 64 := by
    rw [show (2 : ℝ) * 8 = 4 ^ 2 by norm_num, hp 4 (by norm_num)]; norm_num
  have p3 : ((2 : ℝ) * 18) ^ ((3 : ℝ) / 2) = 216 := by
    rw [show (2 : ℝ) * 18 = 6 ^ 2 by norm_num, hp 6 (by norm_num)]; norm_num
  have hw1 : wrap 1 = 1 := by decide
  have hw2 : wrap 2 = 2 := by decide
  have hw3 : wrap (2 + 1) = 3 := by decide
  have h1b : Real.sqrt 2 / Real.sqrt 8 = 1 / 2 := by
    rw [← Real.sqrt_div (by norm_num)]; exact h1
  have h2b : Real.sqrt 2 / Real.sqrt 18 = 1 / 3 := by
    rw [← Real.sqrt_div (by norm_num)]; exact h2
  simp [IonizationTunnel.new, fillTables, coefficients, store, toyBase, toyIon, hw1, hw2, hw3,
    p1, p2, p3]
  rw [h1b, h2b]
  norm_num [Real.Gamma_one]

theorem toy_fieldNorm :
    fieldNorm (MathOps.mk Real.exp Real.log Real.sqrt (fun x y => x ^ y) Real.Gamma) (toyIon ℝ)
      { x := 64 / 9, y := 0, z := 0 } = 64 / 9 := by
  simp [fieldNorm, toyIon, toyBase]
  exact Real.sqrt_sq (by norm_num)

theorem toy_rates :
    rateVal (MathOps.mk Real.exp Real.log Real.sqrt (fun x y => x ^ y) Real.Gamma) (toyIon ℝ) 0
      (1 / (64 / 9)) = 8 * Real.exp (-(3 / 4)) ∧
    rateVal (MathOps.mk Real.exp Real.log Real.sqrt (fun x y => x ^ y) Real.Gamma) (toyIon ℝ) 1
      (1 / (64 / 9)) = 32 * Real.exp (-6) := by
  constructor
  · simp only [rateVal, toyIon, List.getD_cons_zero, zero_mul, add_zero]
    norm_num
  · simp only [rateVal, toyIon, List.getD_cons_zero, List.getD_cons_succ, zero_mul, add_zero]
    norm_num

theorem step_processed (ops : MathOps R) (ion : IonizationTunnel R) (fuel : Nat)
    (Epart : List (LocalFields R)) (rand : Nat → Nat) (ipart : Nat) (st : State R)
    (p : Particle R) (F : LocalFields R) (mc : MCResult R)
    (hp : st.particles.data[ipart]? = some p) (hZ : toUInt p.charge ≠ ion.atomic_number_)
    (hF : Epart[ipart]? = some F) (hE : fieldNorm ops ion F ≠ 0)
    (hmc : monteCarlo ops ion fuel (toUInt p.charge) (1 / fieldNorm ops ion F)
      ((rand st.nrand : R) * ion.INV_RAND_MAX) st.scratch = some mc)
    (hk : mc.k_times ≠ 0) (hd : st.new_electrons.dimension ≤ p.position.length)
    (hd32 : st.new_electrons.dimension < 2 ^ 32) :
    particleOutcome ops ion fuel Epart rand ipart st =
      some (.processed mc (ionCurrent ion (fieldNorm ops ion F) F mc.TotalIonizPot)) ∧
    applyOutcome ion ipart st
      (.processed mc (ionCurrent ion (fieldNorm ops ion F) F mc.TotalIonizPot)) =
      some (ionizedState ion ipart st p mc
        (ionCurrent ion (fieldNorm ops ion F) F mc.TotalIonizPot)) := by
  constructor
  · rw [particleOutcome_processed ops ion fuel Epart rand ipart st p hp hZ F hF hE, hmc,
      Option.some_bind]
  · simp only [applyOutcome, hp, Option.some_bind, ne_eq, hk, not_false_eq_true, if_true,
      spawnElectron_spec ion st.new_electrons p mc.k_times hd hd32, ionizedState]

theorem toyIon_sized (R : Type) [LinearOrderedField R] : Sized (toyIon R) :=
  ⟨by norm_num [toyIon, toyBase], rfl, rfl, rfl, rfl⟩

theorem entryState_inv (ops : MathOps R) (ion : IonizationTunnel R)
    (sc : Scratch R) (hsc : ScratchSized ion sc) (Z : Nat) (invE : R) :
    LoopInv ion Z (entryState ops ion Z invE sc) :=
  ⟨⟨by simpa [entryState] using hsc.1, by simpa [entryState] using hsc.2⟩, Nat.zero_le _,
    by simp [entryState, traversedPot]⟩

theorem fieldNorm_real (ion : IonizationTunnel ℝ) (F : LocalFields ℝ) :
    fieldNorm (MathOps.mk Real.exp Real.log Real.sqrt (fun x y => x ^ y) Real.Gamma) ion F = ion.EC_to_au * Real.sqrt (F.x ^ 2 + F.y ^ 2 + F.z ^ 2) := by
  simp only [fieldNorm, Real.rpow_two]

theorem normSq_pos (F : LocalFields ℝ) (h : F.x ≠ 0 ∨ F.y ≠ 0 ∨ F.z ≠ 0) :
    0 < F.x ^ 2 + F.y ^ 2 + F.z ^ 2 := by
  rcases h with h | h | h
  · have := pow_pos (abs_pos.mpr h) 2
    rw [sq_abs] at this
    nlinarith [sq_nonneg F.y, sq_nonneg F.z]
  · have := pow_pos (abs_pos.mpr h) 2
    rw [sq_abs] at this
    nlinarith [sq_nonneg F.x, sq_nonneg F.z]
  · have := pow_pos (abs_pos.mpr h) 2
    rw [sq_abs] at this
    nlinarith [sq_nonneg F.x, sq_nonneg F.y]

theorem fieldNorm_ne_zero (ion : IonizationTunnel ℝ) (hEC : ion.EC_to_au ≠ 0)
    (F : LocalFields ℝ) (h : F.x ≠ 0 ∨ F.y ≠ 0 ∨ F.z ≠ 0) : fieldNorm (MathOps.mk Real.exp Real.log Real.sqrt (fun x y => x ^ y) Real.Gamma) ion F ≠ 0 := by
  rw [fieldNorm_real]
  exact mul_ne_zero hEC (Real.sqrt_ne_zero'.mpr (normSq_pos F h))

theorem rateVal_pos (ion : IonizationTunnel ℝ) (Z : Nat) (invE : ℝ)
    (hβ : 0 < ion.beta_tunnel.getD Z 0) : 0 < rateVal (MathOps.mk Real.exp Real.log Real.sqrt (fun x y => x ^ y) Real.Gamma) ion Z invE := by
  simp only [rateVal]
  exact mul_pos hβ (Real.exp_pos _)

theorem expectedElectrons_mem (ion : IonizationTunnel R) (d : Nat) (e : Particle R) :
    ∀ (ps : List (Particle R)) (ks : List Nat), e ∈ expectedElectrons ion d ps ks →
      ∃ (i : Nat) (p : Particle R) (k : Nat),
        ps[i]? = some p ∧ ks[i]? = some k ∧ k ≠ 0 ∧ e = electronOf ion d p k := by
  intro ps
  induction ps with
  | nil => intro ks h; simp [expectedElectrons] at h
  | cons p ps ih =>
    intro ks h
    cases ks with
    | nil => simp [expectedElectrons] at h
    | cons k ks =>
      simp only [expectedElectrons, List.mem_append] at h
      rcases h with h | h
      · by_cases hk : k = 0
        · simp [hk] at h
        · rw [if_neg hk, List.mem_singleton] at h
          exact ⟨0, p, k, List.getElem?_cons_zero, List.getElem?_cons_zero, hk, h⟩
      · obtain ⟨i, p1, k1, h1, h2, h3, h4⟩ := ih ks h
        exact ⟨i + 1, p1, k1, by simpa using h1, by simpa using h2, h3, h4⟩

theorem expectedElectrons_of_mem (ion : IonizationTunnel R) (d : Nat) :
    ∀ (ps : List (Particle R)) (ks : List Nat) (i : Nat) (p : Particle R) (k : Nat),
      ps[i]? = some p → ks[i]? = some k → k ≠ 0 →
      electronOf ion d p k ∈ expectedElectrons ion d ps ks := by
  intro ps
  induction ps with
  | nil => intro ks i p k h; simp at h
  | cons p0 ps ih =>
    intro ks i p k h1 h2 hk
    cases ks with
    | nil => simp at h2
    | cons k0 ks =>
      simp only [expectedElectrons, List.mem_append]
      cases i with
      | zero =>
        simp only [List.getElem?_cons_zero, Option.some.injEq] at h1 h2
        subst h1; subst h2
        left
        rw [if_neg hk]; exact List.mem_singleton.mpr rfl
      | succ i =>
        right
        exact ih ks i p k (by simpa using h1) (by simpa using h2) hk

theorem getElem?_slice {α : Type} (l : List α) (a n i : Nat) (hi : i < n) :
    ((l.drop a).take n)[i]? = l[a + i]? := by
  rw [List.getElem?_take, if_pos hi, List.getElem?_drop]

theorem loopBody_eq_locals (ops : MathOps R) (ion : IonizationTunnel R) (Z Zp1 : Nat) (invE : R)
    (s : LoopState R) :
    loopBody ops ion Z Zp1 invE s =
      (bodyLocals ops ion Z Zp1 invE s).bind (bodyFinish ion Z s) := by
  simp only [loopBody, bodyLocals, bodyFinish, Option.bind_assoc, Option.some_bind]

theorem innerFor_closed (ops : MathOps R) (dt : R) (rates : List R) (Z newZ : Nat)
    (hnew : newZ < rates.length) (hsmall : rates.length < 2 ^ 32) :
    ∀ (n i : Nat) (dnom : List R) (D_sum P_sum : R),
      i + n ≤ dnom.length → Z + i + n ≤ rates.length → dnom.length ≤ rates.length →
      ∃ r, innerFor ops dt rates Z newZ n i dnom D_sum P_sum = some r ∧
        r.1.length = dnom.length ∧
        (∀ j, r.1.getD j 0 = if i ≤ j ∧ j < i + n then
            dnom.getD j 0 / (rates.getD newZ 0 - rates.getD (Z + j) 0) else dnom.getD j 0) ∧
        r.2.1 = D_sum + Finset.sum (Finset.range n) (fun j => r.1.getD (i + j) 0) ∧
        r.2.2 = P_sum + Finset.sum (Finset.range n)
          (fun j => ops.exp (-(rates.getD (Z + (i + j)) 0) * dt) * r.1.getD (i + j) 0) := by
  intro n
  induction n with
  | zero =>
    intro i dnom D_sum P_sum _ _ _
    refine ⟨_, rfl, rfl, ?_, ?_, ?_⟩
    · intro j; rw [if_neg (by omega)]
    · simp
    · simp
  | succ n ih =>
    intro i dnom D_sum P_sum h1 h2 h3
    have hi : i < dnom.length := by omega
    have hzi : Z + i < rates.length := by omega
    have hw : wrap (Z + i) = Z + i := wrap_of_lt (by omega)
    have hw1 : wrap (i + 1) = i + 1 := wrap_of_lt (by omega)
    obtain ⟨r, hr, hlen, hD, hDs, hPs⟩ := ih (i + 1) (dnom.set i
      (dnom.getD i 0 / (rates.getD newZ 0 - rates.getD (Z + i) 0)))
      (D_sum + dnom.getD i 0 / (rates.getD newZ 0 - rates.getD (Z + i) 0))
      (P_sum + ops.exp (-(rates.getD (Z + i) 0) * dt) *
        (dnom.getD i 0 / (rates.getD newZ 0 - rates.getD (Z + i) 0)))
      (by simp; omega) (by omega) (by simpa using h3)
    have hri : r.1.getD i 0 = dnom.getD i 0 / (rates.getD newZ 0 - rates.getD (Z + i) 0) := by
      rw [hD i, if_neg (by omega), getD_set_self _ _ hi]
    refine ⟨r, ?_, by simpa using hlen, ?_, ?_, ?_⟩
    · simp only [innerFor, hw, hw1, getElem?_of_lt _ hi, getElem?_of_lt _ hnew,
        getElem?_of_lt _ hzi, store_of_lt _ _ hi, Option.some_bind]
      exact hr
    · intro j
      rw [hD j]
      by_cases hji : j = i
      · subst hji
        rw [if_neg (by omega), if_pos (by omega), getD_set_self _ _ hi]
      · rw [getD_set_ne _ _ (Ne.symm hji)]
        by_cases hc : i + 1 ≤ j ∧ j < i + 1 + n
        · rw [if_pos hc, if_pos (by omega)]
        · rw [if_neg hc, if_neg (by omega)]
    · have : ∀ k, r.1.getD (i + 1 + k) 0 = r.1.getD (i + (k + 1)) 0 := by
        intro k; rw [Nat.add_assoc, Nat.add_comm 1 k]
      rw [hDs, Finset.sum_range_succ']
      simp only [this, add_zero, hri]
      ring
    · have : ∀ k, ops.exp (-(rates.getD (Z + (i + 1 + k)) 0) * dt) * r.1.getD (i + 1 + k) 0 =
          ops.exp (-(rates.getD (Z + (i + (k + 1))) 0) * dt) * r.1.getD (i + (k + 1)) 0 := by
        intro k; rw [Nat.add_assoc i 1 k, Nat.add_comm 1 k]
      rw [hPs, Finset.sum_range_succ']
      simp only [this, add_zero, hri]
      ring

theorem sum_nodalWeight_eq_zero {F : Type} [Field F] (s : Finset Nat) (v : Nat → F)
    (hvs : Set.InjOn v s) (hs : 2 ≤ s.card) :
    Finset.sum s (fun i => Lagrange.nodalWeight s v i) = 0 := by
  have hne : s.Nonempty := Finset.card_pos.mp (by omega)
  have h1 := Lagrange.sum_basis hvs hne
  have h2 := congrArg (fun p => Polynomial.coeff p (s.card - 1)) h1
  simp only [Polynomial.finset_sum_coeff] at h2
  rw [Polynomial.coeff_one, if_neg (by omega)] at h2
  rw [← h2]
  apply Finset.sum_congr rfl
  intro i hi
  rw [Lagrange.basis_eq_prod_sub_inv_mul_nodal_div hi, ← Lagrange.nodal_erase_eq_nodal_div hi,
    Polynomial.coeff_C_mul]
  have hm : (Lagrange.nodal (s.erase i) v).Monic := Lagrange.nodal_monic
  have hd : (Lagrange.nodal (s.erase i) v).natDegree = s.card - 1 := by
    rw [Lagrange.natDegree_nodal, Finset.card_erase_of_mem hi]
  have : (Lagrange.nodal (s.erase i) v).coeff (s.card - 1) = 1 := by
    rw [← hd]; exact hm.coeff_natDegree
  rw [this, mul_one]

theorem bodyLocals_spec (ops : MathOps R) (ion : IonizationTunnel R) (hs : Sized ion)
    (Z : Nat) (invE : R) (s : LoopState R) (hinv : LoopInv ion Z s)
    (hk : s.k_times < ion.atomic_number_ - (Z + 1)) :
    ∃ l, bodyLocals ops ion Z (Z + 1) invE s = some l ∧
      l.IonizRate_tunnel = s.scratch.IonizRate_tunnel.set (Z + 1 + s.k_times)
        (rateVal ops ion (Z + 1 + s.k_times) invE) ∧
      l.Dnom_tunnel.length = ion.atomic_number_ ∧
      (∀ j, l.Dnom_tunnel.getD j 0 =
        if j ≤ s.k_times then
          s.scratch.Dnom_tunnel.getD j 0 /
            (rateVal ops ion (Z + 1 + s.k_times) invE - s.scratch.IonizRate_tunnel.getD (Z + j) 0)
        else if j = s.k_times + 1 then s.scratch.Dnom_tunnel.getD j 0 - l.D_sum
        else s.scratch.Dnom_tunnel.getD j 0) ∧
      l.D_sum = Finset.sum (Finset.range (s.k_times + 1)) (fun i => l.Dnom_tunnel.getD i 0) ∧
      l.P_sum = Finset.sum (Finset.range (s.k_times + 1)) (fun i =>
          ops.exp (-(s.scratch.IonizRate_tunnel.getD (Z + i) 0) * ion.dt) *
            l.Dnom_tunnel.getD i 0) +
        l.Dnom_tunnel.getD (s.k_times + 1) 0 *
          ops.exp (-(rateVal ops ion (Z + 1 + s.k_times) invE) * ion.dt) ∧
      l.Mult = s.Mult * s.scratch.IonizRate_tunnel.getD (Z + s.k_times) 0 := by
  obtain ⟨⟨hr, hd⟩, _, hpot⟩ := hinv
  have hsmall := hs.small
  have hnew : Z + 1 + s.k_times < ion.atomic_number_ := by omega
  have hw1 : wrap (Z + 1 + s.k_times) = Z + 1 + s.k_times := wrap_of_lt (by omega)
  have hw2 : wrap (Z + s.k_times) = Z + s.k_times := wrap_of_lt (by omega)
  have hw3 : wrap (s.k_times + 1) = s.k_times + 1 := wrap_of_lt (by omega)
  have hrate := rate_of_lt ops ion (Z := Z + 1 + s.k_times) invE
    (by rw [hs.alpha]; exact hnew) (by rw [hs.beta]; exact hnew) (by rw [hs.gamma]; exact hnew)
  have hnewr : Z + 1 + s.k_times < s.scratch.IonizRate_tunnel.length := by rw [hr]; exact hnew
  have hst := store_of_lt s.scratch.IonizRate_tunnel (i := Z + 1 + s.k_times)
    (rateVal ops ion (Z + 1 + s.k_times) invE) hnewr
  have hlen : (s.scratch.IonizRate_tunnel.set (Z + 1 + s.k_times)
      (rateVal ops ion (Z + 1 + s.k_times) invE)).length = ion.atomic_number_ := by
    simpa using hr
  obtain ⟨r, hin, hrl, hD, hDs, hPs⟩ := innerFor_closed ops ion.dt _ Z (Z + 1 + s.k_times)
    (by rw [hlen]; exact hnew) (by rw [hlen]; exact hsmall) (s.k_times + 1) 0
    s.scratch.Dnom_tunnel 0 0 (by omega) (by rw [hlen]; omega) (by rw [hlen, hd])
  have hk1 : s.k_times + 1 < r.1.length := by rw [hrl, hd]; omega
  have hold : ∀ j, j ≤ s.k_times →
      (s.scratch.IonizRate_tunnel.set (Z + 1 + s.k_times)
        (rateVal ops ion (Z + 1 + s.k_times) invE)).getD (Z + j) 0 =
      s.scratch.IonizRate_tunnel.getD (Z + j) 0 := by
    intro j hj
    exact getD_set_ne _ _ (by omega)
  have hnewv : (s.scratch.IonizRate_tunnel.set (Z + 1 + s.k_times)
      (rateVal ops ion (Z + 1 + s.k_times) invE)).getD (Z + 1 + s.k_times) 0 =
      rateVal ops ion (Z + 1 + s.k_times) invE := getD_set_self _ _ hnewr
  have hfront : ∀ j, j ≤ s.k_times →
      (r.1.set (s.k_times + 1) (r.1.getD (s.k_times + 1) 0 - r.2.1)).getD j 0 =
        r.1.getD j 0 := by
    intro j hj
    exact getD_set_ne _ _ (by omega)
  simp only [bodyLocals, hw1, hw2, hw3, hrate, hst, Option.some_bind,
    getElem?_of_lt _ (show Z + s.k_times < _ by rw [hlen]; omega), hin,
    getElem?_of_lt _ hk1, store_of_lt _ _ hk1,
    getElem?_of_lt _ (show Z + 1 + s.k_times < _ by rw [hlen]; exact hnew)]
  refine ⟨_, rfl, rfl, ?_, ?_, ?_, ?_, ?_⟩
  · simp only [List.length_set]; rw [hrl, hd]
  · intro j
    show (r.1.set (s.k_times + 1) (r.1.getD (s.k_times + 1) 0 - r.2.1)).getD j 0 = _
    by_cases hj : j ≤ s.k_times
    · rw [if_pos hj, hfront j hj, hD j, if_pos (by omega), hnewv, hold j hj]
    · rw [if_neg hj]
      by_cases hj1 : j = s.k_times + 1
      · subst hj1
        rw [if_pos rfl, getD_set_self _ _ hk1, hD, if_neg (by omega)]
      · rw [if_neg hj1, getD_set_ne _ _ (Ne.symm hj1), hD, if_neg (by omega)]
  · show r.2.1 = Finset.sum (Finset.range (s.k_times + 1)) (fun i =>
      (r.1.set (s.k_times + 1) (r.1.getD (s.k_times + 1) 0 - r.2.1)).getD i 0)
    have h2 := hDs
    rw [zero_add] at h2
    refine h2.trans (Finset.sum_congr rfl ?_)
    intro i hi
    rw [Finset.mem_range] at hi
    rw [hfront i (by omega), Nat.zero_add]
  · show r.2.2 + (r.1.getD (s.k_times + 1) 0 - r.2.1) * ops.exp (-_ * ion.dt) =
      Finset.sum (Finset.range (s.k_times + 1)) (fun i =>
        ops.exp (-(s.scratch.IonizRate_tunnel.getD (Z + i) 0) * ion.dt) *
          (r.1.set (s.k_times + 1) (r.1.getD (s.k_times + 1) 0 - r.2.1)).getD i 0) +
      (r.1.set (s.k_times + 1) (r.1.getD (s.k_times + 1) 0 - r.2.1)).getD (s.k_times + 1) 0 *
        ops.exp (-(rateVal ops ion (Z + 1 + s.k_times) invE) * ion.dt)
    rw [getD_set_self _ _ hk1, hnewv]
    congr 1
    have h2 := hPs
    rw [zero_add] at h2
    refine h2.trans (Finset.sum_congr rfl ?_)
    intro i hi
    rw [Finset.mem_range] at hi
    rw [hfront i (by omega), Nat.zero_add, hold i (by omega)]
  · show s.Mult * _ = s.Mult * _
    rw [getD_set_ne _ _ (by omega)]

theorem loopBody_of_locals (ops : MathOps R) (ion : IonizationTunnel R) (hs : Sized ion)
    (Z : Nat) (invE : R) (s : LoopState R) (hinv : LoopInv ion Z s)
    (hk : s.k_times < ion.atomic_number_ - (Z + 1)) (l : BodyLocals R)
    (hl : bodyLocals ops ion Z (Z + 1) invE s = some l) :
    ∃ s1, loopBody ops ion Z (Z + 1) invE s = some s1 ∧ LoopInv ion Z s1 ∧
      s1.k_times = s.k_times + 1 ∧
      s1.scratch.IonizRate_tunnel = l.IonizRate_tunnel ∧
      s1.scratch.Dnom_tunnel = l.Dnom_tunnel ∧ s1.Mult = l.Mult ∧
      s1.Pint_tunnel = s.Pint_tunnel + l.P_sum * l.Mult := by
  obtain ⟨s1, hb, hinv1, hk1⟩ := loopBody_spec ops ion hs Z invE s hinv hk
  have hw2 : wrap (Z + s.k_times) = Z + s.k_times := wrap_of_lt (by have := hs.small; omega)
  have hb2 := hb
  rw [loopBody_eq_locals, hl, Option.some_bind] at hb2
  simp only [bodyFinish, hw2, getElem?_of_lt _
    (show Z + s.k_times < ion.Potential.length by rw [hs.potential]; omega),
    Option.some_bind, Option.some.injEq] at hb2
  subst hb2
  exact ⟨_, hb, hinv1, hk1, rfl, rfl, rfl, rfl⟩

theorem iterBody_succ (ops : MathOps R) (ion : IonizationTunnel R) (Z : Nat) (invE : R) :
    ∀ (n : Nat) (s : LoopState R),
      iterBody ops ion Z invE (n + 1) s =
        (loopBody ops ion Z (Z + 1) invE s).bind (iterBody ops ion Z invE n) := by
  intro n
  induction n with
  | zero =>
    intro s
    show (some s).bind _ = _
    rw [Option.some_bind]
    cases loopBody ops ion Z (Z + 1) invE s <;> rfl
  | succ n ih =>
    intro s
    show (iterBody ops ion Z invE (n + 1) s).bind _ = _
    rw [ih s, Option.bind_assoc]
    rfl

theorem whileLoop_iter (ops : MathOps R) (ion : IonizationTunnel R) (hs : Sized ion)
    (Z : Nat) (hZ : Z + 1 ≤ ion.atomic_number_) (invE ran_p : R) :
    ∀ (fuel : Nat) (s s1 : LoopState R), LoopInv ion Z s →
      whileLoop ops ion Z (Z + 1) invE ran_p fuel s = some s1 →
      ∃ n, iterBody ops ion Z invE n s = some s1 ∧
        s.k_times + n ≤ ion.atomic_number_ - (Z + 1) := by
  have hu : usub ion.atomic_number_ (Z + 1) = ion.atomic_number_ - (Z + 1) :=
    usub_of_le hs.small hZ
  intro fuel
  induction fuel with
  | zero =>
    intro s s1 hinv h
    simp only [whileLoop, hu] at h
    split at h
    · cases h
    · cases h
      exact ⟨0, rfl, hinv.2.1⟩
  | succ fuel ih =>
    intro s s1 hinv h
    simp only [whileLoop, hu] at h
    split at h
    · rename_i hc
      obtain ⟨s2, hb, hinv2, hk2⟩ := loopBody_spec ops ion hs Z invE s hinv hc.2
      rw [hb, Option.some_bind] at h
      obtain ⟨n, hn, hle⟩ := ih s2 s1 hinv2 h
      refine ⟨n + 1, ?_, by omega⟩
      rw [iterBody_succ, hb, Option.some_bind]
      exact hn
    · cases h
      exact ⟨0, rfl, hinv.2.1⟩

theorem partialFraction_zero (r : Nat → R) : partialFraction r 0 0 = 1 := by
  simp [partialFraction]

theorem partialFraction_succ (r : Nat → R) (n i : Nat) (hi : i ≤ n) :
    partialFraction r (n + 1) i = partialFraction r n i / (r (n + 1) - r i) := by
  unfold partialFraction
  rw [Finset.range_succ, Finset.erase_insert_of_ne (by omega),
    Finset.prod_insert (by simp)]
  ring

theorem partialFraction_sum (r : Nat → R) (n : Nat)
    (hr : ∀ i j, i ≤ n + 1 → j ≤ n + 1 → i ≠ j → r i ≠ r j) :
    Finset.sum (Finset.range (n + 1 + 1)) (fun i => partialFraction r (n + 1) i) = 0 := by
  have hinj : Set.InjOn (fun i => -r i) (Finset.range (n + 1 + 1) : Finset Nat) := by
    intro i hi j hj hij
    by_contra hne
    have hi2 : i < n + 1 + 1 := by simpa using hi
    have hj2 : j < n + 1 + 1 := by simpa using hj
    exact hr i j (by omega) (by omega) hne (neg_injective hij)
  have h := sum_nodalWeight_eq_zero (Finset.range (n + 1 + 1)) (fun i => -r i) hinj (by simp)
  rw [← h]
  apply Finset.sum_congr rfl
  intro i _
  unfold partialFraction Lagrange.nodalWeight
  apply Finset.prod_congr rfl
  intro j _
  rw [one_div]
  congr 1
  ring

theorem partialFraction_last (r : Nat → R) (n : Nat)
    (hr : ∀ i j, i ≤ n + 1 → j ≤ n + 1 → i ≠ j → r i ≠ r j) :
    partialFraction r (n + 1) (n + 1) =
      0 - Finset.sum (Finset.range (n + 1)) (fun i => partialFraction r (n + 1) i) := by
  have h := partialFraction_sum r n hr
  rw [Finset.sum_range_succ] at h
  linarith

theorem iterBody_spec (ops : MathOps R) (ion : IonizationTunnel R) (hs : Sized ion)
    (sc : Scratch R) (hsc : ScratchSized ion sc) (Z : Nat) (invE : R) :
    ∀ n, Z + n < ion.atomic_number_ →
      ∃ s, iterBody ops ion Z invE n (entryState ops ion Z invE sc) = some s ∧
        LoopInv ion Z s ∧ s.k_times = n ∧
        (∀ i, i ≤ n → s.scratch.IonizRate_tunnel.getD (Z + i) 0 = rateVal ops ion (Z + i) invE) ∧
        s.Mult = rateProd ops ion Z invE n ∧
        ((∀ j, 0 < j → sc.Dnom_tunnel.getD j 0 = 0) →
          (∀ i j, i ≤ n → j ≤ n → i ≠ j →
            rateVal ops ion (Z + i) invE ≠ rateVal ops ion (Z + j) invE) →
          (∀ i, i ≤ n → s.scratch.Dnom_tunnel.getD i 0 =
            partialFraction (fun j => rateVal ops ion (Z + j) invE) n i) ∧
          (∀ j, n < j → s.scratch.Dnom_tunnel.getD j 0 = 0)) := by
  intro n
  induction n with
  | zero =>
    intro hZ
    have hZr : Z < sc.IonizRate_tunnel.length := by rw [hsc.1]; exact hZ
    have hD0 : 0 < sc.Dnom_tunnel.length := by rw [hsc.2]; omega
    refine ⟨_, rfl, entryState_inv ops ion sc hsc Z invE, rfl, ?_, ?_, ?_⟩
    · intro i hi
      have : i = 0 := by omega
      subst this
      exact getD_set_self _ _ hZr
    · simp [entryState, rateProd]
    · intro hfresh _
      refine ⟨?_, ?_⟩
      · intro i hi
        have : i = 0 := by omega
        subst this
        rw [partialFraction_zero]
        exact getD_set_self _ _ hD0
      · intro j hj
        show (sc.Dnom_tunnel.set 0 1).getD j 0 = 0
        rw [getD_set_ne _ _ (by omega)]
        exact hfresh j hj
  | succ n ih =>
    intro hZ
    obtain ⟨s, hit, hinv, hkn, hrates, hmult, hclosed⟩ := ih (by omega)
    have hk : s.k_times < ion.atomic_number_ - (Z + 1) := by omega
    obtain ⟨l, hl, hlr, hllen, hlD, hlDs, hlPs, hlM⟩ := bodyLocals_spec ops ion hs Z invE s hinv hk
    obtain ⟨s1, hb, hinv1, hk1, hr1, hd1, hm1, hp1⟩ :=
      loopBody_of_locals ops ion hs Z invE s hinv hk l hl
    have hrlen : Z + 1 + n < s.scratch.IonizRate_tunnel.length := by rw [hinv.1.1]; omega
    refine ⟨s1, ?_, hinv1, by omega, ?_, ?_, ?_⟩
    · show (iterBody ops ion Z invE n (entryState ops ion Z invE sc)).bind _ = some s1
      rw [hit, Option.some_bind]
      exact hb
    · intro i hi
      rw [hr1, hlr, hkn]
      by_cases hin : i = n + 1
      · subst hin
        rw [show Z + (n + 1) = Z + 1 + n by omega]
        exact getD_set_self _ _ hrlen
      · rw [getD_set_ne _ _ (by omega)]
        exact hrates i (by omega)
    · rw [hm1, hlM, hmult, hkn, hrates n (le_refl n)]
      simp only [rateProd]
      rw [Finset.prod_range_succ]
    · intro hfresh hdist
      obtain ⟨hc1, hc2⟩ := hclosed hfresh
        (fun i j hi hj hij => hdist i j (by omega) (by omega) hij)
      have hfront : ∀ i, i ≤ n → s1.scratch.Dnom_tunnel.getD i 0 =
          partialFraction (fun j => rateVal ops ion (Z + j) invE) (n + 1) i := by
        intro i hi
        rw [hd1, hlD i, if_pos (by omega), hc1 i hi, hrates i hi,
          partialFraction_succ _ n i hi, hkn, show Z + 1 + n = Z + (n + 1) by omega]
      refine ⟨?_, ?_⟩
      · intro i hi
        by_cases hin : i = n + 1
        · subst hin
          rw [hd1, hlD (n + 1), if_neg (by omega), if_pos (by omega), hc2 (n + 1) (by omega),
            hlDs, hkn, partialFraction_last _ n hdist]
          congr 1
          apply Finset.sum_congr rfl
          intro i hi
          rw [Finset.mem_range] at hi
          rw [← hd1]
          exact hfront i (by omega)
        · exact hfront i (by omega)
      · intro j hj
        rw [hd1, hlD j, if_neg (by omega), if_neg (by omega)]
        exact hc2 j (by omega)

theorem whileLoop_result (ops : MathOps R) (ion : IonizationTunnel R) (hs : Sized ion)
    (sc : Scratch R) (hsc : ScratchSized ion sc) (Z : Nat) (hZ : Z + 1 ≤ ion.atomic_number_)
    (invE ran_p : R) (fuel : Nat) (sN : LoopState R)
    (h : whileLoop ops ion Z (Z + 1) invE ran_p fuel (entryState ops ion Z invE sc) = some sN) :
    iterBody ops ion Z invE sN.k_times (entryState ops ion Z invE sc) = some sN := by
  obtain ⟨n, hn, hle⟩ := whileLoop_iter ops ion hs Z hZ invE ran_p fuel _ sN
    (entryState_inv ops ion sc hsc Z invE) h
  have hle2 : n ≤ ion.atomic_number_ - (Z + 1) := by
    have : (entryState ops ion Z invE sc).k_times = 0 := rfl
    omega
  obtain ⟨s, hit, _, hk, _⟩ := iterBody_spec ops ion hs sc hsc Z invE n (by omega)
  rw [hit] at hn
  cases hn
  rw [hk]
  exact hit

theorem bodyLocals_entry (ops : MathOps R) (ion : IonizationTunnel R) (hs : Sized ion)
    (sc : Scratch R) (hsc : ScratchSized ion sc) (Z : Nat) (hZ : Z + 1 < ion.atomic_number_)
    (invE : R) :
    ∃ l, bodyLocals ops ion Z (Z + 1) invE (entryState ops ion Z invE sc) = some l ∧
      l.Dnom_tunnel = (oneEventResult ops ion Z invE sc).scratch.Dnom_tunnel ∧
      l.D_sum = 1 / (rateVal ops ion (Z + 1) invE - rateVal ops ion Z invE) ∧
      l.Dnom_tunnel.getD 1 0 = sc.Dnom_tunnel.getD 1 0 - l.D_sum ∧
      l.P_sum = ops.exp (-(rateVal ops ion Z invE) * ion.dt) * l.D_sum +
        (sc.Dnom_tunnel.getD 1 0 - l.D_sum) * ops.exp (-(rateVal ops ion (Z + 1) invE) * ion.dt) := by
  have hZr : Z < sc.IonizRate_tunnel.length := by rw [hsc.1]; omega
  have hD0 : 0 < sc.Dnom_tunnel.length := by rw [hsc.2]; omega
  obtain ⟨l, hl, _, _, hlD, hlDs, hlPs, _⟩ := bodyLocals_spec ops ion hs Z invE
    (entryState ops ion Z invE sc) (entryState_inv ops ion sc hsc Z invE)
    (show (0 : Nat) < _ by omega)
  have hk0 : (entryState ops ion Z invE sc).k_times = 0 := rfl
  have hr0 : (entryState ops ion Z invE sc).scratch.IonizRate_tunnel.getD (Z + 0) 0 =
      rateVal ops ion Z invE := getD_set_self _ _ hZr
  have hd0 : (entryState ops ion Z invE sc).scratch.Dnom_tunnel.getD 0 0 = 1 :=
    getD_set_self _ _ hD0
  have hd1 : (entryState ops ion Z invE sc).scratch.Dnom_tunnel.getD 1 0 =
      sc.Dnom_tunnel.getD 1 0 := getD_set_ne _ _ (by omega)
  rw [hk0] at hlDs hlPs
  have h0 := hlD 0
  rw [if_pos (Nat.zero_le _), hk0, hr0, hd0] at h0
  have h1 := hlD 1
  rw [hk0, if_neg (by omega), if_pos rfl, hd1] at h1
  rw [Finset.sum_range_one, h0] at hlDs
  rw [Finset.sum_range_one, hr0, h0, h1] at hlPs
  refine ⟨l, hl, ?_, hlDs, h1, ?_⟩
  · obtain ⟨s1, hb, _, _, _, hdn, _, _⟩ := loopBody_of_locals ops ion hs Z invE
      (entryState ops ion Z invE sc) (entryState_inv ops ion sc hsc Z invE)
      (show (0 : Nat) < _ by omega) l hl
    have hz := loopBody_zero ops ion hs Z hZ invE (entryState ops ion Z invE sc)
      (entryState_inv ops ion sc hsc Z invE).1 rfl
    rw [hb, Option.some.injEq] at hz
    rw [← hdn, hz]
    have hr0b : (entryState ops ion Z invE sc).scratch.IonizRate_tunnel.getD Z 0 =
      rateVal ops ion Z invE := hr0
    simp only [hr0b, hd0, hd1]
    rfl
  · rw [hlPs, hlDs]

theorem oneEventResult_dnom (ops : MathOps R) (ion : IonizationTunnel R) (Z : Nat) (invE : R)
    (sc : Scratch R) (h : 1 < sc.Dnom_tunnel.length) :
    (oneEventResult ops ion Z invE sc).scratch.Dnom_tunnel.getD 1 0 =
      sc.Dnom_tunnel.getD 1 0 -
        (0 + 1 / (rateVal ops ion (Z + 1) invE - rateVal ops ion Z invE)) :=
  getD_set_self _ _ (by simpa using h)

theorem toy_first_step :
    particleOutcome (MathOps.mk Real.exp Real.log Real.sqrt (fun x y => x ^ y) Real.Gamma) (toyIon ℝ) 2 (toyFields ℝ) toyRand 0
        (initState (toyIon ℝ) (toyParticles ℝ) (sampleElectrons ℝ) 0) =
      some (.processed (toyFirst (MathOps.mk Real.exp Real.log Real.sqrt (fun x y => x ^ y) Real.Gamma))
        (ionCurrent (toyIon ℝ) (fieldNorm (MathOps.mk Real.exp Real.log Real.sqrt (fun x y => x ^ y) Real.Gamma) (toyIon ℝ) { x := 64 / 9, y := 0, z := 0 })
          { x := 64 / 9, y := 0, z := 0 } (toyFirst (MathOps.mk Real.exp Real.log Real.sqrt (fun x y => x ^ y) Real.Gamma)).TotalIonizPot)) ∧
    applyOutcome (toyIon ℝ) 0 (initState (toyIon ℝ) (toyParticles ℝ) (sampleElectrons ℝ) 0)
        (.processed (toyFirst (MathOps.mk Real.exp Real.log Real.sqrt (fun x y => x ^ y) Real.Gamma))
          (ionCurrent (toyIon ℝ) (fieldNorm (MathOps.mk Real.exp Real.log Real.sqrt (fun x y => x ^ y) Real.Gamma) (toyIon ℝ) { x := 64 / 9, y := 0, z := 0 })
            { x := 64 / 9, y := 0, z := 0 } (toyFirst (MathOps.mk Real.exp Real.log Real.sqrt (fun x y => x ^ y) Real.Gamma)).TotalIonizPot)) =
      some (ionizedState (toyIon ℝ) 0
        (initState (toyIon ℝ) (toyParticles ℝ) (sampleElectrons ℝ) 0)
        { position := [0], momentum := (0, 0, 0), weight := 1, charge := 0 } (toyFirst (MathOps.mk Real.exp Real.log Real.sqrt (fun x y => x ^ y) Real.Gamma))
        (ionCurrent (toyIon ℝ) (fieldNorm (MathOps.mk Real.exp Real.log Real.sqrt (fun x y => x ^ y) Real.Gamma) (toyIon ℝ) { x := 64 / 9, y := 0, z := 0 })
          { x := 64 / 9, y := 0, z := 0 } (toyFirst (MathOps.mk Real.exp Real.log Real.sqrt (fun x y => x ^ y) Real.Gamma)).TotalIonizPot)) := by
  obtain ⟨hr0, hr1⟩ := toy_rates
  obtain ⟨b0, b1, b1b⟩ := toy_rate_bounds
  rw [← hr0] at b0
  rw [← hr1] at b1 b1b
  obtain ⟨ha0, ha0b, ha1, ha1b⟩ := toy_exp_bounds _ _ b0 b1 b1b
  obtain ⟨w1, _, _⟩ := toy_window _ _ _ _ b0 (by linarith) b1b ha0 ha0b ha1 ha1b
  have hlt1 : Real.exp (-rateVal (MathOps.mk Real.exp Real.log Real.sqrt (fun x y => x ^ y) Real.Gamma) (toyIon ℝ) 0 (1 / (64 / 9)) * 1) <
      (1073741824 : ℝ) * (1 / 2147483647) := lt_trans ha0b (by norm_num)
  have hE : fieldNorm (MathOps.mk Real.exp Real.log Real.sqrt (fun x y => x ^ y) Real.Gamma) (toyIon ℝ) { x := 64 / 9, y := 0, z := 0 } ≠ 0 := by
    rw [toy_fieldNorm]; norm_num
  have hZ0 : toUInt (0 : Int) ≠ (toyIon ℝ).atomic_number_ := by decide
  have hcast1 : ((toyRand 0 : Nat) : ℝ) = 1073741824 := by norm_num [toyRand]
  have hmc0 := monteCarlo_one_event (MathOps.mk Real.exp Real.log Real.sqrt (fun x y => x ^ y) Real.Gamma) (toyIon ℝ) (toyIon_sized ℝ) (toyFresh ℝ)
    ⟨rfl, rfl⟩ 0 (by decide) (1 / (64 / 9)) ((1073741824 : ℝ) * (1 / 2147483647)) 1 hlt1 w1
  have hmc0b : monteCarlo (MathOps.mk Real.exp Real.log Real.sqrt (fun x y => x ^ y) Real.Gamma) (toyIon ℝ) 2 (toUInt (0 : Int))
      (1 / fieldNorm (MathOps.mk Real.exp Real.log Real.sqrt (fun x y => x ^ y) Real.Gamma) (toyIon ℝ) { x := 64 / 9, y := 0, z := 0 })
      (((toyRand 0 : Nat) : ℝ) * (toyIon ℝ).INV_RAND_MAX)
      (initState (toyIon ℝ) (toyParticles ℝ) (sampleElectrons ℝ) 0).scratch =
      some (toyFirst (MathOps.mk Real.exp Real.log Real.sqrt (fun x y => x ^ y) Real.Gamma)) := by
    rw [toy_fieldNorm, hcast1]; exact hmc0
  exact step_processed (MathOps.mk Real.exp Real.log Real.sqrt (fun x y => x ^ y) Real.Gamma) (toyIon ℝ) 2 (toyFields ℝ) toyRand 0
    (initState (toyIon ℝ) (toyParticles ℝ) (sampleElectrons ℝ) 0)
    { position := [0], momentum := (0, 0, 0), weight := 1, charge := 0 }
    { x := 64 / 9, y := 0, z := 0 } _ rfl hZ0 rfl hE hmc0b (by decide) (by decide) (by decide)

theorem toy_second_outcome (st : State ℝ)
    (hp : st.particles.data[1]? =
      some { position := [1], momentum := (0, 0, 0), weight := 1, charge := 0 })
    (hn : st.nrand = 1) (hsc : st.scratch = (toyFirst (MathOps.mk Real.exp Real.log Real.sqrt (fun x y => x ^ y) Real.Gamma)).scratch) :
    particleOutcome (MathOps.mk Real.exp Real.log Real.sqrt (fun x y => x ^ y) Real.Gamma) (toyIon ℝ) 2 (toyFields ℝ) toyRand 1 st =
      some (.processed (toySecond (MathOps.mk Real.exp Real.log Real.sqrt (fun x y => x ^ y) Real.Gamma))
        (ionCurrent (toyIon ℝ) (fieldNorm (MathOps.mk Real.exp Real.log Real.sqrt (fun x y => x ^ y) Real.Gamma) (toyIon ℝ) { x := 64 / 9, y := 0, z := 0 })
          { x := 64 / 9, y := 0, z := 0 } (toySecond (MathOps.mk Real.exp Real.log Real.sqrt (fun x y => x ^ y) Real.Gamma)).TotalIonizPot)) := by
  obtain ⟨hr0, hr1⟩ := toy_rates
  obtain ⟨b0, b1, b1b⟩ := toy_rate_bounds
  rw [← hr0] at b0
  rw [← hr1] at b1 b1b
  obtain ⟨ha0, ha0b, ha1, ha1b⟩ := toy_exp_bounds _ _ b0 b1 b1b
  obtain ⟨_, _, w3⟩ := toy_window _ _ _ _ b0 (by linarith) b1b ha0 ha0b ha1 ha1b
  have hlt2 : Real.exp (-rateVal (MathOps.mk Real.exp Real.log Real.sqrt (fun x y => x ^ y) Real.Gamma) (toyIon ℝ) 0 (1 / (64 / 9)) * 1) <
      (2147483646 : ℝ) * (1 / 2147483647) := lt_trans ha0b (by norm_num)
  have hE : fieldNorm (MathOps.mk Real.exp Real.log Real.sqrt (fun x y => x ^ y) Real.Gamma) (toyIon ℝ) { x := 64 / 9, y := 0, z := 0 } ≠ 0 := by
    rw [toy_fieldNorm]; norm_num
  have hZ0 : toUInt (0 : Int) ≠ (toyIon ℝ).atomic_number_ := by decide
  have hcast2 : ((toyRand 1 : Nat) : ℝ) = 2147483646 := by norm_num [toyRand]
  have hmc1 := monteCarlo_one_event (MathOps.mk Real.exp Real.log Real.sqrt (fun x y => x ^ y) Real.Gamma) (toyIon ℝ) (toyIon_sized ℝ) (toyFirst (MathOps.mk Real.exp Real.log Real.sqrt (fun x y => x ^ y) Real.Gamma)).scratch
    ⟨rfl, rfl⟩ 0 (by decide) (1 / (64 / 9)) ((2147483646 : ℝ) * (1 / 2147483647)) 1 hlt2 w3
  have hmc1b : monteCarlo (MathOps.mk Real.exp Real.log Real.sqrt (fun x y => x ^ y) Real.Gamma) (toyIon ℝ) 2 (toUInt (0 : Int))
      (1 / fieldNorm (MathOps.mk Real.exp Real.log Real.sqrt (fun x y => x ^ y) Real.Gamma) (toyIon ℝ) { x := 64 / 9, y := 0, z := 0 })
      (((toyRand st.nrand : Nat) : ℝ) * (toyIon ℝ).INV_RAND_MAX) st.scratch =
      some (toySecond (MathOps.mk Real.exp Real.log Real.sqrt (fun x y => x ^ y) Real.Gamma)) := by
    rw [toy_fieldNorm, hn, hcast2, hsc]; exact hmc1
  have ho := particleOutcome_processed (MathOps.mk Real.exp Real.log Real.sqrt (fun x y => x ^ y) Real.Gamma) (toyIon ℝ) 2 (toyFields ℝ) toyRand 1 st
    { position := [1], momentum := (0, 0, 0), weight := 1, charge := 0 } hp hZ0
    { x := 64 / 9, y := 0, z := 0 } rfl hE
  rw [ho]
  rw [show toUInt ({ position := [1], momentum := (0, 0, 0), weight := 1, charge := 0 } :
        Particle ℝ).charge = toUInt (0 : Int) from rfl, hmc1b, Option.some_bind]

theorem rangeOps_exp_one (x : ℚ) (h : |x| ≤ 1 / 2 ^ 54) : rangeOps.exp x = 1 :=
  if_pos h

theorem rangeOps_pow_underflow (x : ℚ) (h : |x| < 1 / 2 ^ 538) : rangeOps.pow x 2 = 0 := by
  show (if (2 : ℚ) = 2 then (if |x| < 1 / 2 ^ 538 then (0 : ℚ) else x * x) else 1) = 0
  rw [if_pos rfl, if_pos h]

theorem toyCall_ready (R : Type) [LinearOrderedField R] :
    CallReady (toyIon R) (toyParticles R) (sampleElectrons R) 0 2 (toyFields R) := by
  refine ⟨toyIon_sized R, by decide, by simp [toyParticles], by simp [toyFields],
    by norm_num, by norm_num [sampleElectrons], ?_⟩
  intro j p _ hj hp
  have hj2 : j = 0 ∨ j = 1 := by omega
  rcases hj2 with rfl | rfl <;>
    · simp only [toyParticles, List.getElem?_cons_zero, List.getElem?_cons_succ,
        Option.some.injEq] at hp
      subst hp
      simp [toyIon, toyBase, sampleElectrons]

theorem outcomeTrace_last (ops : MathOps R) (ion : IonizationTunnel R) (fuel : Nat)
    (Epart : List (LocalFields R)) (rand : Nat → Nat) (ipart : Nat) (st : State R)
    (o : Outcome R) (h : particleOutcome ops ion fuel Epart rand ipart st = some o) :
    outcomeTrace ops ion fuel Epart rand 1 ipart st = [o] := by
  rw [outcomeTrace]
  simp only [h]
  cases applyOutcome ion ipart st o <;> rfl

theorem toy_batch_outcomes (f : Nat) :
    particleOutcome (MathOps.mk Real.exp Real.log Real.sqrt (fun x y => x ^ y) Real.Gamma) (toyIon ℝ) (f + 1) (toyFields ℝ) toyRand 0
        (initState (toyIon ℝ) (toyParticles ℝ) (sampleElectrons ℝ) 0) =
      some (.processed (toyFirst (MathOps.mk Real.exp Real.log Real.sqrt (fun x y => x ^ y) Real.Gamma))
        (ionCurrent (toyIon ℝ) (fieldNorm (MathOps.mk Real.exp Real.log Real.sqrt (fun x y => x ^ y) Real.Gamma) (toyIon ℝ) { x := 64 / 9, y := 0, z := 0 })
          { x := 64 / 9, y := 0, z := 0 } (toyFirst (MathOps.mk Real.exp Real.log Real.sqrt (fun x y => x ^ y) Real.Gamma)).TotalIonizPot)) ∧
    applyOutcome (toyIon ℝ) 0 (initState (toyIon ℝ) (toyParticles ℝ) (sampleElectrons ℝ) 0)
        (.processed (toyFirst (MathOps.mk Real.exp Real.log Real.sqrt (fun x y => x ^ y) Real.Gamma))
          (ionCurrent (toyIon ℝ) (fieldNorm (MathOps.mk Real.exp Real.log Real.sqrt (fun x y => x ^ y) Real.Gamma) (toyIon ℝ) { x := 64 / 9, y := 0, z := 0 })
            { x := 64 / 9, y := 0, z := 0 } (toyFirst (MathOps.mk Real.exp Real.log Real.sqrt (fun x y => x ^ y) Real.Gamma)).TotalIonizPot)) =
      some (ionizedState (toyIon ℝ) 0
        (initState (toyIon ℝ) (toyParticles ℝ) (sampleElectrons ℝ) 0)
        { position := [0], momentum := (0, 0, 0), weight := 1, charge := 0 } (toyFirst (MathOps.mk Real.exp Real.log Real.sqrt (fun x y => x ^ y) Real.Gamma))
        (ionCurrent (toyIon ℝ) (fieldNorm (MathOps.mk Real.exp Real.log Real.sqrt (fun x y => x ^ y) Real.Gamma) (toyIon ℝ) { x := 64 / 9, y := 0, z := 0 })
          { x := 64 / 9, y := 0, z := 0 } (toyFirst (MathOps.mk Real.exp Real.log Real.sqrt (fun x y => x ^ y) Real.Gamma)).TotalIonizPot)) ∧
    particleOutcome (MathOps.mk Real.exp Real.log Real.sqrt (fun x y => x ^ y) Real.Gamma) (toyIon ℝ) (f + 1) (toyFields ℝ) toyRand 1
        (ionizedState (toyIon ℝ) 0
          (initState (toyIon ℝ) (toyParticles ℝ) (sampleElectrons ℝ) 0)
          { position := [0], momentum := (0, 0, 0), weight := 1, charge := 0 } (toyFirst (MathOps.mk Real.exp Real.log Real.sqrt (fun x y => x ^ y) Real.Gamma))
          (ionCurrent (toyIon ℝ) (fieldNorm (MathOps.mk Real.exp Real.log Real.sqrt (fun x y => x ^ y) Real.Gamma) (toyIon ℝ) { x := 64 / 9, y := 0, z := 0 })
            { x := 64 / 9, y := 0, z := 0 } (toyFirst (MathOps.mk Real.exp Real.log Real.sqrt (fun x y => x ^ y) Real.Gamma)).TotalIonizPot)) =
      some (.processed (toySecond (MathOps.mk Real.exp Real.log Real.sqrt (fun x y => x ^ y) Real.Gamma))
        (ionCurrent (toyIon ℝ) (fieldNorm (MathOps.mk Real.exp Real.log Real.sqrt (fun x y => x ^ y) Real.Gamma) (toyIon ℝ) { x := 64 / 9, y := 0, z := 0 })
          { x := 64 / 9, y := 0, z := 0 } (toySecond (MathOps.mk Real.exp Real.log Real.sqrt (fun x y => x ^ y) Real.Gamma)).TotalIonizPot)) := by
  obtain ⟨hr0, hr1⟩ := toy_rates
  obtain ⟨b0, b1, b1b⟩ := toy_rate_bounds
  rw [← hr0] at b0
  rw [← hr1] at b1 b1b
  obtain ⟨ha0, ha0b, ha1, ha1b⟩ := toy_exp_bounds _ _ b0 b1 b1b
  obtain ⟨w1, _, w3⟩ := toy_window _ _ _ _ b0 (by linarith) b1b ha0 ha0b ha1 ha1b
  have hlt1 : Real.exp (-rateVal (MathOps.mk Real.exp Real.log Real.sqrt (fun x y => x ^ y) Real.Gamma) (toyIon ℝ) 0 (1 / (64 / 9)) * 1) <
      (1073741824 : ℝ) * (1 / 2147483647) := lt_trans ha0b (by norm_num)
  have hlt2 : Real.exp (-rateVal (MathOps.mk Real.exp Real.log Real.sqrt (fun x y => x ^ y) Real.Gamma) (toyIon ℝ) 0 (1 / (64 / 9)) * 1) <
      (2147483646 : ℝ) * (1 / 2147483647) := lt_trans ha0b (by norm_num)
  have hE : fieldNorm (MathOps.mk Real.exp Real.log Real.sqrt (fun x y => x ^ y) Real.Gamma) (toyIon ℝ) { x := 64 / 9, y := 0, z := 0 } ≠ 0 := by
    rw [toy_fieldNorm]; norm_num
  have hZ0 : toUInt (0 : Int) ≠ (toyIon ℝ).atomic_number_ := by decide
  have hcast1 : ((toyRand 0 : Nat) : ℝ) = 1073741824 := by norm_num [toyRand]
  have hcast2 : ((toyRand 1 : Nat) : ℝ) = 2147483646 := by norm_num [toyRand]
  have hmc0 := monteCarlo_one_event (MathOps.mk Real.exp Real.log Real.sqrt (fun x y => x ^ y) Real.Gamma) (toyIon ℝ) (toyIon_sized ℝ) (toyFresh ℝ)
    ⟨rfl, rfl⟩ 0 (by decide) (1 / (64 / 9)) ((1073741824 : ℝ) * (1 / 2147483647)) f hlt1 w1
  have hmc0b : monteCarlo (MathOps.mk Real.exp Real.log Real.sqrt (fun x y => x ^ y) Real.Gamma) (toyIon ℝ) (f + 1) (toUInt (0 : Int))
      (1 / fieldNorm (MathOps.mk Real.exp Real.log Real.sqrt (fun x y => x ^ y) Real.Gamma) (toyIon ℝ) { x := 64 / 9, y := 0, z := 0 })
      (((toyRand 0 : Nat) : ℝ) * (toyIon ℝ).INV_RAND_MAX)
      (initState (toyIon ℝ) (toyParticles ℝ) (sampleElectrons ℝ) 0).scratch =
      some (toyFirst (MathOps.mk Real.exp Real.log Real.sqrt (fun x y => x ^ y) Real.Gamma)) := by
    rw [toy_fieldNorm, hcast1]; exact hmc0
  obtain ⟨ho0, hap0⟩ := step_processed (MathOps.mk Real.exp Real.log Real.sqrt (fun x y => x ^ y) Real.Gamma) (toyIon ℝ) (f + 1) (toyFields ℝ) toyRand 0
    (initState (toyIon ℝ) (toyParticles ℝ) (sampleElectrons ℝ) 0)
    { position := [0], momentum := (0, 0, 0), weight := 1, charge := 0 }
    { x := 64 / 9, y := 0, z := 0 } _ rfl hZ0 rfl hE hmc0b (by decide) (by decide) (by decide)
  have hmc1 := monteCarlo_one_event (MathOps.mk Real.exp Real.log Real.sqrt (fun x y => x ^ y) Real.Gamma) (toyIon ℝ) (toyIon_sized ℝ) (toyFirst (MathOps.mk Real.exp Real.log Real.sqrt (fun x y => x ^ y) Real.Gamma)).scratch
    ⟨rfl, rfl⟩ 0 (by decide) (1 / (64 / 9)) ((2147483646 : ℝ) * (1 / 2147483647)) f hlt2 w3
  have hmc1b : monteCarlo (MathOps.mk Real.exp Real.log Real.sqrt (fun x y => x ^ y) Real.Gamma) (toyIon ℝ) (f + 1) (toUInt (0 : Int))
      (1 / fieldNorm (MathOps.mk Real.exp Real.log Real.sqrt (fun x y => x ^ y) Real.Gamma) (toyIon ℝ) { x := 64 / 9, y := 0, z := 0 })
      (((toyRand 1 : Nat) : ℝ) * (toyIon ℝ).INV_RAND_MAX) (toyFirst (MathOps.mk Real.exp Real.log Real.sqrt (fun x y => x ^ y) Real.Gamma)).scratch =
      some (toySecond (MathOps.mk Real.exp Real.log Real.sqrt (fun x y => x ^ y) Real.Gamma)) := by
    rw [toy_fieldNorm, hcast2]; exact hmc1
  have ho1 := particleOutcome_processed (MathOps.mk Real.exp Real.log Real.sqrt (fun x y => x ^ y) Real.Gamma) (toyIon ℝ) (f + 1) (toyFields ℝ) toyRand 1
    (ionizedState (toyIon ℝ) 0
      (initState (toyIon ℝ) (toyParticles ℝ) (sampleElectrons ℝ) 0)
      { position := [0], momentum := (0, 0, 0), weight := 1, charge := 0 } (toyFirst (MathOps.mk Real.exp Real.log Real.sqrt (fun x y => x ^ y) Real.Gamma))
      (ionCurrent (toyIon ℝ) (fieldNorm (MathOps.mk Real.exp Real.log Real.sqrt (fun x y => x ^ y) Real.Gamma) (toyIon ℝ) { x := 64 / 9, y := 0, z := 0 })
        { x := 64 / 9, y := 0, z := 0 } (toyFirst (MathOps.mk Real.exp Real.log Real.sqrt (fun x y => x ^ y) Real.Gamma)).TotalIonizPot))
    { position := [1], momentum := (0, 0, 0), weight := 1, charge := 0 } rfl hZ0
    { x := 64 / 9, y := 0, z := 0 } rfl hE
  refine ⟨ho0, hap0, ?_⟩
  rw [ho1]
  exact (congrArg (fun o => o.bind fun mc => some (Outcome.processed mc
    (ionCurrent (toyIon ℝ) (fieldNorm (MathOps.mk Real.exp Real.log Real.sqrt (fun x y => x ^ y) Real.Gamma) (toyIon ℝ) { x := 64 / 9, y := 0, z := 0 })
      { x := 64 / 9, y := 0, z := 0 } mc.TotalIonizPot))) hmc1b)

theorem toy_kTimes (f : Nat) :
    kTimesOf (MathOps.mk Real.exp Real.log Real.sqrt (fun x y => x ^ y) Real.Gamma) (toyIon ℝ) (f + 1) (toyParticles ℝ) (sampleElectrons ℝ) 0 2 (toyFields ℝ)
      toyRand 0 = [1, 1] := by
  obtain ⟨ho0, ha0, ho1⟩ := toy_batch_outcomes f
  have hw : wrap (0 + 1) = 1 := by decide
  show (outcomeTrace (MathOps.mk Real.exp Real.log Real.sqrt (fun x y => x ^ y) Real.Gamma) (toyIon ℝ) (f + 1) (toyFields ℝ) toyRand (1 + 1) 0
    (initState (toyIon ℝ) (toyParticles ℝ) (sampleElectrons ℝ) 0)).map Outcome.k_times = [1, 1]
  rw [outcomeTrace]
  simp only [ho0, ha0, hw]
  rw [outcomeTrace_last _ _ _ _ _ _ _ _ ho1]
  rfl

theorem toy_more_events :
    ∃ r, monteCarlo (MathOps.mk Real.exp Real.log Real.sqrt (fun x y => x ^ y) Real.Gamma) (toyIon ℝ) 2 0 (1 / (64 / 9))
        ((2147483646 : ℝ) * (1 / 2147483647)) (toyFresh ℝ) = some r ∧ 2 ≤ r.k_times := by
  obtain ⟨hr0, hr1⟩ := toy_rates
  obtain ⟨b0, b1, b1b⟩ := toy_rate_bounds
  rw [← hr0] at b0
  rw [← hr1] at b1 b1b
  obtain ⟨ha0, ha0b, ha1, ha1b⟩ := toy_exp_bounds _ _ b0 b1 b1b
  obtain ⟨_, w2, _⟩ := toy_window _ _ _ _ b0 (by linarith) b1b ha0 ha0b ha1 ha1b
  have hlt2 : Real.exp (-rateVal (MathOps.mk Real.exp Real.log Real.sqrt (fun x y => x ^ y) Real.Gamma) (toyIon ℝ) 0 (1 / (64 / 9)) * 1) <
      (2147483646 : ℝ) * (1 / 2147483647) := lt_trans ha0b (by norm_num)
  exact monteCarlo_more_events (MathOps.mk Real.exp Real.log Real.sqrt (fun x y => x ^ y) Real.Gamma) (toyIon ℝ) (toyIon_sized ℝ) (toyFresh ℝ) ⟨rfl, rfl⟩ 0
    (by decide) (1 / (64 / 9)) ((2147483646 : ℝ) * (1 / 2147483647)) 1 (by decide) hlt2 w2

theorem hydrogen_weak_field (invE : ℚ) (x : ℚ)
    (hx : -(2 * invE) * (1 / 3) + 1 * (2 * (2 * invE - 1) / (2 * invE + 1)) = x)
    (h1 : ¬ |x| ≤ 1 / 2 ^ 54) (h2 : ¬ x < -746) (h3 : x < 0)
    (h4 : 2 * (1 / (1 - x / 64) ^ 64) * (1 / 10) ≤ 1 / 2 ^ 54) :
    0 < rateVal rangeOps (hydrogenIon ℚ) 0 invE * (hydrogenIon ℚ).dt ∧
    rangeOps.exp (-rateVal rangeOps (hydrogenIon ℚ) 0 invE * (hydrogenIon ℚ).dt) = 1 ∧
    ∃ r, monteCarlo rangeOps (hydrogenIon ℚ) 0 0 invE 0
        { IonizRate_tunnel := [0], Dnom_tunnel := [0] } = some r ∧ r.k_times = 0 := by
  have hr : rateVal rangeOps (hydrogenIon ℚ) 0 invE = 2 * (1 / (1 - x / 64) ^ 64) := by
    have he : rangeOps.exp x = 1 / (1 - x / 64) ^ 64 := by
      show (if |x| ≤ 1 / 2 ^ 54 then (1 : ℚ) else if x < -746 then 0
        else if x < 0 then 1 / (1 - x / 64) ^ 64 else (1 + x / 64) ^ 64) = _
      rw [if_neg h1, if_neg h2, if_pos h3]
    show (2 : ℚ) * rangeOps.exp (-(2 * invE) * (1 / 3) +
      1 * (2 * (2 * invE - 1) / (2 * invE + 1))) = _
    rw [hx, he]
  have hdt : (hydrogenIon ℚ).dt = 1 / 10 := rfl
  have hpos : (0 : ℚ) < 2 * (1 / (1 - x / 64) ^ 64) * (1 / 10) := by
    have : (0 : ℚ) < 1 - x / 64 := by linarith
    positivity
  have hexp : rangeOps.exp (-rateVal rangeOps (hydrogenIon ℚ) 0 invE * (hydrogenIon ℚ).dt)
      = 1 := by
    apply rangeOps_exp_one
    rw [hr, hdt, neg_mul, abs_neg, abs_of_pos hpos]
    exact h4
  refine ⟨by rw [hr, hdt]; exact hpos, hexp, ?_⟩
  rw [monteCarlo_last rangeOps (hydrogenIon ℚ)
    ⟨by norm_num [hydrogenIon, hydrogenBase], rfl, rfl, rfl, rfl⟩
    { IonizRate_tunnel := [0], Dnom_tunnel := [0] } ⟨rfl, rfl⟩ 0 rfl]
  refine ⟨_, rfl, ?_⟩
  show (if _ then 1 else 0) = 0
  rw [if_neg]
  rw [hexp]
  norm_num

/-- C1: for an ion of charge `Z < atomic_number_`, any inverse field magnitude and any draw
`ran_p`, the Monte-Carlo routine run with an iteration budget of `atomic_number_ - (Z+1)`
(or more) for its `while` loop completes: no vector is read or written outside its
`atomic_number_` entries (such an access, as well as an exhausted budget, would make the
result `none`; in particular an evaluation of `rate` at an index `≥ atomic_number_` is
`none`), and the number of events it returns is at most `atomic_number_ - Z`. -/
theorem C1_indices_and_event_bound (ops : MathOps R) (ion : IonizationTunnel R)
    (hs : Sized ion) (sc : Scratch R) (hsc : ScratchSized ion sc) (Z : Nat)
    (hZ : Z < ion.atomic_number_) (invE ran_p : R) (fuel : Nat)
    (hfuel : ion.atomic_number_ - (Z + 1) ≤ fuel) :
    (∃ r, monteCarlo ops ion fuel Z invE ran_p sc = some r ∧
      r.k_times ≤ ion.atomic_number_ - Z) ∧
    ∀ newZ, ion.atomic_number_ ≤ newZ → rate ops ion newZ invE = none := by
  obtain ⟨r, hr, _, hk, _⟩ := monteCarlo_spec ops ion hs sc hsc Z hZ invE ran_p fuel hfuel
  refine ⟨⟨r, hr, hk⟩, fun newZ hn => ?_⟩
  have hg : ion.gamma_tunnel[newZ]? = none :=
    List.getElem?_eq_none (by rw [hs.gamma]; exact hn)
  simp only [rate, hg, Option.none_bind]

theorem C1_witness :
    ((∃ r, monteCarlo (MathOps.mk Real.exp Real.log Real.sqrt (fun x y => x ^ y) Real.Gamma) (toyIon ℝ) 2 0 (1 / (64 / 9))
          ((2147483646 : ℝ) * (1 / 2147483647)) (toyFresh ℝ) = some r ∧
        r.k_times ≤ (toyIon ℝ).atomic_number_ - 0) ∧
      ∀ newZ, (toyIon ℝ).atomic_number_ ≤ newZ →
        rate (MathOps.mk Real.exp Real.log Real.sqrt (fun x y => x ^ y) Real.Gamma) (toyIon ℝ) newZ (1 / (64 / 9)) = none) ∧
    ∃ r, monteCarlo (MathOps.mk Real.exp Real.log Real.sqrt (fun x y => x ^ y) Real.Gamma) (toyIon ℝ) 2 0 (1 / (64 / 9))
        ((2147483646 : ℝ) * (1 / 2147483647)) (toyFresh ℝ) = some r ∧ 2 ≤ r.k_times :=
  ⟨C1_indices_and_event_bound _ (toyIon ℝ) (toyIon_sized ℝ) (toyFresh ℝ) ⟨rfl, rfl⟩ 0
    (by decide) (1 / (64 / 9)) ((2147483646 : ℝ) * (1 / 2147483647)) 2 (by decide),
    toy_more_events⟩

/-- C4: for an ion of charge `Z < atomic_number_`, in the last-electron and in the general
regime alike, the Monte-Carlo routine returns a `TotalIonizPot` equal to the sum of
`Potential[Z+i]` over `i < k_times`; it is `0` when `k_times = 0`. -/
theorem C4_total_potential_is_traversed_sum (ops : MathOps R) (ion : IonizationTunnel R)
    (hs : Sized ion) (sc : Scratch R) (hsc : ScratchSized ion sc) (Z : Nat)
    (hZ : Z < ion.atomic_number_) (invE ran_p : R) (fuel : Nat)
    (hfuel : ion.atomic_number_ - (Z + 1) ≤ fuel) :
    ∃ r, monteCarlo ops ion fuel Z invE ran_p sc = some r ∧
      r.TotalIonizPot = ((List.range r.k_times).map fun i => ion.Potential.getD (Z + i) 0).sum ∧
      (r.k_times = 0 → r.TotalIonizPot = 0) := by
  obtain ⟨r, hr, _, _, ht⟩ := monteCarlo_spec ops ion hs sc hsc Z hZ invE ran_p fuel hfuel
  refine ⟨r, hr, ht, fun h0 => ?_⟩
  rw [ht, h0]; rfl

theorem C4_witness :
    ∃ r, monteCarlo (MathOps.mk Real.exp Real.log Real.sqrt (fun x y => x ^ y) Real.Gamma) (toyIon ℝ) 2 0 (1 / (64 / 9))
        ((2147483646 : ℝ) * (1 / 2147483647)) (toyFresh ℝ) = some r ∧
      r.TotalIonizPot =
        ((List.range r.k_times).map fun i => (toyIon ℝ).Potential.getD (0 + i) 0).sum ∧
      (r.k_times = 0 → r.TotalIonizPot = 0) ∧
      2 ≤ r.k_times := by
  obtain ⟨r, hr, h1, h2⟩ := C4_total_potential_is_traversed_sum (MathOps.mk Real.exp Real.log Real.sqrt (fun x y => x ^ y) Real.Gamma) (toyIon ℝ)
    (toyIon_sized ℝ) (toyFresh ℝ) ⟨rfl, rfl⟩ 0 (by decide) (1 / (64 / 9))
    ((2147483646 : ℝ) * (1 / 2147483647)) 2 (by decide)
  obtain ⟨r1, hr1, hk⟩ := toy_more_events
  rw [hr] at hr1
  cases hr1
  exact ⟨r, hr, h1, h2, hk⟩

/-- C5, as stated, fails: `rate(Z)*dt > 0` does not make the draw `ran_p = 0` fire. For
the hydrogen tables `alpha = 1`, `beta = 2`, `gamma = 2` (`Z = 0`, `atomic_number_ = 1`),
field magnitude `E = 0.01` and `dt = 0.1`, `rate(0)` is positive but so small that, in a
math library with the rounding of double precision (`rangeOps`), `exp(-rate(0)*dt)` is
exactly `1`; the test `ran_p < 1 - exp(-rate(0)*dt)` of line 77 is `0 < 0` and no event
occurs. -/
theorem C5_counterexample :
    (hydrogenIon ℚ).atomic_number_ = 0 + 1 ∧
    0 < rateVal rangeOps (hydrogenIon ℚ) 0 (1 / (1 / 100)) * (hydrogenIon ℚ).dt ∧
    rangeOps.exp (-rateVal rangeOps (hydrogenIon ℚ) 0 (1 / (1 / 100)) * (hydrogenIon ℚ).dt)
      = 1 ∧
    ∃ r, monteCarlo rangeOps (hydrogenIon ℚ) 0 0 (1 / (1 / 100)) 0
        { IonizRate_tunnel := [0], Dnom_tunnel := [0] } = some r ∧ r.k_times = 0 :=
  ⟨rfl, hydrogen_weak_field (1 / (1 / 100)) (-4334 / 67) (by norm_num)
    (by rw [abs_le]; norm_num) (by norm_num) (by norm_num) (by norm_num)⟩

/-- C5, amended: last-electron case, for any math library. For an ion with
`Z + 1 = atomic_number_` the routine returns `k_times = 1` exactly when
`ran_p < 1 - exp(-rate(Z)*dt)` and `k_times = 0` otherwise; hence the draw `ran_p = 0`
fires an event whenever the computed `exp(-rate(Z)*dt)` is below `1`, and every draw
`ran_p ≥ 1 - exp(-rate(Z)*dt)` fires none. -/
theorem C5_last_electron (ops : MathOps R) (ion : IonizationTunnel R) (hs : Sized ion)
    (sc : Scratch R) (hsc : ScratchSized ion sc) (Z : Nat) (hZ : Z + 1 = ion.atomic_number_)
    (invE ran_p : R) (fuel : Nat) :
    ∃ r, monteCarlo ops ion fuel Z invE ran_p sc = some r ∧
      (r.k_times = 1 ↔ ran_p < 1 - ops.exp (-rateVal ops ion Z invE * ion.dt)) ∧
      (r.k_times ≠ 1 → r.k_times = 0) ∧
      (ops.exp (-rateVal ops ion Z invE * ion.dt) < 1 → ran_p = 0 → r.k_times = 1) ∧
      (1 - ops.exp (-rateVal ops ion Z invE * ion.dt) ≤ ran_p → r.k_times = 0) := by
  refine ⟨_, monteCarlo_last _ ion hs sc hsc Z hZ invE ran_p fuel, ?_, ?_, ?_, ?_⟩
  · show (if _ then 1 else 0) = 1 ↔ _
    split <;> simp_all
  · show (if _ then 1 else 0) ≠ 1 → (if _ then 1 else 0) = 0
    split <;> simp
  · intro hlt h0
    show (if _ then 1 else 0) = 1
    rw [if_pos]
    rw [h0]
    linarith
  · intro hge
    show (if _ then 1 else 0) = 0
    rw [if_neg (not_lt.mpr hge)]

theorem C5_witness :
    (∃ r, monteCarlo (MathOps.mk Real.exp Real.log Real.sqrt (fun x y => x ^ y) Real.Gamma) (sampleIon ℝ) 0 2 1 0 (sampleScratch ℝ) = some r ∧
      (r.k_times = 1 ↔ (0 : ℝ) < 1 - Real.exp (-rateVal (MathOps.mk Real.exp Real.log Real.sqrt (fun x y => x ^ y) Real.Gamma) (sampleIon ℝ) 2 1
          * (sampleIon ℝ).dt)) ∧
      (r.k_times ≠ 1 → r.k_times = 0) ∧
      (Real.exp (-rateVal (MathOps.mk Real.exp Real.log Real.sqrt (fun x y => x ^ y) Real.Gamma) (sampleIon ℝ) 2 1 * (sampleIon ℝ).dt) < 1 → (0 : ℝ) = 0 →
        r.k_times = 1) ∧
      (1 - Real.exp (-rateVal (MathOps.mk Real.exp Real.log Real.sqrt (fun x y => x ^ y) Real.Gamma) (sampleIon ℝ) 2 1 * (sampleIon ℝ).dt) ≤ 0 →
        r.k_times = 0)) ∧
    Real.exp (-rateVal (MathOps.mk Real.exp Real.log Real.sqrt (fun x y => x ^ y) Real.Gamma) (sampleIon ℝ) 2 1 * (sampleIon ℝ).dt) < 1 :=
  ⟨C5_last_electron (MathOps.mk Real.exp Real.log Real.sqrt (fun x y => x ^ y) Real.Gamma) (sampleIon ℝ) (sampleIon_sized ℝ) (sampleScratch ℝ)
    (sampleScratch_sized ℝ) 2 (by decide) 1 0 0,
    Real.exp_lt_one_iff.mpr (by
      have h := rateVal_pos (sampleIon ℝ) 2 1 (by norm_num [sampleIon])
      have hdt : (sampleIon ℝ).dt = 1 / 10 := rfl
      rw [hdt]
      nlinarith)⟩

/-- C2: a call of `operator()` on a ready batch returns, and the electron container is the
old one followed by one electron per ion of the range with `k_times ≠ 0` (none for an ion
with `k_times = 0`), in order, the electron of ion `i` having weight `k_times_i * weight_i`;
so the weights of the spawned electrons sum to the sum of `k_times_i * weight_i` over the
ionizing ions. -/
theorem C2_spawned_weights (ops : MathOps R) (ion : IonizationTunnel R) (fuel : Nat)
    (hfuel : ion.atomic_number_ ≤ fuel) (particles new_electrons : Particles R)
    (ipart_min ipart_max : Nat) (Epart : List (LocalFields R)) (rand : Nat → Nat) (nrand : Nat)
    (h : CallReady ion particles new_electrons ipart_min ipart_max Epart) :
    ∃ st spawned,
      ionize ops ion fuel particles new_electrons ipart_min ipart_max Epart rand nrand
        = some st ∧
      st.new_electrons.data = new_electrons.data ++ spawned ∧
      (kTimesOf ops ion fuel particles new_electrons ipart_min ipart_max Epart rand
        nrand).length = ipart_max - ipart_min ∧
      spawned.map (fun e => e.weight) =
        ((((particles.data.drop ipart_min).take (ipart_max - ipart_min)).zip
          (kTimesOf ops ion fuel particles new_electrons ipart_min ipart_max Epart rand
            nrand)).filter fun pk => decide (pk.2 ≠ 0)).map
          (fun pk => (pk.2 : R) * pk.1.weight) ∧
      (spawned.map fun e => e.weight).sum =
        (((((particles.data.drop ipart_min).take (ipart_max - ipart_min)).zip
          (kTimesOf ops ion fuel particles new_electrons ipart_min ipart_max Epart rand
            nrand)).filter fun pk => decide (pk.2 ≠ 0)).map
          fun pk => (pk.2 : R) * pk.1.weight).sum := by
  obtain ⟨st, hst, hlen, _, _, _, _, _, hel⟩ :=
    particleLoop_spec ops ion fuel hfuel Epart rand (ipart_max - ipart_min) ipart_min _
      (batchReady_of_callReady ion particles new_electrons ipart_min ipart_max Epart nrand h)
  have hw := expectedElectrons_weights ion new_electrons.dimension
    ((particles.data.drop ipart_min).take (ipart_max - ipart_min))
    (kTimesOf ops ion fuel particles new_electrons ipart_min ipart_max Epart rand nrand)
  exact ⟨st, _, hst, hel, hlen, hw, congrArg List.sum hw⟩

theorem C2_witness :
    (∃ st spawned,
      ionize (MathOps.mk Real.exp Real.log Real.sqrt (fun x y => x ^ y) Real.Gamma) (toyIon ℝ) 3 (toyParticles ℝ) (sampleElectrons ℝ) 0 2 (toyFields ℝ)
        toyRand 0 = some st ∧
      st.new_electrons.data = (sampleElectrons ℝ).data ++ spawned ∧
      (kTimesOf (MathOps.mk Real.exp Real.log Real.sqrt (fun x y => x ^ y) Real.Gamma) (toyIon ℝ) 3 (toyParticles ℝ) (sampleElectrons ℝ) 0 2 (toyFields ℝ)
        toyRand 0).length = 2 - 0 ∧
      spawned.map (fun e => e.weight) =
        (((((toyParticles ℝ).data.drop 0).take (2 - 0)).zip
          (kTimesOf (MathOps.mk Real.exp Real.log Real.sqrt (fun x y => x ^ y) Real.Gamma) (toyIon ℝ) 3 (toyParticles ℝ) (sampleElectrons ℝ) 0 2 (toyFields ℝ)
            toyRand 0)).filter fun pk => decide (pk.2 ≠ 0)).map
          (fun pk => (pk.2 : ℝ) * pk.1.weight) ∧
      (spawned.map fun e => e.weight).sum =
        ((((((toyParticles ℝ).data.drop 0).take (2 - 0)).zip
          (kTimesOf (MathOps.mk Real.exp Real.log Real.sqrt (fun x y => x ^ y) Real.Gamma) (toyIon ℝ) 3 (toyParticles ℝ) (sampleElectrons ℝ) 0 2 (toyFields ℝ)
            toyRand 0)).filter fun pk => decide (pk.2 ≠ 0)).map
          fun pk => (pk.2 : ℝ) * pk.1.weight).sum) ∧
    kTimesOf (MathOps.mk Real.exp Real.log Real.sqrt (fun x y => x ^ y) Real.Gamma) (toyIon ℝ) 3 (toyParticles ℝ) (sampleElectrons ℝ) 0 2 (toyFields ℝ)
      toyRand 0 = [1, 1] :=
  ⟨C2_spawned_weights _ (toyIon ℝ) 3 (by decide) (toyParticles ℝ) (sampleElectrons ℝ)
    0 2 (toyFields ℝ) toyRand 0 (toyCall_ready ℝ), toy_kTimes 2⟩

/-- C3: when every ion of the range has its charge in `[0, atomic_number_]` before the
call, the call returns and every ion of the range ends with a charge equal to its old
charge plus its `k_times`, not below the old charge and still in `[0, atomic_number_]`, all
its other fields kept; an ion whose charge was `atomic_number_` keeps that charge. -/
theorem C3_charge_invariant (ops : MathOps R) (ion : IonizationTunnel R) (fuel : Nat)
    (hfuel : ion.atomic_number_ ≤ fuel) (particles new_electrons : Particles R)
    (ipart_min ipart_max : Nat) (Epart : List (LocalFields R)) (rand : Nat → Nat) (nrand : Nat)
    (h : CallReady ion particles new_electrons ipart_min ipart_max Epart) :
    ∃ st,
      ionize ops ion fuel particles new_electrons ipart_min ipart_max Epart rand nrand
        = some st ∧
      ∀ j p, ipart_min ≤ j → j < ipart_max → particles.data[j]? = some p →
        ∃ q : Particle R, st.particles.data[j]? = some q ∧
          q = p.addCharge ((kTimesOf ops ion fuel particles new_electrons ipart_min ipart_max
            Epart rand nrand).getD (j - ipart_min) 0) ∧
          q.charge = p.charge + (((kTimesOf ops ion fuel particles new_electrons ipart_min
            ipart_max Epart rand nrand).getD (j - ipart_min) 0 : Nat) : Int) ∧
          p.charge ≤ q.charge ∧ 0 ≤ q.charge ∧ q.charge ≤ ion.atomic_number_ ∧
          (p.charge = ion.atomic_number_ → q.charge = ion.atomic_number_) := by
  obtain ⟨st, hst, _, _, _, hdata, hcap, _, _⟩ :=
    particleLoop_spec ops ion fuel hfuel Epart rand (ipart_max - ipart_min) ipart_min _
      (batchReady_of_callReady ion particles new_electrons ipart_min ipart_max Epart nrand h)
  refine ⟨st, hst, fun j p h1 h2 hp => ?_⟩
  have hin : ipart_min ≤ j ∧ j < ipart_min + (ipart_max - ipart_min) := by
    have := h.ordered; omega
  have hq := hdata j p hp
  rw [if_pos hin] at hq
  have hk := hcap j p hin.1 hin.2 hp
  obtain ⟨hc0, hc1, _⟩ := h.ions j p h1 h2 hp
  refine ⟨_, hq, rfl, rfl, ?_, ?_, ?_, ?_⟩
  · show p.charge ≤ p.charge + _; omega
  · show 0 ≤ p.charge + _; omega
  · show p.charge + _ ≤ _
    have : ((kTimesOf ops ion fuel particles new_electrons ipart_min ipart_max Epart rand
      nrand).getD (j - ipart_min) 0 : Nat) ≤ ion.atomic_number_ - p.charge.toNat := hk
    omega
  · intro heq
    show p.charge + _ = _
    have : ((kTimesOf ops ion fuel particles new_electrons ipart_min ipart_max Epart rand
      nrand).getD (j - ipart_min) 0 : Nat) ≤ ion.atomic_number_ - p.charge.toNat := hk
    omega

theorem C3_witness :
    (∃ st,
      ionize (MathOps.mk Real.exp Real.log Real.sqrt (fun x y => x ^ y) Real.Gamma) (toyIon ℝ) 3 (toyParticles ℝ) (sampleElectrons ℝ) 0 2 (toyFields ℝ)
        toyRand 0 = some st ∧
      ∀ (j : Nat) (p : Particle ℝ), 0 ≤ j → j < 2 → (toyParticles ℝ).data[j]? = some p →
        ∃ q : Particle ℝ, st.particles.data[j]? = some q ∧
          q = p.addCharge ((kTimesOf (MathOps.mk Real.exp Real.log Real.sqrt (fun x y => x ^ y) Real.Gamma) (toyIon ℝ) 3 (toyParticles ℝ) (sampleElectrons ℝ)
            0 2 (toyFields ℝ) toyRand 0).getD (j - 0) 0) ∧
          q.charge = p.charge + (((kTimesOf (MathOps.mk Real.exp Real.log Real.sqrt (fun x y => x ^ y) Real.Gamma) (toyIon ℝ) 3 (toyParticles ℝ)
            (sampleElectrons ℝ) 0 2 (toyFields ℝ) toyRand 0).getD (j - 0) 0 : Nat) : Int) ∧
          p.charge ≤ q.charge ∧ 0 ≤ q.charge ∧ q.charge ≤ (toyIon ℝ).atomic_number_ ∧
          (p.charge = (toyIon ℝ).atomic_number_ →
            q.charge = (toyIon ℝ).atomic_number_)) ∧
    kTimesOf (MathOps.mk Real.exp Real.log Real.sqrt (fun x y => x ^ y) Real.Gamma) (toyIon ℝ) 3 (toyParticles ℝ) (sampleElectrons ℝ) 0 2 (toyFields ℝ)
      toyRand 0 = [1, 1] :=
  ⟨C3_charge_invariant _ (toyIon ℝ) 3 (by decide) (toyParticles ℝ) (sampleElectrons ℝ)
    0 2 (toyFields ℝ) toyRand 0 (toyCall_ready ℝ), toy_kTimes 2⟩

/-- C6: an ion whose charge equals `atomic_number_` is skipped. The loop body run on its
index returns the state it was given, whatever the fields and the draws; and in a whole
call on a ready batch the outcome recorded for it is `skipped`, the ion is found unchanged
(charge, weight, position, momentum) in the final state, the projector log holds no call
for its index and its number of events is zero, so that no electron is spawned for it. -/
theorem C6_fully_stripped_untouched (ops : MathOps R) (ion : IonizationTunnel R) (fuel : Nat)
    (hfuel : ion.atomic_number_ ≤ fuel) (particles new_electrons : Particles R)
    (ipart_min ipart_max : Nat) (Epart : List (LocalFields R)) (rand : Nat → Nat) (nrand : Nat)
    (h : CallReady ion particles new_electrons ipart_min ipart_max Epart)
    (j : Nat) (p : Particle R) (hj1 : ipart_min ≤ j) (hj2 : j < ipart_max)
    (hp : particles.data[j]? = some p) (hc : p.charge = ion.atomic_number_) :
    (∀ (E1 : List (LocalFields R)) (r1 : Nat → Nat) (st0 : State R),
      st0.particles.data[j]? = some p → stepParticle ops ion fuel E1 r1 j st0 = some st0) ∧
    ∃ st, ionize ops ion fuel particles new_electrons ipart_min ipart_max Epart rand nrand
        = some st ∧
      (outcomeTrace ops ion fuel Epart rand (ipart_max - ipart_min) ipart_min
        (initState ion particles new_electrons nrand))[j - ipart_min]? = some .skipped ∧
      st.particles.data[j]? = some p ∧
      (∀ J, (j, J) ∉ st.projected) ∧
      (kTimesOf ops ion fuel particles new_electrons ipart_min ipart_max Epart rand
        nrand).getD (j - ipart_min) 0 = 0 := by
  have hsmall := h.sized.small
  have hZ : toUInt p.charge = ion.atomic_number_ := by
    rw [toUInt_of_range (by omega) (by omega), hc]; rfl
  have hord := h.ordered
  have hready :=
    batchReady_of_callReady ion particles new_electrons ipart_min ipart_max Epart nrand h
  refine ⟨fun E1 r1 st0 hp0 => ?_, ?_⟩
  · simp only [stepParticle, particleOutcome_full ops ion fuel E1 r1 j st0 p hp0 hZ,
      Option.some_bind, applyOutcome]
  obtain ⟨st, hst, _, _, _, hdata, hcap, _, _⟩ :=
    particleLoop_spec ops ion fuel hfuel Epart rand (ipart_max - ipart_min) ipart_min _ hready
  obtain ⟨hproj, hout⟩ :=
    particleLoop_calls ops ion fuel hfuel Epart rand (ipart_max - ipart_min) ipart_min _ st
      hready hst
  have hjE : j < Epart.length := by have := h.inFields; omega
  have hskip := hout j p Epart[j] hj1 (by omega) hp (List.getElem?_eq_getElem hjE)
  rw [if_pos (Or.inl hZ)] at hskip
  have hk0 : (kTimesOf ops ion fuel particles new_electrons ipart_min ipart_max Epart rand
      nrand).getD (j - ipart_min) 0 = 0 := by
    have := hcap j p hj1 (by omega) hp
    rw [hc] at this
    have h2 : ion.atomic_number_ - ((ion.atomic_number_ : Int)).toNat = 0 := by simp
    rw [h2] at this
    exact Nat.le_zero.mp this
  refine ⟨st, hst, hskip, ?_, ?_, hk0⟩
  · have hq := hdata j p hp
    rw [if_pos ⟨hj1, by omega⟩] at hq
    rw [hq]
    have hk1 : ((outcomeTrace ops ion fuel Epart rand (ipart_max - ipart_min) ipart_min
      (initState ion particles new_electrons nrand)).map Outcome.k_times).getD
        (j - ipart_min) 0 = 0 := hk0
    rw [hk1, addCharge_zero]
  · intro J hmem
    rw [hproj] at hmem
    have hmem2 : (j, J) ∈ expectedCalls ipart_min
        (outcomeTrace ops ion fuel Epart rand (ipart_max - ipart_min) ipart_min
          (initState ion particles new_electrons nrand)) := by
      simpa [initState] using hmem
    obtain ⟨_, mc, hmc⟩ := expectedCalls_mem _ _ _ _ hmem2
    rw [hskip] at hmc
    cases hmc

theorem C6_witness :
    (∀ (E1 : List (LocalFields ℝ)) (r1 : Nat → Nat) (st0 : State ℝ),
      st0.particles.data[1]? =
        some { position := [1], momentum := (1, 0, 0), weight := 2, charge := 3 } →
      stepParticle (MathOps.mk Real.exp Real.log Real.sqrt (fun x y => x ^ y) Real.Gamma)
        (sampleIon ℝ) 3 E1 r1 1 st0 = some st0) ∧
    ∃ st, ionize (MathOps.mk Real.exp Real.log Real.sqrt (fun x y => x ^ y) Real.Gamma)
        (sampleIon ℝ) 3 (sampleParticles ℝ) (sampleElectrons ℝ) 0 3 (sampleFields ℝ)
        (fun _ => 0) 0 = some st ∧
      (outcomeTrace (MathOps.mk Real.exp Real.log Real.sqrt (fun x y => x ^ y) Real.Gamma)
        (sampleIon ℝ) 3 (sampleFields ℝ) (fun _ => 0) (3 - 0) 0
        (initState (sampleIon ℝ) (sampleParticles ℝ) (sampleElectrons ℝ) 0))[1 - 0]?
          = some .skipped ∧
      st.particles.data[1]? =
        some { position := [1], momentum := (1, 0, 0), weight := 2, charge := 3 } ∧
      (∀ J, (1, J) ∉ st.projected) ∧
      (kTimesOf (MathOps.mk Real.exp Real.log Real.sqrt (fun x y => x ^ y) Real.Gamma)
        (sampleIon ℝ) 3 (sampleParticles ℝ) (sampleElectrons ℝ) 0 3 (sampleFields ℝ)
        (fun _ => 0) 0).getD (1 - 0) 0 = 0 :=
  C6_fully_stripped_untouched _ (sampleIon ℝ) 3 (by decide) (sampleParticles ℝ)
    (sampleElectrons ℝ) 0 3 (sampleFields ℝ) (fun _ => 0) 0 (sampleCall_ready ℝ) 1
    { position := [1], momentum := (1, 0, 0), weight := 2, charge := 3 }
    (by decide) (by decide) rfl rfl

/-- C7: over the real numbers, an ion whose field sample is the zero vector is skipped,
whatever its charge. The loop body run on its index returns the state it was given; and
in a whole call on a ready batch the outcome recorded for it is `skipped`, the ion is found
unchanged in the final state (its charge in particular), the projector log holds no call
for its index and its number of events is zero, so that no electron is spawned for it. -/
theorem C7_zero_field_skipped (ion : IonizationTunnel ℝ) (fuel : Nat)
    (hfuel : ion.atomic_number_ ≤ fuel) (particles new_electrons : Particles ℝ)
    (ipart_min ipart_max : Nat) (Epart : List (LocalFields ℝ)) (rand : Nat → Nat) (nrand : Nat)
    (h : CallReady ion particles new_electrons ipart_min ipart_max Epart)
    (j : Nat) (hj1 : ipart_min ≤ j) (hj2 : j < ipart_max)
    (hF : Epart[j]? = some { x := 0, y := 0, z := 0 }) :
    (∀ (E1 : List (LocalFields ℝ)) (r1 : Nat → Nat) (st0 : State ℝ) (p0 : Particle ℝ),
      st0.particles.data[j]? = some p0 → E1[j]? = some { x := 0, y := 0, z := 0 } →
      stepParticle (MathOps.mk Real.exp Real.log Real.sqrt (fun x y => x ^ y) Real.Gamma)
        ion fuel E1 r1 j st0 = some st0) ∧
    ∃ st, ionize (MathOps.mk Real.exp Real.log Real.sqrt (fun x y => x ^ y) Real.Gamma)
        ion fuel particles new_electrons ipart_min ipart_max Epart rand nrand = some st ∧
      (outcomeTrace (MathOps.mk Real.exp Real.log Real.sqrt (fun x y => x ^ y) Real.Gamma)
        ion fuel Epart rand (ipart_max - ipart_min) ipart_min
        (initState ion particles new_electrons nrand))[j - ipart_min]? = some .skipped ∧
      st.particles.data[j]? = particles.data[j]? ∧
      (∀ J, (j, J) ∉ st.projected) ∧
      (kTimesOf (MathOps.mk Real.exp Real.log Real.sqrt (fun x y => x ^ y) Real.Gamma)
        ion fuel particles new_electrons ipart_min ipart_max Epart rand
        nrand).getD (j - ipart_min) 0 = 0 := by
  have hord := h.ordered
  have hready :=
    batchReady_of_callReady ion particles new_electrons ipart_min ipart_max Epart nrand h
  refine ⟨fun E1 r1 st0 p0 hp0 hF0 => ?_, ?_⟩
  · simp only [stepParticle,
      particleOutcome_zero _ ion fuel E1 r1 j st0 p0 hp0 _ hF0 (fieldNorm_zero ion),
      Option.some_bind, applyOutcome]
  obtain ⟨st, hst, _, _, _, hdata, _, _, _⟩ :=
    particleLoop_spec _ ion fuel hfuel Epart rand (ipart_max - ipart_min) ipart_min _ hready
  obtain ⟨hproj, hout⟩ :=
    particleLoop_calls _ ion fuel hfuel Epart rand (ipart_max - ipart_min) ipart_min _ st
      hready hst
  have hjP : j < particles.data.length := by have := h.inParticles; omega
  have hp : particles.data[j]? = some particles.data[j] := List.getElem?_eq_getElem hjP
  have hskip := hout j _ _ hj1 (by omega) hp hF
  rw [if_pos (Or.inr (fieldNorm_zero ion))] at hskip
  have hk0 := kTimes_of_trace _ _ _ hskip
  refine ⟨st, hst, hskip, ?_, ?_, hk0⟩
  · have hq := hdata j _ hp
    rw [if_pos ⟨hj1, by omega⟩, hk0] at hq
    rw [hq, hp]
    show some (Particle.addCharge _ 0) = _
    rw [addCharge_zero]
  · intro J hmem
    rw [hproj] at hmem
    have hmem2 : (j, J) ∈ expectedCalls ipart_min
        (outcomeTrace (MathOps.mk Real.exp Real.log Real.sqrt (fun x y => x ^ y) Real.Gamma)
          ion fuel Epart rand (ipart_max - ipart_min) ipart_min
          (initState ion particles new_electrons nrand)) := by
      simpa [initState] using hmem
    obtain ⟨_, mc, hmc⟩ := expectedCalls_mem _ _ _ _ hmem2
    rw [hskip] at hmc
    cases hmc

theorem C7_witness :
    (∀ (E1 : List (LocalFields ℝ)) (r1 : Nat → Nat) (st0 : State ℝ) (p0 : Particle ℝ),
      st0.particles.data[2]? = some p0 → E1[2]? = some { x := 0, y := 0, z := 0 } →
      stepParticle (MathOps.mk Real.exp Real.log Real.sqrt (fun x y => x ^ y) Real.Gamma)
        (sampleIon ℝ) 3 E1 r1 2 st0 = some st0) ∧
    ∃ st, ionize (MathOps.mk Real.exp Real.log Real.sqrt (fun x y => x ^ y) Real.Gamma)
        (sampleIon ℝ) 3 (sampleParticles ℝ) (sampleElectrons ℝ) 0 3 (sampleFields ℝ)
        (fun _ => 5) 0 = some st ∧
      (outcomeTrace (MathOps.mk Real.exp Real.log Real.sqrt (fun x y => x ^ y) Real.Gamma)
        (sampleIon ℝ) 3 (sampleFields ℝ) (fun _ => 5) (3 - 0) 0
        (initState (sampleIon ℝ) (sampleParticles ℝ) (sampleElectrons ℝ) 0))[2 - 0]?
          = some .skipped ∧
      st.particles.data[2]? = (sampleParticles ℝ).data[2]? ∧
      (∀ J, (2, J) ∉ st.projected) ∧
      (kTimesOf (MathOps.mk Real.exp Real.log Real.sqrt (fun x y => x ^ y) Real.Gamma)
        (sampleIon ℝ) 3 (sampleParticles ℝ) (sampleElectrons ℝ) 0 3 (sampleFields ℝ)
        (fun _ => 5) 0).getD (2 - 0) 0 = 0 :=
  C7_zero_field_skipped (sampleIon ℝ) 3 (by decide) (sampleParticles ℝ)
    (sampleElectrons ℝ) 0 3 (sampleFields ℝ) (fun _ => 5) 0 (sampleCall_ready ℝ) 2
    (by decide) (by decide) rfl

/-- C10, as stated, fails: for the hydrogen-like data (`Potential[0] = 1/2`) the
constructor yields `alpha = 1`, `beta = 2`, `gamma = 2`, and the rate of charge state 0 at
field magnitude `E = 1` is larger than at `E = 2`. -/
theorem C10_counterexample :
    IonizationTunnel.new (MathOps.mk Real.exp Real.log Real.sqrt (fun x y => x ^ y) Real.Gamma)
      (hydrogenBase ℝ) = some (hydrogenIon ℝ) ∧
    (0 : ℝ) < 1 ∧ (1 : ℝ) < 2 ∧
    ∃ r1 r2,
      rate (MathOps.mk Real.exp Real.log Real.sqrt (fun x y => x ^ y) Real.Gamma)
        (hydrogenIon ℝ) 0 (1 / 1) = some r1 ∧
      rate (MathOps.mk Real.exp Real.log Real.sqrt (fun x y => x ^ y) Real.Gamma)
        (hydrogenIon ℝ) 0 (1 / 2) = some r2 ∧
      r2 < r1 := by
  refine ⟨hydrogen_new, by norm_num, by norm_num, _, _, rfl, rfl, ?_⟩
  have h3 := exp_third_lt_two
  have hsplit : Real.exp (-(1 / 3 : ℝ)) = Real.exp (-(2 / 3 : ℝ)) * Real.exp (1 / 3) := by
    rw [← Real.exp_add]; norm_num
  have hpos : 0 < Real.exp (-(2 / 3 : ℝ)) := Real.exp_pos _
  have e1 : Real.exp (-(2 * (1 / 1 : ℝ)) * (1 / 3) + 1 * Real.log (2 * (1 / 1)))
      = Real.exp (-(2 / 3 : ℝ)) * 2 := by
    have harg : -(2 * (1 / 1 : ℝ)) * (1 / 3) + 1 * Real.log (2 * (1 / 1))
        = -(2 / 3 : ℝ) + Real.log 2 := by norm_num
    rw [harg, Real.exp_add, Real.exp_log (by norm_num)]
  have e2 : Real.exp (-(2 * (1 / 2 : ℝ)) * (1 / 3) + 1 * Real.log (2 * (1 / 2)))
      = Real.exp (-(1 / 3 : ℝ)) := by
    norm_num
  show (2 : ℝ) * Real.exp (-(2 * (1 / 2 : ℝ)) * (1 / 3) + 1 * Real.log (2 * (1 / 2)))
    < 2 * Real.exp (-(2 * (1 / 1 : ℝ)) * (1 / 3) + 1 * Real.log (2 * (1 / 1)))
  rw [e1, e2, hsplit]
  nlinarith

/-- C10, amended: over the real numbers, for tables built by the constructor from valid
species data (`Potential[Z] > 0`, `Azimuthal_quantum_number[Z] ≥ 0`, `au_to_w0 > 0`) and
a charge state `Z < atomic_number_`, the rate does not decrease with the field magnitude
up to the field `gamma[Z] / (3*alpha[Z])`: for `0 < E1 < E2` with
`3*alpha[Z]*E2 ≤ gamma[Z]`, `rate(Z)` at `E1` is at most `rate(Z)` at `E2`. (Equality is
left open: in double precision both rates are `0` at weak fields, where `exp` underflows.) -/
theorem C10_rate_monotone_below_maximum (base : Ionization ℝ)
    (hsmall : base.atomic_number_ < 2 ^ 32)
    (hP : base.Potential.length = base.atomic_number_)
    (hA : base.Azimuthal_quantum_number.length = base.atomic_number_)
    (hw : 0 < base.au_to_w0) (Z : Nat) (hZ : Z < base.atomic_number_)
    (hpot : 0 < base.Potential.getD Z 0) (hazi : 0 ≤ base.Azimuthal_quantum_number.getD Z 0)
    (E1 E2 : ℝ) (h1 : 0 < E1) (h12 : E1 < E2)
    (hmax : 3 * alphaOf (MathOps.mk Real.exp Real.log Real.sqrt (fun x y => x ^ y) Real.Gamma) base Z * E2 ≤ gammaOf (MathOps.mk Real.exp Real.log Real.sqrt (fun x y => x ^ y) Real.Gamma) base Z) :
    ∃ ion r1 r2,
      IonizationTunnel.new (MathOps.mk Real.exp Real.log Real.sqrt (fun x y => x ^ y) Real.Gamma) base = some ion ∧
      ion.alpha_tunnel[Z]? = some (alphaOf (MathOps.mk Real.exp Real.log Real.sqrt (fun x y => x ^ y) Real.Gamma) base Z) ∧
      ion.gamma_tunnel[Z]? = some (gammaOf (MathOps.mk Real.exp Real.log Real.sqrt (fun x y => x ^ y) Real.Gamma) base Z) ∧
      rate (MathOps.mk Real.exp Real.log Real.sqrt (fun x y => x ^ y) Real.Gamma) ion Z (1 / E1) = some r1 ∧
      rate (MathOps.mk Real.exp Real.log Real.sqrt (fun x y => x ^ y) Real.Gamma) ion Z (1 / E2) = some r2 ∧
      r1 ≤ r2 := by
  obtain ⟨ion, hnew, hbase, hthird, hs, hcoef⟩ := new_spec (MathOps.mk Real.exp Real.log Real.sqrt (fun x y => x ^ y) Real.Gamma) base hsmall hP hA
  obtain ⟨ha, hb, hg⟩ := hcoef Z hZ
  have hN : ion.atomic_number_ = base.atomic_number_ := by rw [← hbase]
  have hZ1 : Z < ion.atomic_number_ := by rw [hN]; exact hZ
  have hZa : Z < ion.alpha_tunnel.length := by rw [hs.alpha]; exact hZ1
  have hZb : Z < ion.beta_tunnel.length := by rw [hs.beta]; exact hZ1
  have hZg : Z < ion.gamma_tunnel.length := by rw [hs.gamma]; exact hZ1
  refine ⟨ion, _, _, hnew, by rw [getElem?_of_lt _ hZa, ha], by rw [getElem?_of_lt _ hZg, hg],
    rate_of_lt _ ion (1 / E1) hZa hZb hZg, rate_of_lt _ ion (1 / E2) hZa hZb hZg, ?_⟩
  exact le_of_lt (rateVal_increasing ion Z hthird
    (by rw [hb]; exact betaOf_pos base Z hpot hazi hw)
    (by rw [hg]; exact gammaOf_pos base Z hpot) E1 E2 h1 h12 (by rw [ha, hg]; exact hmax))

theorem C10_witness :
    ∃ ion r1 r2,
      IonizationTunnel.new (MathOps.mk Real.exp Real.log Real.sqrt (fun x y => x ^ y) Real.Gamma) (hydrogenBase ℝ) = some ion ∧
      ion.alpha_tunnel[0]? = some (alphaOf (MathOps.mk Real.exp Real.log Real.sqrt (fun x y => x ^ y) Real.Gamma) (hydrogenBase ℝ) 0) ∧
      ion.gamma_tunnel[0]? = some (gammaOf (MathOps.mk Real.exp Real.log Real.sqrt (fun x y => x ^ y) Real.Gamma) (hydrogenBase ℝ) 0) ∧
      rate (MathOps.mk Real.exp Real.log Real.sqrt (fun x y => x ^ y) Real.Gamma) ion 0 (1 / (1 / 10)) = some r1 ∧
      rate (MathOps.mk Real.exp Real.log Real.sqrt (fun x y => x ^ y) Real.Gamma) ion 0 (1 / (1 / 2)) = some r2 ∧
      r1 ≤ r2 :=
  C10_rate_monotone_below_maximum (hydrogenBase ℝ) (by norm_num [hydrogenBase]) rfl rfl
    (by norm_num [hydrogenBase]) 0 (by decide) (by norm_num [hydrogenBase])
    (by norm_num [hydrogenBase]) (1 / 10) (1 / 2) (by norm_num) (by norm_num)
    (by
      have h4 : Real.sqrt 4 = 2 := by
        rw [show (4 : ℝ) = 2 ^ 2 by norm_num]; exact Real.sqrt_sq (by norm_num)
      simp [alphaOf, gammaOf, cstOf, hydrogenBase]
      norm_num [h4])

/-- C9 fails on the code: the scratch vector `Dnom_tunnel` is declared once per call and
line 106 updates `Dnom_tunnel[k_times+1]` with `-=`, so the value left by an earlier
particle enters the computation of a later one. For the three-level species `toyBase`
(tables `toyIon` from the constructor) and two neutral ions with the same field sample, the
second ion gets `k_times = 1` when processed after the first one, and `k_times ≥ 2` when
processed alone with the same field sample and the same draw. -/
theorem C9_scratch_reuse_breaks_independence :
    IonizationTunnel.new (MathOps.mk Real.exp Real.log Real.sqrt (fun x y => x ^ y) Real.Gamma)
      (toyBase ℝ) = some (toyIon ℝ) ∧
    kTimesOf (MathOps.mk Real.exp Real.log Real.sqrt (fun x y => x ^ y) Real.Gamma) (toyIon ℝ) 2
      (toyParticles ℝ) (sampleElectrons ℝ) 0 2 (toyFields ℝ) toyRand 0 = [1, 1] ∧
    ∃ k, kTimesOf (MathOps.mk Real.exp Real.log Real.sqrt (fun x y => x ^ y) Real.Gamma)
      (toyIon ℝ) 2 (toyParticles ℝ) (sampleElectrons ℝ) 1 2 (toyFields ℝ) toyRand 1 = [k] ∧
      2 ≤ k := by
  obtain ⟨hr0, hr1⟩ := toy_rates
  obtain ⟨b0, b1, b1b⟩ := toy_rate_bounds
  rw [← hr0] at b0
  rw [← hr1] at b1 b1b
  obtain ⟨ha0, ha0b, ha1, ha1b⟩ := toy_exp_bounds _ _ b0 b1 b1b
  obtain ⟨w1, w2, w3⟩ := toy_window _ _ _ _ b0 (by linarith) b1b ha0 ha0b ha1 ha1b
  have hlt1 : Real.exp (-rateVal
      (MathOps.mk Real.exp Real.log Real.sqrt (fun x y => x ^ y) Real.Gamma) (toyIon ℝ) 0
        (1 / (64 / 9)) * 1) < (1073741824 : ℝ) * (1 / 2147483647) :=
    lt_trans ha0b (by norm_num)
  have hlt2 : Real.exp (-rateVal
      (MathOps.mk Real.exp Real.log Real.sqrt (fun x y => x ^ y) Real.Gamma) (toyIon ℝ) 0
        (1 / (64 / 9)) * 1) < (2147483646 : ℝ) * (1 / 2147483647) :=
    lt_trans ha0b (by norm_num)
  have hE : fieldNorm (MathOps.mk Real.exp Real.log Real.sqrt (fun x y => x ^ y) Real.Gamma)
      (toyIon ℝ) { x := 64 / 9, y := 0, z := 0 } ≠ 0 := by
    rw [toy_fieldNorm]; norm_num
  have hs := toyIon_sized ℝ
  have hZ0 : toUInt (0 : Int) ≠ (toyIon ℝ).atomic_number_ := by decide
  have hcast1 : ((toyRand 0 : Nat) : ℝ) = 1073741824 := by norm_num [toyRand]
  have hcast2 : ((toyRand 1 : Nat) : ℝ) = 2147483646 := by norm_num [toyRand]
  -- the first ion, on fresh scratch vectors
  have hmc0 := monteCarlo_one_event
    (MathOps.mk Real.exp Real.log Real.sqrt (fun x y => x ^ y) Real.Gamma) (toyIon ℝ) hs
    { IonizRate_tunnel := List.replicate 3 0, Dnom_tunnel := List.replicate 3 0 }
    ⟨rfl, rfl⟩ 0 (by decide) (1 / (64 / 9)) ((1073741824 : ℝ) * (1 / 2147483647)) 1 hlt1 w1
  -- the second ion, processed alone on fresh scratch vectors
  obtain ⟨mcA, hmcA, hkA⟩ := monteCarlo_more_events
    (MathOps.mk Real.exp Real.log Real.sqrt (fun x y => x ^ y) Real.Gamma) (toyIon ℝ) hs
    { IonizRate_tunnel := List.replicate 3 0, Dnom_tunnel := List.replicate 3 0 }
    ⟨rfl, rfl⟩ 0 (by decide) (1 / (64 / 9)) ((2147483646 : ℝ) * (1 / 2147483647)) 1
    (by decide) hlt2 w2
  refine ⟨toy_new, ?_, mcA.k_times, ?_, hkA⟩
  · -- the batch: first ion, then the second one on the scratch vectors left by the first
    have hmc0b : monteCarlo (MathOps.mk Real.exp Real.log Real.sqrt (fun x y => x ^ y) Real.Gamma) (toyIon ℝ) 2 (toUInt (0 : Int))
        (1 / fieldNorm (MathOps.mk Real.exp Real.log Real.sqrt (fun x y => x ^ y) Real.Gamma) (toyIon ℝ) { x := 64 / 9, y := 0, z := 0 })
        (((toyRand 0 : Nat) : ℝ) * (toyIon ℝ).INV_RAND_MAX)
        (initState (toyIon ℝ) (toyParticles ℝ) (sampleElectrons ℝ) 0).scratch =
        some (oneEventResult (MathOps.mk Real.exp Real.log Real.sqrt (fun x y => x ^ y) Real.Gamma) (toyIon ℝ) 0 (1 / (64 / 9))
          { IonizRate_tunnel := List.replicate 3 0, Dnom_tunnel := List.replicate 3 0 }) := by
      rw [toy_fieldNorm, hcast1]; exact hmc0
    obtain ⟨ho0, ha0⟩ := step_processed (MathOps.mk Real.exp Real.log Real.sqrt (fun x y => x ^ y) Real.Gamma) (toyIon ℝ) 2 (toyFields ℝ) toyRand 0
      (initState (toyIon ℝ) (toyParticles ℝ) (sampleElectrons ℝ) 0)
      { position := [0], momentum := (0, 0, 0), weight := 1, charge := 0 }
      { x := 64 / 9, y := 0, z := 0 } _ rfl hZ0 rfl hE hmc0b (by decide) (by decide) (by decide)
    have hmc1 := monteCarlo_one_event (MathOps.mk Real.exp Real.log Real.sqrt (fun x y => x ^ y) Real.Gamma) (toyIon ℝ) hs
      (oneEventResult (MathOps.mk Real.exp Real.log Real.sqrt (fun x y => x ^ y) Real.Gamma) (toyIon ℝ) 0 (1 / (64 / 9))
        { IonizRate_tunnel := List.replicate 3 0, Dnom_tunnel := List.replicate 3 0 }).scratch
      ⟨rfl, rfl⟩ 0 (by decide) (1 / (64 / 9)) ((2147483646 : ℝ) * (1 / 2147483647)) 1 hlt2 w3
    have hmc1b : monteCarlo (MathOps.mk Real.exp Real.log Real.sqrt (fun x y => x ^ y) Real.Gamma) (toyIon ℝ) 2 (toUInt (0 : Int))
        (1 / fieldNorm (MathOps.mk Real.exp Real.log Real.sqrt (fun x y => x ^ y) Real.Gamma) (toyIon ℝ) { x := 64 / 9, y := 0, z := 0 })
        (((toyRand 1 : Nat) : ℝ) * (toyIon ℝ).INV_RAND_MAX)
        (oneEventResult (MathOps.mk Real.exp Real.log Real.sqrt (fun x y => x ^ y) Real.Gamma) (toyIon ℝ) 0 (1 / (64 / 9))
          { IonizRate_tunnel := List.replicate 3 0,
            Dnom_tunnel := List.replicate 3 0 }).scratch =
        some (oneEventResult (MathOps.mk Real.exp Real.log Real.sqrt (fun x y => x ^ y) Real.Gamma) (toyIon ℝ) 0 (1 / (64 / 9))
          (oneEventResult (MathOps.mk Real.exp Real.log Real.sqrt (fun x y => x ^ y) Real.Gamma) (toyIon ℝ) 0 (1 / (64 / 9))
            { IonizRate_tunnel := List.replicate 3 0,
              Dnom_tunnel := List.replicate 3 0 }).scratch) := by
      rw [toy_fieldNorm, hcast2]; exact hmc1
    obtain ⟨ho1, ha1⟩ := step_processed (MathOps.mk Real.exp Real.log Real.sqrt (fun x y => x ^ y) Real.Gamma) (toyIon ℝ) 2 (toyFields ℝ) toyRand 1
      (ionizedState (toyIon ℝ) 0 (initState (toyIon ℝ) (toyParticles ℝ) (sampleElectrons ℝ) 0)
        { position := [0], momentum := (0, 0, 0), weight := 1, charge := 0 }
        (oneEventResult (MathOps.mk Real.exp Real.log Real.sqrt (fun x y => x ^ y) Real.Gamma) (toyIon ℝ) 0 (1 / (64 / 9))
          { IonizRate_tunnel := List.replicate 3 0, Dnom_tunnel := List.replicate 3 0 })
        (ionCurrent (toyIon ℝ) (fieldNorm (MathOps.mk Real.exp Real.log Real.sqrt (fun x y => x ^ y) Real.Gamma) (toyIon ℝ) { x := 64 / 9, y := 0, z := 0 })
          { x := 64 / 9, y := 0, z := 0 }
          (oneEventResult (MathOps.mk Real.exp Real.log Real.sqrt (fun x y => x ^ y) Real.Gamma) (toyIon ℝ) 0 (1 / (64 / 9))
            { IonizRate_tunnel := List.replicate 3 0,
              Dnom_tunnel := List.replicate 3 0 }).TotalIonizPot))
      { position := [1], momentum := (0, 0, 0), weight := 1, charge := 0 }
      { x := 64 / 9, y := 0, z := 0 } _ rfl hZ0 rfl hE hmc1b (by decide) (by decide) (by decide)
    have hw : wrap (0 + 1) = 1 := by decide
    show (outcomeTrace (MathOps.mk Real.exp Real.log Real.sqrt (fun x y => x ^ y) Real.Gamma) (toyIon ℝ) 2 (toyFields ℝ) toyRand (1 + 1) 0
      (initState (toyIon ℝ) (toyParticles ℝ) (sampleElectrons ℝ) 0)).map Outcome.k_times = [1, 1]
    simp only [outcomeTrace, ho0, ha0, hw, ho1, ha1, List.map, Outcome.k_times]
    rfl
  · -- the second ion alone, on fresh scratch vectors
    have hmcAb : monteCarlo (MathOps.mk Real.exp Real.log Real.sqrt (fun x y => x ^ y) Real.Gamma) (toyIon ℝ) 2 (toUInt (0 : Int))
        (1 / fieldNorm (MathOps.mk Real.exp Real.log Real.sqrt (fun x y => x ^ y) Real.Gamma) (toyIon ℝ) { x := 64 / 9, y := 0, z := 0 })
        (((toyRand 1 : Nat) : ℝ) * (toyIon ℝ).INV_RAND_MAX)
        (initState (toyIon ℝ) (toyParticles ℝ) (sampleElectrons ℝ) 1).scratch = some mcA := by
      rw [toy_fieldNorm, hcast2]; exact hmcA
    have hoA := particleOutcome_processed (MathOps.mk Real.exp Real.log Real.sqrt (fun x y => x ^ y) Real.Gamma) (toyIon ℝ) 2 (toyFields ℝ) toyRand 1
      (initState (toyIon ℝ) (toyParticles ℝ) (sampleElectrons ℝ) 1)
      { position := [1], momentum := (0, 0, 0), weight := 1, charge := 0 } rfl hZ0
      { x := 64 / 9, y := 0, z := 0 } rfl hE
    rw [show toUInt ({ position := [1], momentum := (0, 0, 0), weight := 1, charge := 0 } :
        Particle ℝ).charge = toUInt (0 : Int) from rfl] at hoA
    rw [show (initState (toyIon ℝ) (toyParticles ℝ) (sampleElectrons ℝ) 1).nrand = 1 from rfl,
      hmcAb, Option.some_bind] at hoA
    show (outcomeTrace (MathOps.mk Real.exp Real.log Real.sqrt (fun x y => x ^ y) Real.Gamma) (toyIon ℝ) 2 (toyFields ℝ) toyRand (0 + 1) 1
      (initState (toyIon ℝ) (toyParticles ℝ) (sampleElectrons ℝ) 1)).map Outcome.k_times
        = [mcA.k_times]
    simp only [outcomeTrace, hoA]
    split <;> simp [Outcome.k_times]

/-- C11: over the real numbers, for species data with `atomic_number_` potentials and
azimuthal quantum numbers and `au_to_w0 > 0`, the constructor returns an object whose three
tables have `atomic_number_` entries, and for every `Z < atomic_number_` with
`Potential[Z] > 0` and `Azimuthal_quantum_number[Z] ≥ 0`:
`alpha[Z] = (Z+1)*sqrt(2/Potential[Z]) - 1`,
`beta[Z] = 2^alpha[Z] * (8*Azimuthal_quantum_number[Z]+4) / (cst*Gamma(cst)) * Potential[Z] *
au_to_w0` with `cst = alpha[Z]+1`, `gamma[Z] = 2*(2*Potential[Z])^1.5`, `beta[Z] > 0` and
`gamma[Z] > 0`. -/
theorem C11_coefficient_table (base : Ionization ℝ) (hsmall : base.atomic_number_ < 2 ^ 32)
    (hP : base.Potential.length = base.atomic_number_)
    (hA : base.Azimuthal_quantum_number.length = base.atomic_number_)
    (hw : 0 < base.au_to_w0) :
    ∃ ion, IonizationTunnel.new (MathOps.mk Real.exp Real.log Real.sqrt (fun x y => x ^ y) Real.Gamma) base = some ion ∧
      ion.alpha_tunnel.length = base.atomic_number_ ∧
      ion.beta_tunnel.length = base.atomic_number_ ∧
      ion.gamma_tunnel.length = base.atomic_number_ ∧
      ∀ Z, Z < base.atomic_number_ → 0 < base.Potential.getD Z 0 →
        0 ≤ base.Azimuthal_quantum_number.getD Z 0 →
        ∃ a b g : ℝ, ion.alpha_tunnel[Z]? = some a ∧ ion.beta_tunnel[Z]? = some b ∧
          ion.gamma_tunnel[Z]? = some g ∧
          a = ((Z : ℝ) + 1) * Real.sqrt (2 / base.Potential.getD Z 0) - 1 ∧
          b = (2 : ℝ) ^ a * (8 * base.Azimuthal_quantum_number.getD Z 0 + 4) /
            ((a + 1) * Real.Gamma (a + 1)) * base.Potential.getD Z 0 * base.au_to_w0 ∧
          g = 2 * (2 * base.Potential.getD Z 0) ^ ((3 : ℝ) / 2) ∧
          0 < b ∧ 0 < g := by
  obtain ⟨ion, hnew, hbase, _, hs, hcoef⟩ := new_spec (MathOps.mk Real.exp Real.log Real.sqrt (fun x y => x ^ y) Real.Gamma) base hsmall hP hA
  have hN : ion.atomic_number_ = base.atomic_number_ := by rw [← hbase]
  refine ⟨ion, hnew, by rw [hs.alpha, hN], by rw [hs.beta, hN], by rw [hs.gamma, hN],
    fun Z hZ hpot hazi => ?_⟩
  obtain ⟨ha, hb, hg⟩ := hcoef Z hZ
  have hZ1 : Z < ion.atomic_number_ := by rw [hN]; exact hZ
  refine ⟨_, _, _, getElem?_of_lt _ (by rw [hs.alpha]; exact hZ1),
    getElem?_of_lt _ (by rw [hs.beta]; exact hZ1),
    getElem?_of_lt _ (by rw [hs.gamma]; exact hZ1), ?_, ?_, ?_, ?_, ?_⟩
  · rw [ha]; rfl
  · rw [hb, ha]
    simp only [betaOf, alphaOf, sub_add_cancel]
  · rw [hg]; rfl
  · rw [hb]; exact betaOf_pos base Z hpot hazi hw
  · rw [hg]; exact gammaOf_pos base Z hpot

theorem C11_witness :
    ∃ ion, IonizationTunnel.new (MathOps.mk Real.exp Real.log Real.sqrt (fun x y => x ^ y) Real.Gamma) (hydrogenBase ℝ) = some ion ∧
      ion.alpha_tunnel.length = (hydrogenBase ℝ).atomic_number_ ∧
      ion.beta_tunnel.length = (hydrogenBase ℝ).atomic_number_ ∧
      ion.gamma_tunnel.length = (hydrogenBase ℝ).atomic_number_ ∧
      ∀ Z, Z < (hydrogenBase ℝ).atomic_number_ → 0 < (hydrogenBase ℝ).Potential.getD Z 0 →
        0 ≤ (hydrogenBase ℝ).Azimuthal_quantum_number.getD Z 0 →
        ∃ a b g : ℝ, ion.alpha_tunnel[Z]? = some a ∧ ion.beta_tunnel[Z]? = some b ∧
          ion.gamma_tunnel[Z]? = some g ∧
          a = ((Z : ℝ) + 1) * Real.sqrt (2 / (hydrogenBase ℝ).Potential.getD Z 0) - 1 ∧
          b = (2 : ℝ) ^ a * (8 * (hydrogenBase ℝ).Azimuthal_quantum_number.getD Z 0 + 4) /
            ((a + 1) * Real.Gamma (a + 1)) * (hydrogenBase ℝ).Potential.getD Z 0 *
              (hydrogenBase ℝ).au_to_w0 ∧
          g = 2 * (2 * (hydrogenBase ℝ).Potential.getD Z 0) ^ ((3 : ℝ) / 2) ∧
          0 < b ∧ 0 < g :=
  C11_coefficient_table (hydrogenBase ℝ) (by norm_num [hydrogenBase]) rfl rfl
    (by norm_num [hydrogenBase])

/-- C12, as stated, fails: the constructor has no check of the species data. For
`atomic_number_ = 0` it returns an object with three empty tables, and for the one-level
data with `Potential[0] = -1` it returns an object as well. -/
theorem C12_counterexample :
    IonizationTunnel.new (MathOps.mk Real.exp Real.log Real.sqrt (fun x y => x ^ y) Real.Gamma) (emptyBase ℝ) =
      some { toIonization := emptyBase ℝ, one_third := 1 / 3,
             alpha_tunnel := [], beta_tunnel := [], gamma_tunnel := [] } ∧
    (negativeBase ℝ).Potential[0]? = some (-1 : ℝ) ∧
    ∃ ion, IonizationTunnel.new (MathOps.mk Real.exp Real.log Real.sqrt (fun x y => x ^ y) Real.Gamma) (negativeBase ℝ) = some ion := by
  refine ⟨rfl, rfl, ?_⟩
  obtain ⟨ion, h, _⟩ := new_spec (MathOps.mk Real.exp Real.log Real.sqrt (fun x y => x ^ y) Real.Gamma) (negativeBase ℝ) (by norm_num [negativeBase]) rfl rfl
  exact ⟨ion, h⟩

/-- C12, amended: the constructor does not validate the species data. Whenever the
potentials and azimuthal quantum numbers have `atomic_number_` entries it returns an
object, with three tables of `atomic_number_` entries, whatever the values of
`atomic_number_` and of the potentials; valid data are a special case. -/
theorem C12_construction_never_rejects (ops : MathOps R) (base : Ionization R)
    (hsmall : base.atomic_number_ < 2 ^ 32)
    (hP : base.Potential.length = base.atomic_number_)
    (hA : base.Azimuthal_quantum_number.length = base.atomic_number_) :
    ∃ ion, IonizationTunnel.new ops base = some ion ∧
      ion.alpha_tunnel.length = base.atomic_number_ ∧
      ion.beta_tunnel.length = base.atomic_number_ ∧
      ion.gamma_tunnel.length = base.atomic_number_ := by
  obtain ⟨ion, hnew, hbase, _, hs, _⟩ := new_spec ops base hsmall hP hA
  have hN : ion.atomic_number_ = base.atomic_number_ := by rw [← hbase]
  exact ⟨ion, hnew, by rw [hs.alpha, hN], by rw [hs.beta, hN], by rw [hs.gamma, hN]⟩

theorem C12_witness :
    ∃ ion, IonizationTunnel.new (MathOps.mk Real.exp Real.log Real.sqrt (fun x y => x ^ y) Real.Gamma) (negativeBase ℝ) = some ion ∧
      ion.alpha_tunnel.length = (negativeBase ℝ).atomic_number_ ∧
      ion.beta_tunnel.length = (negativeBase ℝ).atomic_number_ ∧
      ion.gamma_tunnel.length = (negativeBase ℝ).atomic_number_ :=
  C12_construction_never_rejects (MathOps.mk Real.exp Real.log Real.sqrt (fun x y => x ^ y) Real.Gamma) (negativeBase ℝ) (by norm_num [negativeBase]) rfl rfl

/-- C14, as stated, fails: a nonzero field sample does not ensure the event. Take the
hydrogen tables `alpha = 1`, `beta = 2`, `gamma = 2` (what the constructor builds for
`Potential[0] = 1/2`), `dt = 0.1`, a neutral ion and `rand() = 0`, in a math library with
the range and rounding of double precision (`rangeOps`). For the nonzero field sample
`(2^-600, 0, 0)`, `pow(2^-600, 2)` underflows to `0`, the field magnitude of lines 52-54
is `0`, and line 55 skips the ion: `k_times = 0`, the state (the charge `0` and the empty
electron container in particular) is left as it was. And at the field magnitude
`E = 0.005`, `rate(0)*dt` is positive but `exp(-rate(0)*dt)` is exactly `1`, so the test of
line 77 fails for `ran_p = 0` and `k_times = 0`. -/
theorem C14_counterexample :
    (((1 : ℚ) / 2 ^ 600 ≠ 0) ∧
      fieldNorm rangeOps (hydrogenIon ℚ) { x := 1 / 2 ^ 600, y := 0, z := 0 } = 0 ∧
      (particleOutcome rangeOps (hydrogenIon ℚ) 1 [{ x := 1 / 2 ^ 600, y := 0, z := 0 }]
        (fun _ => 0) 0 (hydrogenState ℚ)).map Outcome.k_times = some 0 ∧
      stepParticle rangeOps (hydrogenIon ℚ) 1 [{ x := 1 / 2 ^ 600, y := 0, z := 0 }]
        (fun _ => 0) 0 (hydrogenState ℚ) = some (hydrogenState ℚ)) ∧
    (0 < rateVal rangeOps (hydrogenIon ℚ) 0 (1 / (1 / 200)) * (hydrogenIon ℚ).dt ∧
      rangeOps.exp (-rateVal rangeOps (hydrogenIon ℚ) 0 (1 / (1 / 200)) * (hydrogenIon ℚ).dt)
        = 1 ∧
      ∃ r, monteCarlo rangeOps (hydrogenIon ℚ) 1 0 (1 / (1 / 200)) 0
          (hydrogenState ℚ).scratch = some r ∧ r.k_times = 0) := by
  have hE : fieldNorm rangeOps (hydrogenIon ℚ) { x := 1 / 2 ^ 600, y := 0, z := 0 } = 0 := by
    have h1 : rangeOps.pow (1 / 2 ^ 600) 2 = 0 :=
      rangeOps_pow_underflow _ (by rw [abs_lt]; constructor <;> norm_num)
    have h2 : rangeOps.pow 0 2 = 0 :=
      rangeOps_pow_underflow _ (by rw [abs_lt]; constructor <;> norm_num)
    have h3 : rangeOps.sqrt 0 = 0 := by
      show (if (0 : ℚ) = 0 then (0 : ℚ) else (0 + 1) / 2) = 0
      rw [if_pos rfl]
    show (hydrogenIon ℚ).EC_to_au *
      rangeOps.sqrt (rangeOps.pow (1 / 2 ^ 600) 2 + rangeOps.pow 0 2 + rangeOps.pow 0 2) = 0
    rw [h1, h2, add_zero, add_zero, h3, mul_zero]
  have ho := particleOutcome_zero rangeOps (hydrogenIon ℚ) 1
    [{ x := 1 / 2 ^ 600, y := 0, z := 0 }] (fun _ => 0) 0 (hydrogenState ℚ) (hydrogenAtom ℚ)
    rfl { x := 1 / 2 ^ 600, y := 0, z := 0 } rfl hE
  obtain ⟨w1, w2, r, hr, hk⟩ := hydrogen_weak_field (1 / (1 / 200)) (-158006 / 1203)
    (by norm_num) (by rw [abs_le]; norm_num) (by norm_num) (by norm_num) (by norm_num)
  refine ⟨⟨by norm_num, hE, ?_, ?_⟩, w1, w2, r, ?_, hk⟩
  · rw [ho]; rfl
  · rw [stepParticle, ho]
    rfl
  · rw [monteCarlo_last rangeOps (hydrogenIon ℚ)
      ⟨by norm_num [hydrogenIon, hydrogenBase], rfl, rfl, rfl, rfl⟩
      (hydrogenState ℚ).scratch ⟨rfl, rfl⟩ 0 rfl]
    rw [monteCarlo_last rangeOps (hydrogenIon ℚ)
      ⟨by norm_num [hydrogenIon, hydrogenBase], rfl, rfl, rfl, rfl⟩
      { IonizRate_tunnel := [0], Dnom_tunnel := [0] } ⟨rfl, rfl⟩ 0 rfl] at hr
    exact hr

/-- C14, amended: scenario A, for any math library. For a hydrogen-like table
(`atomic_number_ = 1`), an ion of charge 0, a field sample for which the computed field
magnitude `E` is nonzero and the computed `exp(-rate(0)*dt)` is below `1` (a large field),
and `rand() = 0` (so `ran_p = 0`), the loop body computes `k_times = 1`, raises the ion's
charge to 1 and appends exactly one electron, whose weight is the weight of the ion. -/
theorem C14_hydrogen_single_event (ops : MathOps R) (ion : IonizationTunnel R)
    (hs : Sized ion) (hN : ion.atomic_number_ = 1)
    (fuel : Nat) (Epart : List (LocalFields R)) (rand : Nat → Nat) (ipart : Nat) (st : State R)
    (hsc : ScratchSized ion st.scratch)
    (p : Particle R) (hp : st.particles.data[ipart]? = some p) (hc : p.charge = 0)
    (F : LocalFields R) (hF : Epart[ipart]? = some F) (hE : fieldNorm ops ion F ≠ 0)
    (hfire : ops.exp (-rateVal ops ion 0 (1 / fieldNorm ops ion F) * ion.dt) < 1)
    (hran : rand st.nrand = 0) (hd : st.new_electrons.dimension ≤ p.position.length)
    (hd32 : st.new_electrons.dimension < 2 ^ 32) :
    ∃ st1 e,
      (particleOutcome ops ion fuel Epart rand ipart st).map Outcome.k_times = some 1 ∧
      stepParticle ops ion fuel Epart rand ipart st = some st1 ∧
      st1.particles.data[ipart]? = some (p.addCharge 1) ∧ (p.addCharge 1).charge = 1 ∧
      st1.new_electrons.data = st.new_electrons.data ++ [e] ∧ e.weight = p.weight := by
  have hZ0 : toUInt p.charge = 0 := by rw [hc]; rfl
  have hrp : ((rand st.nrand : Nat) : R) * ion.INV_RAND_MAX = 0 := by rw [hran]; simp
  have hfire2 : (0 : R) < 1 - ops.exp (-rateVal ops ion 0 (1 / fieldNorm ops ion F) * ion.dt) := by
    linarith
  have hmc := monteCarlo_last ops ion hs st.scratch hsc 0 (by rw [hN])
    (1 / fieldNorm ops ion F) ((rand st.nrand : R) * ion.INV_RAND_MAX) fuel
  rw [hrp, if_pos hfire2, if_pos hfire2] at hmc
  rw [← hZ0] at hmc
  rw [← hrp] at hmc
  obtain ⟨ho, ha⟩ := step_processed ops ion fuel Epart rand ipart st p F _ hp
    (by rw [hZ0, hN]; norm_num) hF hE hmc (by show (1 : Nat) ≠ 0; norm_num) hd hd32
  have hlt : ipart < st.particles.data.length := by
    by_contra hcon
    rw [List.getElem?_eq_none (by omega)] at hp
    cases hp
  have key : ∃ st1, applyOutcome ion ipart st _ = some st1 ∧
      st1.particles.data = st.particles.data.set ipart (p.addCharge 1) ∧
      st1.new_electrons.data = st.new_electrons.data ++
        [electronOf ion st.new_electrons.dimension p 1] := ⟨_, ha, rfl, rfl⟩
  obtain ⟨st1, hst1, hd1, he1⟩ := key
  refine ⟨st1, electronOf ion st.new_electrons.dimension p 1, ?_, ?_, ?_, ?_, he1, ?_⟩
  · rw [ho]; rfl
  · rw [stepParticle, ho, Option.some_bind]; exact hst1
  · rw [hd1, List.getElem?_set_self hlt]
  · show p.charge + ((1 : Nat) : Int) = 1
    rw [hc]; rfl
  · show ((1 : Nat) : R) * p.weight = p.weight
    simp

theorem C14_witness :
    IonizationTunnel.new (MathOps.mk Real.exp Real.log Real.sqrt (fun x y => x ^ y) Real.Gamma) (hydrogenBase ℝ) = some (hydrogenIon ℝ) ∧
    ∃ st1 e,
      (particleOutcome (MathOps.mk Real.exp Real.log Real.sqrt (fun x y => x ^ y) Real.Gamma) (hydrogenIon ℝ) 1 [{ x := 3, y := 0, z := 0 }] (fun _ => 0) 0
        (hydrogenState ℝ)).map Outcome.k_times = some 1 ∧
      stepParticle (MathOps.mk Real.exp Real.log Real.sqrt (fun x y => x ^ y) Real.Gamma) (hydrogenIon ℝ) 1 [{ x := 3, y := 0, z := 0 }] (fun _ => 0) 0
        (hydrogenState ℝ) = some st1 ∧
      st1.particles.data[0]? = some ((hydrogenAtom ℝ).addCharge 1) ∧
      ((hydrogenAtom ℝ).addCharge 1).charge = 1 ∧
      st1.new_electrons.data = (hydrogenState ℝ).new_electrons.data ++ [e] ∧
      e.weight = (hydrogenAtom ℝ).weight :=
  ⟨hydrogen_new,
    C14_hydrogen_single_event (MathOps.mk Real.exp Real.log Real.sqrt (fun x y => x ^ y) Real.Gamma) (hydrogenIon ℝ)
      ⟨by norm_num [hydrogenIon, hydrogenBase], rfl, rfl, rfl, rfl⟩ rfl 1
      [{ x := 3, y := 0, z := 0 }] (fun _ => 0) 0 (hydrogenState ℝ) ⟨rfl, rfl⟩
      (hydrogenAtom ℝ) rfl rfl { x := 3, y := 0, z := 0 } rfl
      (fieldNorm_ne_zero (hydrogenIon ℝ) (by norm_num [hydrogenIon, hydrogenBase])
        { x := 3, y := 0, z := 0 } (Or.inl (by norm_num)))
      (Real.exp_lt_one_iff.mpr (by
        have h := rateVal_pos (hydrogenIon ℝ) 0
          (1 / fieldNorm (MathOps.mk Real.exp Real.log Real.sqrt (fun x y => x ^ y) Real.Gamma) (hydrogenIon ℝ) { x := 3, y := 0, z := 0 })
          (by norm_num [hydrogenIon])
        have hdt : (hydrogenIon ℝ).dt = 1 / 10 := rfl
        rw [hdt]
        nlinarith))
      rfl (by decide) (by decide)⟩

/-- C15: in a call on a ready batch, the electrons appended to `new_electrons` are exactly
the electrons of the ionizing ions: every appended electron comes from an ion of the range
with `k_times ≠ 0`, has charge `-1`, as many position components as the electron container
has, each equal to the ion's component, and momentum components equal to the ion's times
`ionized_species_invmass`; and every ion of the range with `k_times ≠ 0` has such an
electron among the appended ones. -/
theorem C15_spawned_electron_fields (ops : MathOps R) (ion : IonizationTunnel R) (fuel : Nat)
    (hfuel : ion.atomic_number_ ≤ fuel) (particles new_electrons : Particles R)
    (ipart_min ipart_max : Nat) (Epart : List (LocalFields R)) (rand : Nat → Nat) (nrand : Nat)
    (h : CallReady ion particles new_electrons ipart_min ipart_max Epart) :
    ∃ st spawned,
      ionize ops ion fuel particles new_electrons ipart_min ipart_max Epart rand nrand
        = some st ∧
      st.new_electrons.data = new_electrons.data ++ spawned ∧
      (∀ e ∈ spawned, ∃ j p k, ipart_min ≤ j ∧ j < ipart_max ∧
        particles.data[j]? = some p ∧
        (kTimesOf ops ion fuel particles new_electrons ipart_min ipart_max Epart rand
          nrand)[j - ipart_min]? = some k ∧ k ≠ 0 ∧
        e.charge = -1 ∧
        e.position.length = new_electrons.dimension ∧
        (∀ i, i < new_electrons.dimension → e.position[i]? = p.position[i]?) ∧
        e.momentum = (p.momentum.1 * ion.ionized_species_invmass,
                      p.momentum.2.1 * ion.ionized_species_invmass,
                      p.momentum.2.2 * ion.ionized_species_invmass)) ∧
      (∀ j p k, ipart_min ≤ j → j < ipart_max → particles.data[j]? = some p →
        (kTimesOf ops ion fuel particles new_electrons ipart_min ipart_max Epart rand
          nrand)[j - ipart_min]? = some k → k ≠ 0 →
        electronOf ion new_electrons.dimension p k ∈ spawned) := by
  have hord := h.ordered
  obtain ⟨st, hst, hlen, _, _, _, _, _, hel⟩ :=
    particleLoop_spec ops ion fuel hfuel Epart rand (ipart_max - ipart_min) ipart_min _
      (batchReady_of_callReady ion particles new_electrons ipart_min ipart_max Epart nrand h)
  refine ⟨st, _, hst, hel, fun e he => ?_, fun j p k hj1 hj2 hp hk hk0 => ?_⟩
  · obtain ⟨i, p, k, hp, hk, hk0, rfl⟩ := expectedElectrons_mem ion _ e _ _ he
    have hi : i < ipart_max - ipart_min := by
      by_contra hc
      have hnone : (List.map Outcome.k_times (outcomeTrace ops ion fuel Epart rand
          (ipart_max - ipart_min) ipart_min
          (initState ion particles new_electrons nrand)))[i]? = none :=
        List.getElem?_eq_none (by rw [hlen]; omega)
      rw [hnone] at hk
      cases hk
    have hp2 : particles.data[ipart_min + i]? = some p := by
      rw [← getElem?_slice particles.data ipart_min (ipart_max - ipart_min) i hi]; exact hp
    obtain ⟨_, _, hdim⟩ := h.ions (ipart_min + i) p (by omega) (by omega) hp2
    refine ⟨ipart_min + i, p, k, by omega, by omega, hp2, ?_, hk0, rfl, ?_, fun c hc => ?_, rfl⟩
    · rw [show ipart_min + i - ipart_min = i by omega]; exact hk
    · show (p.position.take new_electrons.dimension).length = _
      rw [List.length_take]; exact Nat.min_eq_left hdim
    · show (p.position.take new_electrons.dimension)[c]? = _
      rw [List.getElem?_take, if_pos hc]
  · apply expectedElectrons_of_mem ion _ _ _ (j - ipart_min) p k _ hk hk0
    show ((particles.data.drop ipart_min).take (ipart_max - ipart_min))[j - ipart_min]? = some p
    rw [getElem?_slice particles.data ipart_min (ipart_max - ipart_min) (j - ipart_min)
      (by omega), show ipart_min + (j - ipart_min) = j by omega]
    exact hp

theorem C15_witness :
    (∃ st spawned,
      ionize (MathOps.mk Real.exp Real.log Real.sqrt (fun x y => x ^ y) Real.Gamma) (toyIon ℝ) 3 (toyParticles ℝ) (sampleElectrons ℝ) 0 2 (toyFields ℝ)
        toyRand 0 = some st ∧
      st.new_electrons.data = (sampleElectrons ℝ).data ++ spawned ∧
      (∀ e ∈ spawned, ∃ j p k, 0 ≤ j ∧ j < 2 ∧
        (toyParticles ℝ).data[j]? = some p ∧
        (kTimesOf (MathOps.mk Real.exp Real.log Real.sqrt (fun x y => x ^ y) Real.Gamma) (toyIon ℝ) 3 (toyParticles ℝ) (sampleElectrons ℝ) 0 2
          (toyFields ℝ) toyRand 0)[j - 0]? = some k ∧ k ≠ 0 ∧
        e.charge = -1 ∧
        e.position.length = (sampleElectrons ℝ).dimension ∧
        (∀ i, i < (sampleElectrons ℝ).dimension → e.position[i]? = p.position[i]?) ∧
        e.momentum = (p.momentum.1 * (toyIon ℝ).ionized_species_invmass,
                      p.momentum.2.1 * (toyIon ℝ).ionized_species_invmass,
                      p.momentum.2.2 * (toyIon ℝ).ionized_species_invmass)) ∧
      (∀ j p k, 0 ≤ j → j < 2 → (toyParticles ℝ).data[j]? = some p →
        (kTimesOf (MathOps.mk Real.exp Real.log Real.sqrt (fun x y => x ^ y) Real.Gamma) (toyIon ℝ) 3 (toyParticles ℝ) (sampleElectrons ℝ) 0 2
          (toyFields ℝ) toyRand 0)[j - 0]? = some k → k ≠ 0 →
        electronOf (toyIon ℝ) (sampleElectrons ℝ).dimension p k ∈ spawned)) ∧
    kTimesOf (MathOps.mk Real.exp Real.log Real.sqrt (fun x y => x ^ y) Real.Gamma) (toyIon ℝ) 3 (toyParticles ℝ) (sampleElectrons ℝ) 0 2 (toyFields ℝ)
      toyRand 0 = [1, 1] :=
  ⟨C15_spawned_electron_fields (MathOps.mk Real.exp Real.log Real.sqrt (fun x y => x ^ y) Real.Gamma) (toyIon ℝ) 3 (by decide) (toyParticles ℝ)
    (sampleElectrons ℝ) 0 2 (toyFields ℝ) toyRand 0 (toyCall_ready ℝ), toy_kTimes 2⟩

/-- C16: frame of a call on a ready batch and range `[ipart_min, ipart_max)`. The number
of ions and the dimensions of both containers are unchanged; every ion keeps its weight,
position and momentum; an ion with index outside the range is unchanged altogether (its
charge in particular); and the electron container is the old one followed by the appended
electrons. Only the charges of ions of the range may change. -/
theorem C16_frame (ops : MathOps R) (ion : IonizationTunnel R) (fuel : Nat)
    (hfuel : ion.atomic_number_ ≤ fuel) (particles new_electrons : Particles R)
    (ipart_min ipart_max : Nat) (Epart : List (LocalFields R)) (rand : Nat → Nat) (nrand : Nat)
    (h : CallReady ion particles new_electrons ipart_min ipart_max Epart) :
    ∃ st spawned,
      ionize ops ion fuel particles new_electrons ipart_min ipart_max Epart rand nrand
        = some st ∧
      st.particles.data.length = particles.data.length ∧
      st.particles.dimension = particles.dimension ∧
      st.new_electrons.dimension = new_electrons.dimension ∧
      st.new_electrons.data = new_electrons.data ++ spawned ∧
      ∀ j p, particles.data[j]? = some p →
        ∃ q : Particle R, st.particles.data[j]? = some q ∧ q.weight = p.weight ∧
          q.position = p.position ∧ q.momentum = p.momentum ∧
          (¬ (ipart_min ≤ j ∧ j < ipart_max) → q = p) := by
  have hord := h.ordered
  obtain ⟨st, hst, _, hdim, hlen, hdata, _, hed, hel⟩ :=
    particleLoop_spec ops ion fuel hfuel Epart rand (ipart_max - ipart_min) ipart_min _
      (batchReady_of_callReady ion particles new_electrons ipart_min ipart_max Epart nrand h)
  refine ⟨st, _, hst, hlen, hdim, hed, hel, fun j p hp => ?_⟩
  have hq := hdata j p hp
  by_cases hin : ipart_min ≤ j ∧ j < ipart_min + (ipart_max - ipart_min)
  · rw [if_pos hin] at hq
    exact ⟨_, hq, rfl, rfl, rfl, fun hout => absurd ⟨hin.1, by omega⟩ hout⟩
  · rw [if_neg hin] at hq
    exact ⟨p, hq, rfl, rfl, rfl, fun _ => rfl⟩

theorem C16_witness :
    ∃ st spawned,
      ionize (MathOps.mk Real.exp Real.log Real.sqrt (fun x y => x ^ y) Real.Gamma) (sampleIon ℝ) 3 (sampleParticles ℝ) (sampleElectrons ℝ) 0 3 (sampleFields ℝ)
        (fun _ => 9) 0 = some st ∧
      st.particles.data.length = (sampleParticles ℝ).data.length ∧
      st.particles.dimension = (sampleParticles ℝ).dimension ∧
      st.new_electrons.dimension = (sampleElectrons ℝ).dimension ∧
      st.new_electrons.data = (sampleElectrons ℝ).data ++ spawned ∧
      ∀ j p, (sampleParticles ℝ).data[j]? = some p →
        ∃ q : Particle ℝ, st.particles.data[j]? = some q ∧ q.weight = p.weight ∧
          q.position = p.position ∧ q.momentum = p.momentum ∧
          (¬ (0 ≤ j ∧ j < 3) → q = p) :=
  C16_frame (MathOps.mk Real.exp Real.log Real.sqrt (fun x y => x ^ y) Real.Gamma) (sampleIon ℝ) 3 (by decide) (sampleParticles ℝ)
    (sampleElectrons ℝ) 0 3 (sampleFields ℝ) (fun _ => 9) 0 (sampleCall_ready ℝ)

/-- C17 fails on the code: line 106 is `Dnom_tunnel[k_times+1] -= D_sum` and the scratch
vector `Dnom_tunnel` is declared once per call (line 39), so a particle that is not the
first of its batch finds in `Dnom_tunnel[k_times+1]` what an earlier particle left there
(the defect behind C9). For the batch `toyParticles` of two neutral ions of the three-level
species `toyIon`: the first ion is processed and leaves the state `st1`; the second ion is
processed from `st1` with one pass through the `while` loop, entered in the state
`entryState` built from the scratch vectors of `st1`; in that pass `D_sum ≠ 0`, and the
entry written by line 106 is `-2 * D_sum`, not `-D_sum`, so that `P_sum` receives
`(-2 * D_sum) * exp(-rate(newZ)*dt)`. -/
theorem C17_second_particle_entry_not_negated_sum :
    ∃ (st1 : State ℝ) (J : LocalFields ℝ) (l : BodyLocals ℝ),
      stepParticle (MathOps.mk Real.exp Real.log Real.sqrt (fun x y => x ^ y) Real.Gamma) (toyIon ℝ) 2 (toyFields ℝ) toyRand 0
        (initState (toyIon ℝ) (toyParticles ℝ) (sampleElectrons ℝ) 0) = some st1 ∧
      particleOutcome (MathOps.mk Real.exp Real.log Real.sqrt (fun x y => x ^ y) Real.Gamma) (toyIon ℝ) 2 (toyFields ℝ) toyRand 1 st1 =
        some (.processed (toySecond (MathOps.mk Real.exp Real.log Real.sqrt (fun x y => x ^ y) Real.Gamma)) J) ∧
      (toySecond (MathOps.mk Real.exp Real.log Real.sqrt (fun x y => x ^ y) Real.Gamma)).k_times = 1 ∧
      bodyLocals (MathOps.mk Real.exp Real.log Real.sqrt (fun x y => x ^ y) Real.Gamma) (toyIon ℝ) 0 (0 + 1) (1 / (64 / 9))
        (entryState (MathOps.mk Real.exp Real.log Real.sqrt (fun x y => x ^ y) Real.Gamma) (toyIon ℝ) 0 (1 / (64 / 9)) st1.scratch) = some l ∧
      (toySecond (MathOps.mk Real.exp Real.log Real.sqrt (fun x y => x ^ y) Real.Gamma)).scratch.Dnom_tunnel = l.Dnom_tunnel ∧
      l.D_sum ≠ 0 ∧
      l.Dnom_tunnel.getD 1 0 = -2 * l.D_sum ∧
      l.Dnom_tunnel.getD 1 0 ≠ -l.D_sum ∧
      l.P_sum = Real.exp (-(rateVal (MathOps.mk Real.exp Real.log Real.sqrt (fun x y => x ^ y) Real.Gamma) (toyIon ℝ) 0 (1 / (64 / 9))) * (toyIon ℝ).dt) * l.D_sum +
        (-2 * l.D_sum) *
          Real.exp (-(rateVal (MathOps.mk Real.exp Real.log Real.sqrt (fun x y => x ^ y) Real.Gamma) (toyIon ℝ) (0 + 1) (1 / (64 / 9))) * (toyIon ℝ).dt) := by
  obtain ⟨ho0, ha0⟩ := toy_first_step
  obtain ⟨hr0, hr1⟩ := toy_rates
  obtain ⟨b0, b1, b1b⟩ := toy_rate_bounds
  rw [← hr0] at b0
  rw [← hr1] at b1 b1b
  have ho1 := toy_second_outcome _
    (show (ionizedState (toyIon ℝ) 0
        (initState (toyIon ℝ) (toyParticles ℝ) (sampleElectrons ℝ) 0)
        { position := [0], momentum := (0, 0, 0), weight := 1, charge := 0 } (toyFirst (MathOps.mk Real.exp Real.log Real.sqrt (fun x y => x ^ y) Real.Gamma))
        (ionCurrent (toyIon ℝ) (fieldNorm (MathOps.mk Real.exp Real.log Real.sqrt (fun x y => x ^ y) Real.Gamma) (toyIon ℝ) { x := 64 / 9, y := 0, z := 0 })
          { x := 64 / 9, y := 0, z := 0 } (toyFirst (MathOps.mk Real.exp Real.log Real.sqrt (fun x y => x ^ y) Real.Gamma)).TotalIonizPot)).particles.data[1]? =
      some { position := [1], momentum := (0, 0, 0), weight := 1, charge := 0 } from rfl)
    rfl rfl
  obtain ⟨l, hl, hDn, hDs, hD1, hPs⟩ := bodyLocals_entry (MathOps.mk Real.exp Real.log Real.sqrt (fun x y => x ^ y) Real.Gamma) (toyIon ℝ) (toyIon_sized ℝ)
    (toyFirst (MathOps.mk Real.exp Real.log Real.sqrt (fun x y => x ^ y) Real.Gamma)).scratch ⟨rfl, rfl⟩ 0 (by decide) (1 / (64 / 9))
  have hold : (toyFirst (MathOps.mk Real.exp Real.log Real.sqrt (fun x y => x ^ y) Real.Gamma)).scratch.Dnom_tunnel.getD 1 0 = -l.D_sum := by
    rw [hDs]
    show (oneEventResult (MathOps.mk Real.exp Real.log Real.sqrt (fun x y => x ^ y) Real.Gamma) (toyIon ℝ) 0 (1 / (64 / 9)) (toyFresh ℝ)).scratch.Dnom_tunnel.getD
      1 0 = _
    rw [oneEventResult_dnom (MathOps.mk Real.exp Real.log Real.sqrt (fun x y => x ^ y) Real.Gamma) (toyIon ℝ) 0 (1 / (64 / 9)) (toyFresh ℝ) (by decide)]
    show (0 : ℝ) - (0 + 1 / _) = _
    ring
  have hne : l.D_sum ≠ 0 := by
    rw [hDs]
    have : rateVal (MathOps.mk Real.exp Real.log Real.sqrt (fun x y => x ^ y) Real.Gamma) (toyIon ℝ) (0 + 1) (1 / (64 / 9)) -
        rateVal (MathOps.mk Real.exp Real.log Real.sqrt (fun x y => x ^ y) Real.Gamma) (toyIon ℝ) 0 (1 / (64 / 9)) ≠ 0 := by
      have e : rateVal (MathOps.mk Real.exp Real.log Real.sqrt (fun x y => x ^ y) Real.Gamma) (toyIon ℝ) (0 + 1) (1 / (64 / 9)) =
        rateVal (MathOps.mk Real.exp Real.log Real.sqrt (fun x y => x ^ y) Real.Gamma) (toyIon ℝ) 1 (1 / (64 / 9)) := rfl
      rw [e]
      intro h
      linarith
    exact one_div_ne_zero this
  have hD1b : l.Dnom_tunnel.getD 1 0 = -2 * l.D_sum := by rw [hD1, hold]; ring
  refine ⟨_, _, l, ?_, ho1, rfl, hl, ?_, hne, hD1b, ?_, ?_⟩
  · rw [stepParticle, ho0, Option.some_bind]
    exact ha0
  · rw [hDn]; rfl
  · rw [hD1b]
    intro h
    apply hne
    linarith
  · rw [hPs, hold]
    congr 1
    ring

/-- C18: evaluation order of the running product. Let `s` be the state of the `while` loop
after `k` iterations for an ion of charge `Z` (the iteration entered with `k_times = k` can
run: `Z + k + 1 < atomic_number_`), from any scratch vectors. Then `Mult` holds the product
of `rate(Z+i)` for `i < k` on entry; line 100 multiplies it by `rate(Z+k)`, the rate of the
state being left, so that after line 100 `Mult` is the product of `rate(Z+i)` for
`i = 0..k`, which has no factor `rate(Z+k+1)`; the iteration adds `P_sum` times this
product to `Pint_tunnel`. Every run of the `while` loop that ends with `k_times = k + 1`
ends in the state `s1` that this iteration produces. -/
theorem C18_running_product_order (ops : MathOps R) (ion : IonizationTunnel R)
    (hs : Sized ion) (sc : Scratch R) (hsc : ScratchSized ion sc) (Z k : Nat) (invE : R)
    (hk : Z + k + 1 < ion.atomic_number_) :
    ∃ (s : LoopState R) (l : BodyLocals R) (s1 : LoopState R),
      iterBody ops ion Z invE k (entryState ops ion Z invE sc) = some s ∧
      s.k_times = k ∧
      bodyLocals ops ion Z (Z + 1) invE s = some l ∧
      loopBody ops ion Z (Z + 1) invE s = some s1 ∧
      s.Mult = Finset.prod (Finset.range k) (fun i => rateVal ops ion (Z + i) invE) ∧
      l.Mult = s.Mult * rateVal ops ion (Z + k) invE ∧
      l.Mult = Finset.prod (Finset.range (k + 1)) (fun i => rateVal ops ion (Z + i) invE) ∧
      s1.Mult = l.Mult ∧
      s1.Pint_tunnel = s.Pint_tunnel +
        l.P_sum * Finset.prod (Finset.range (k + 1)) (fun i => rateVal ops ion (Z + i) invE) ∧
      ∀ (ran_p : R) (fuel : Nat) (sN : LoopState R),
        whileLoop ops ion Z (Z + 1) invE ran_p fuel (entryState ops ion Z invE sc) = some sN →
        sN.k_times = k + 1 → sN = s1 := by
  obtain ⟨s, hit, hinv, hkn, hrates, hmult, _⟩ :=
    iterBody_spec ops ion hs sc hsc Z invE k (by omega)
  have hk2 : s.k_times < ion.atomic_number_ - (Z + 1) := by omega
  obtain ⟨l, hl, _, _, _, _, _, hlM⟩ := bodyLocals_spec ops ion hs Z invE s hinv hk2
  obtain ⟨s1, hb, _, _, _, _, hm1, hp1⟩ := loopBody_of_locals ops ion hs Z invE s hinv hk2 l hl
  have hM1 : l.Mult = s.Mult * rateVal ops ion (Z + k) invE := by
    rw [hlM, hkn, hrates k (le_refl k)]
  have hM2 : l.Mult =
      Finset.prod (Finset.range (k + 1)) (fun i => rateVal ops ion (Z + i) invE) := by
    rw [hM1, hmult, Finset.prod_range_succ]; rfl
  refine ⟨s, l, s1, hit, hkn, hl, hb, hmult, hM1, hM2, hm1, ?_, ?_⟩
  · rw [hp1, hM2]
  · intro ran_p fuel sN hN hkN
    have h := whileLoop_result ops ion hs sc hsc Z (by omega) invE ran_p fuel sN hN
    rw [hkN] at h
    have h2 : (iterBody ops ion Z invE k (entryState ops ion Z invE sc)).bind
        (loopBody ops ion Z (Z + 1) invE) = some sN := h
    rw [hit, Option.some_bind, hb] at h2
    exact (Option.some.inj h2).symm

theorem C18_witness :
    ∃ (s : LoopState ℝ) (l : BodyLocals ℝ) (s1 : LoopState ℝ),
      iterBody (MathOps.mk Real.exp Real.log Real.sqrt (fun x y => x ^ y) Real.Gamma) (sampleIon ℝ) 0 1 1 (entryState (MathOps.mk Real.exp Real.log Real.sqrt (fun x y => x ^ y) Real.Gamma) (sampleIon ℝ) 0 1 (sampleScratch ℝ)) =
        some s ∧
      s.k_times = 1 ∧
      bodyLocals (MathOps.mk Real.exp Real.log Real.sqrt (fun x y => x ^ y) Real.Gamma) (sampleIon ℝ) 0 (0 + 1) 1 s = some l ∧
      loopBody (MathOps.mk Real.exp Real.log Real.sqrt (fun x y => x ^ y) Real.Gamma) (sampleIon ℝ) 0 (0 + 1) 1 s = some s1 ∧
      s.Mult = Finset.prod (Finset.range 1) (fun i => rateVal (MathOps.mk Real.exp Real.log Real.sqrt (fun x y => x ^ y) Real.Gamma) (sampleIon ℝ) (0 + i) 1) ∧
      l.Mult = s.Mult * rateVal (MathOps.mk Real.exp Real.log Real.sqrt (fun x y => x ^ y) Real.Gamma) (sampleIon ℝ) (0 + 1) 1 ∧
      l.Mult = Finset.prod (Finset.range (1 + 1))
        (fun i => rateVal (MathOps.mk Real.exp Real.log Real.sqrt (fun x y => x ^ y) Real.Gamma) (sampleIon ℝ) (0 + i) 1) ∧
      s1.Mult = l.Mult ∧
      s1.Pint_tunnel = s.Pint_tunnel +
        l.P_sum * Finset.prod (Finset.range (1 + 1))
          (fun i => rateVal (MathOps.mk Real.exp Real.log Real.sqrt (fun x y => x ^ y) Real.Gamma) (sampleIon ℝ) (0 + i) 1) ∧
      ∀ (ran_p : ℝ) (fuel : Nat) (sN : LoopState ℝ),
        whileLoop (MathOps.mk Real.exp Real.log Real.sqrt (fun x y => x ^ y) Real.Gamma) (sampleIon ℝ) 0 (0 + 1) 1 ran_p fuel
          (entryState (MathOps.mk Real.exp Real.log Real.sqrt (fun x y => x ^ y) Real.Gamma) (sampleIon ℝ) 0 1 (sampleScratch ℝ)) = some sN →
        sN.k_times = 1 + 1 → sN = s1 :=
  C18_running_product_order (MathOps.mk Real.exp Real.log Real.sqrt (fun x y => x ^ y) Real.Gamma) (sampleIon ℝ) (sampleIon_sized ℝ) (sampleScratch ℝ)
    (sampleScratch_sized ℝ) 0 1 1 (by decide)

/-- C19: closed form of the denominator recursion. For an ion of charge `Z` processed on
fresh scratch vectors (`Dnom_tunnel` all zero before line 89 sets `D[0] = 1`), with
`r j = rate(Z+j)` pairwise distinct for `j ≤ m + 1`, the iteration number `m + 1` of the
`while` loop (entered in the state `s` left by `m` iterations) ends in a state `s1` with
`k_times = m + 1` in which every entry `i ≤ m + 1` of `Dnom_tunnel` is the product over
`j ≤ m + 1`, `j ≠ i`, of `1 / (r j - r i)`; the entry written at line 106 is the
partial-fraction coefficient of the newest state, and `P_sum` after line 107 is the
divided-difference combination `sum over i ≤ m + 1 of exp(-r i * dt) * prod over j ≠ i of
1 / (r j - r i)`. Every run of the `while` loop that ends with `k_times = m + 1` ends in
this state `s1`. -/
theorem C19_partial_fraction_closed_form (ops : MathOps R) (ion : IonizationTunnel R)
    (hs : Sized ion) (sc : Scratch R) (hsc : ScratchSized ion sc) (Z m : Nat) (invE : R)
    (hm : Z + m + 1 < ion.atomic_number_)
    (hfresh : ∀ j, sc.Dnom_tunnel.getD j 0 = 0)
    (hdist : ∀ i j, i ≤ m + 1 → j ≤ m + 1 → i ≠ j →
      rateVal ops ion (Z + i) invE ≠ rateVal ops ion (Z + j) invE) :
    ∃ (s : LoopState R) (l : BodyLocals R) (s1 : LoopState R),
      iterBody ops ion Z invE m (entryState ops ion Z invE sc) = some s ∧
      bodyLocals ops ion Z (Z + 1) invE s = some l ∧
      loopBody ops ion Z (Z + 1) invE s = some s1 ∧
      s1.k_times = m + 1 ∧
      s1.scratch.Dnom_tunnel = l.Dnom_tunnel ∧
      (∀ i, i ≤ m + 1 → s1.scratch.Dnom_tunnel.getD i 0 =
        Finset.prod ((Finset.range (m + 1 + 1)).erase i)
          (fun j => 1 / (rateVal ops ion (Z + j) invE - rateVal ops ion (Z + i) invE))) ∧
      l.Dnom_tunnel.getD (m + 1) 0 =
        partialFraction (fun j => rateVal ops ion (Z + j) invE) (m + 1) (m + 1) ∧
      l.P_sum = dividedDifference (fun x => ops.exp (-x * ion.dt))
        (fun j => rateVal ops ion (Z + j) invE) (m + 1) ∧
      ∀ (ran_p : R) (fuel : Nat) (sN : LoopState R),
        whileLoop ops ion Z (Z + 1) invE ran_p fuel (entryState ops ion Z invE sc) = some sN →
        sN.k_times = m + 1 → sN = s1 := by
  obtain ⟨s, hit, hinv, hkn, hrates, _, _⟩ :=
    iterBody_spec ops ion hs sc hsc Z invE m (by omega)
  have hk2 : s.k_times < ion.atomic_number_ - (Z + 1) := by omega
  obtain ⟨l, hl, _, _, _, _, hlPs, _⟩ := bodyLocals_spec ops ion hs Z invE s hinv hk2
  obtain ⟨s1, hb, _, hk1, _, hd1, _, _⟩ := loopBody_of_locals ops ion hs Z invE s hinv hk2 l hl
  obtain ⟨s2, hit2, _, _, _, _, hclosed⟩ :=
    iterBody_spec ops ion hs sc hsc Z invE (m + 1) (by omega)
  have h2 : (iterBody ops ion Z invE m (entryState ops ion Z invE sc)).bind
      (loopBody ops ion Z (Z + 1) invE) = some s2 := hit2
  rw [hit, Option.some_bind, hb] at h2
  have hs2 : s1 = s2 := Option.some.inj h2
  subst hs2
  obtain ⟨hc1, _⟩ := hclosed (fun j _ => hfresh j) hdist
  refine ⟨s, l, s1, hit, hl, hb, by omega, hd1, hc1, ?_, ?_, ?_⟩
  · rw [← hd1]; exact hc1 (m + 1) (le_refl _)
  · rw [hlPs, hkn]
    unfold dividedDifference
    rw [Finset.sum_range_succ (fun i => ops.exp (-rateVal ops ion (Z + i) invE * ion.dt) *
      partialFraction (fun j => rateVal ops ion (Z + j) invE) (m + 1) i) (m + 1)]
    rw [← hd1, hc1 (m + 1) (le_refl _), show Z + 1 + m = Z + (m + 1) by omega,
      mul_comm (partialFraction _ _ _)]
    congr 1
    apply Finset.sum_congr rfl
    intro i hi
    rw [Finset.mem_range] at hi
    rw [hc1 i (by omega), hrates i (by omega)]
  · intro ran_p fuel sN hN hkN
    have h := whileLoop_result ops ion hs sc hsc Z (by omega) invE ran_p fuel sN hN
    rw [hkN] at h
    have h3 : (iterBody ops ion Z invE m (entryState ops ion Z invE sc)).bind
        (loopBody ops ion Z (Z + 1) invE) = some sN := h
    rw [hit, Option.some_bind, hb] at h3
    exact (Option.some.inj h3).symm

theorem C19_witness :
    ∃ (s : LoopState ℝ) (l : BodyLocals ℝ) (s1 : LoopState ℝ),
      iterBody (MathOps.mk Real.exp Real.log Real.sqrt (fun x y => x ^ y) Real.Gamma) (toyIon ℝ) 0 (1 / (64 / 9)) 0
        (entryState (MathOps.mk Real.exp Real.log Real.sqrt (fun x y => x ^ y) Real.Gamma) (toyIon ℝ) 0 (1 / (64 / 9)) (toyFresh ℝ)) = some s ∧
      bodyLocals (MathOps.mk Real.exp Real.log Real.sqrt (fun x y => x ^ y) Real.Gamma) (toyIon ℝ) 0 (0 + 1) (1 / (64 / 9)) s = some l ∧
      loopBody (MathOps.mk Real.exp Real.log Real.sqrt (fun x y => x ^ y) Real.Gamma) (toyIon ℝ) 0 (0 + 1) (1 / (64 / 9)) s = some s1 ∧
      s1.k_times = 0 + 1 ∧
      s1.scratch.Dnom_tunnel = l.Dnom_tunnel ∧
      (∀ i, i ≤ 0 + 1 → s1.scratch.Dnom_tunnel.getD i 0 =
        Finset.prod ((Finset.range (0 + 1 + 1)).erase i)
          (fun j => 1 / (rateVal (MathOps.mk Real.exp Real.log Real.sqrt (fun x y => x ^ y) Real.Gamma) (toyIon ℝ) (0 + j) (1 / (64 / 9)) -
            rateVal (MathOps.mk Real.exp Real.log Real.sqrt (fun x y => x ^ y) Real.Gamma) (toyIon ℝ) (0 + i) (1 / (64 / 9))))) ∧
      l.Dnom_tunnel.getD (0 + 1) 0 =
        partialFraction (fun j => rateVal (MathOps.mk Real.exp Real.log Real.sqrt (fun x y => x ^ y) Real.Gamma) (toyIon ℝ) (0 + j) (1 / (64 / 9))) (0 + 1)
          (0 + 1) ∧
      l.P_sum = dividedDifference (fun x => Real.exp (-x * (toyIon ℝ).dt))
        (fun j => rateVal (MathOps.mk Real.exp Real.log Real.sqrt (fun x y => x ^ y) Real.Gamma) (toyIon ℝ) (0 + j) (1 / (64 / 9))) (0 + 1) ∧
      ∀ (ran_p : ℝ) (fuel : Nat) (sN : LoopState ℝ),
        whileLoop (MathOps.mk Real.exp Real.log Real.sqrt (fun x y => x ^ y) Real.Gamma) (toyIon ℝ) 0 (0 + 1) (1 / (64 / 9)) ran_p fuel
          (entryState (MathOps.mk Real.exp Real.log Real.sqrt (fun x y => x ^ y) Real.Gamma) (toyIon ℝ) 0 (1 / (64 / 9)) (toyFresh ℝ)) = some sN →
        sN.k_times = 0 + 1 → sN = s1 :=
  C19_partial_fraction_closed_form (MathOps.mk Real.exp Real.log Real.sqrt (fun x y => x ^ y) Real.Gamma) (toyIon ℝ) (toyIon_sized ℝ) (toyFresh ℝ) ⟨rfl, rfl⟩
    0 0 (1 / (64 / 9)) (by decide)
    (by
      intro j
      rcases j with _ | _ | _ | j <;> simp [toyFresh, List.replicate])
    (by
      intro i j hi hj hij
      obtain ⟨hr0, hr1⟩ := toy_rates
      obtain ⟨b0, b1, b1b⟩ := toy_rate_bounds
      rw [← hr0] at b0
      rw [← hr1] at b1 b1b
      have hi2 : i = 0 ∨ i = 1 := by omega
      have hj2 : j = 0 ∨ j = 1 := by omega
      rcases hi2 with rfl | rfl <;> rcases hj2 with rfl | rfl
      · exact absurd rfl hij
      · intro h
        have h2 : rateVal (MathOps.mk Real.exp Real.log Real.sqrt (fun x y => x ^ y) Real.Gamma) (toyIon ℝ) 0 (1 / (64 / 9)) =
            rateVal (MathOps.mk Real.exp Real.log Real.sqrt (fun x y => x ^ y) Real.Gamma) (toyIon ℝ) 1 (1 / (64 / 9)) := h
        linarith
      · intro h
        have h2 : rateVal (MathOps.mk Real.exp Real.log Real.sqrt (fun x y => x ^ y) Real.Gamma) (toyIon ℝ) 1 (1 / (64 / 9)) =
            rateVal (MathOps.mk Real.exp Real.log Real.sqrt (fun x y => x ^ y) Real.Gamma) (toyIon ℝ) 0 (1 / (64 / 9)) := h
        linarith
      · exact absurd rfl hij)

end Smilei
